import Mathlib

/-!
# Verification of the `bezier_dp_fit` piecewise quadratic Bézier fitter

This file gives a shallow embedding, in Lean 4, of the Rust sources of
`bezier_dp_fit` (geometry primitives, the least-squares segment fitter, the
validated configuration object, and the dynamic-programming segmentation
optimizer), together with theorems settling the frozen specification claims.

Modelling conventions:
* Rust `f64` arithmetic is modelled by exact real arithmetic over `ℝ`
  (floating-point rounding is out of scope); `f64::INFINITY`, which the
  code stores in `FitConfig.max_error` during the ε-fallback, is modelled
  by `⊤` of `WithTop ℝ`.
* `usize` is modelled by `ℕ`; `saturating_sub` is `ℕ` subtraction.
* The `usize::MAX` / `f64::INFINITY` sentinels of the DP arrays are
  modelled by `Option (ℕ × ℝ)` (`none` = unreached); the DP never lets a
  genuine segment count reach `usize::MAX`, so adoption against the
  sentinel is unconditional.
* The unbounded recursion of `DPOptimizer::optimize` (which re-invokes
  itself with the ε = ∞ fallback config) is modelled by a function
  returning `Option FitResult`: the fallback config is a fixed point of
  the fallback transformation (`fallbackConfig_idem` below), so if the
  fallback pass also finds no cover the Rust recursion repeats the same
  call forever; the model returns `none` exactly in that divergent case.
-/

namespace BezierDP

/-- `Point2D` from `src/geometry/point.rs`: a planar point of two `f64`s. -/
structure Point2D where
  x : ℝ
  y : ℝ

instance : Inhabited Point2D := ⟨⟨0, 0⟩⟩

namespace Point2D

/-- `Point2D::distance_to`: Euclidean distance `sqrt(dx*dx + dy*dy)`. -/
noncomputable def distance_to (p q : Point2D) : ℝ :=
  Real.sqrt ((p.x - q.x) * (p.x - q.x) + (p.y - q.y) * (p.y - q.y))

/-- `Point2D::distance_squared`: squared Euclidean distance. -/
def distance_squared (p q : Point2D) : ℝ :=
  (p.x - q.x) * (p.x - q.x) + (p.y - q.y) * (p.y - q.y)

/-- `Point2D::lerp`: linear interpolation `p + (q - p) * t`, componentwise. -/
def lerp (p q : Point2D) (t : ℝ) : Point2D :=
  ⟨p.x + (q.x - p.x) * t, p.y + (q.y - p.y) * t⟩

@[ext] theorem ext' {p q : Point2D} (hx : p.x = q.x) (hy : p.y = q.y) : p = q := by
  cases p; cases q; simp_all

end Point2D

/-- `QuadraticBezier` from `src/geometry/bezier.rs`. -/
structure QuadraticBezier where
  p0 : Point2D
  p1 : Point2D
  p2 : Point2D

namespace QuadraticBezier

/-- `QuadraticBezier::evaluate`: de Casteljau form
`(1-t)² p0 + 2(1-t)t p1 + t² p2`. -/
def evaluate (b : QuadraticBezier) (t : ℝ) : Point2D :=
  ⟨(1 - t) * (1 - t) * b.p0.x + 2 * (1 - t) * t * b.p1.x + t * t * b.p2.x,
   (1 - t) * (1 - t) * b.p0.y + 2 * (1 - t) * t * b.p1.y + t * t * b.p2.y⟩

/-- Minimum of a list of reals.  Models Rust's
`iter().min_by(partial_cmp).unwrap_or(INFINITY)`: the empty case (which in
the source yields `f64::INFINITY`) is unreachable because
`distance_to_point` always draws at least 50 samples; we return `0` there. -/
def listMin : List ℝ → ℝ
  | [] => 0
  | x :: xs => xs.foldl min x

/-- The adaptive sample count of `QuadraticBezier::distance_to_point`:
`(curve_length / 2.0).max(50.0).min(200.0) as usize` — note the `as usize`
cast truncates toward zero (`Nat.floor`). -/
noncomputable def numSamples (b : QuadraticBezier) : ℕ :=
  ⌊min (max ((b.p0.distance_to b.p1 + b.p1.distance_to b.p2) / 2) 50) 200⌋₊

/-- `QuadraticBezier::distance_to_point`: minimum over `numSamples`
uniformly spaced parameters of the distance from the sampled curve point
to `q`. -/
noncomputable def distance_to_point (b : QuadraticBezier) (q : Point2D) : ℝ :=
  listMin ((List.range (numSamples b)).map fun i : ℕ =>
    (b.evaluate ((i : ℝ) / ((numSamples b - 1 : ℕ) : ℝ))).distance_to q)

end QuadraticBezier

/-- `FitError` from `src/fitting/fitter.rs`. -/
structure FitError where
  bezier : QuadraticBezier
  error : ℝ

/-- `FitConfig` from `src/optimizer/config.rs`.  `max_error` lives in
`WithTop ℝ` because the ε-fallback stores `f64::INFINITY` in it. -/
structure FitConfig where
  min_segment_len : ℕ
  max_segment_len : ℕ
  max_error : WithTop ℝ

namespace FitConfig

/-- `FitConfig::new`: the strict constructor.  The source `assert!`s
`min_segment_len ≥ 3`, `max_segment_len ≥ min_segment_len` and
`max_error > 0`; a panic is modelled as `none`. -/
noncomputable def new (minLen maxLen : ℕ) (err : WithTop ℝ) : Option FitConfig :=
  if 3 ≤ minLen ∧ minLen ≤ maxLen ∧ 0 < err then some ⟨minLen, maxLen, err⟩ else none

/-- `FitConfig::new_clamped`: the repairing constructor. -/
noncomputable def new_clamped (minLen maxLen : ℕ) (err : WithTop ℝ) : FitConfig :=
  let m := max minLen 3
  ⟨m, max maxLen m, max err ((1 / 10 : ℝ) : WithTop ℝ)⟩

end FitConfig

namespace BezierFitter

/-- Cumulative chord lengths of `BezierFitter::compute_t_values`:
`distances[0] = 0`, `distances[i] = distances[i-1] + ‖points[i] - points[i-1]‖`. -/
noncomputable def cumGo (prev : Point2D) (acc : ℝ) : List Point2D → List ℝ
  | [] => []
  | q :: rest => (acc + q.distance_to prev) :: cumGo q (acc + q.distance_to prev) rest

/-- The full cumulative-distance list (same length as the input). -/
noncomputable def cumDists : List Point2D → List ℝ
  | [] => []
  | p :: rest => 0 :: cumGo p 0 rest

/-- `BezierFitter::compute_t_values`: chord-length parameterization,
falling back to uniform parameters when the total length is below `1e-10`. -/
noncomputable def compute_t_values (pts : List Point2D) : List ℝ :=
  let n := pts.length
  let dists := cumDists pts
  let total := dists.getLastD 0
  if total < 1 / 10 ^ 10 then
    (List.range n).map fun i : ℕ => (i : ℝ) / ((max (n - 1) 1 : ℕ) : ℝ)
  else
    dists.map (· / total)

/-- `BezierFitter::compute_error`: mean over the samples of the squared
point-to-curve distance; `0` on the empty list. -/
noncomputable def compute_error (b : QuadraticBezier) : List Point2D → ℝ
  | [] => 0
  | l@(_ :: _) => (l.map fun p => b.distance_to_point p ^ 2).sum / l.length

/-- One step of the normal-equation accumulation loop of
`BezierFitter::fit_segment`: the accumulator is `(sum_x, sum_y, sum_weight)`,
and samples whose basis weight `2(1-t)t` is below `1e-10` in absolute value
are skipped. -/
noncomputable def fitStep (p0 p2 : Point2D) (acc : ℝ × ℝ × ℝ) (pt : Point2D × ℝ) : ℝ × ℝ × ℝ :=
  let t := pt.2
  let mt := 1 - t
  let w := 2 * mt * t
  if |w| < 1 / 10 ^ 10 then acc
  else
    (acc.1 + w * (pt.1.x - mt * mt * p0.x - t * t * p2.x),
     acc.2.1 + w * (pt.1.y - mt * mt * p0.y - t * t * p2.y),
     acc.2.2 + w * w)

/-- The least-squares branch of `fit_segment` (`n ≥ 3`): pins the
endpoints, accumulates the weighted normal equations over all samples, and
solves for the middle control point (defaulting to the chord midpoint when
the weight mass is below `1e-10`). -/
noncomputable def fitLS (pts : List Point2D) : QuadraticBezier :=
  let p0 := pts.headI
  let p2 := pts.getLastD ⟨0, 0⟩
  let tvals := compute_t_values pts
  let s := (pts.zip tvals).foldl (fitStep p0 p2) (0, 0, 0)
  let p1 := if 1 / 10 ^ 10 < s.2.2 then Point2D.mk (s.1 / s.2.2) (s.2.1 / s.2.2)
            else p0.lerp p2 (1 / 2)
  ⟨p0, p1, p2⟩

/-- `BezierFitter::fit_segment`.  The source's final `if n < 3` branch is
dead code (the `n = 0, 1, 2` cases are already handled), so it does not
appear here. -/
noncomputable def fit_segment : List Point2D → FitError
  | [] => ⟨⟨⟨0, 0⟩, ⟨0, 0⟩, ⟨0, 0⟩⟩, 0⟩
  | [p] => ⟨⟨p, p, p⟩, 0⟩
  | [p, q] => ⟨⟨p, p.lerp q (1 / 2), q⟩, 0⟩
  | l@(_ :: _ :: _ :: _) =>
    let b := fitLS l
    ⟨b, compute_error b l⟩

end BezierFitter

/-! ## Basic lemmas about the geometry primitives -/

theorem Point2D.distance_to_nonneg (p q : Point2D) : 0 ≤ p.distance_to q :=
  Real.sqrt_nonneg _

theorem Point2D.distance_to_self (p : Point2D) : p.distance_to p = 0 := by
  simp [Point2D.distance_to]

/-- Evaluate a distance between points with literal coordinates. -/
theorem Point2D.distance_to_eval (p q : Point2D) (c : ℝ) (hc : 0 ≤ c)
    (h : (p.x - q.x) * (p.x - q.x) + (p.y - q.y) * (p.y - q.y) = c * c) :
    p.distance_to q = c := by
  rw [Point2D.distance_to, h, show c * c = c ^ 2 by ring, Real.sqrt_sq hc]

namespace QuadraticBezier

theorem listMin_le_of_mem {l : List ℝ} {x : ℝ} (hx : x ∈ l) : listMin l ≤ x := by
  match l with
  | [] => cases hx
  | a :: as =>
    have key : ∀ (as : List ℝ) (a : ℝ), as.foldl min a ≤ a ∧ ∀ y ∈ as, as.foldl min a ≤ y := by
      intro as
      induction as with
      | nil => intro a; exact ⟨le_refl _, by simp⟩
      | cons b bs ih =>
        intro a
        refine ⟨le_trans ((ih (min a b)).1) (min_le_left _ _), ?_⟩
        intro y hy
        rcases List.mem_cons.1 hy with rfl | hy
        · exact le_trans ((ih (min a y)).1) (min_le_right _ _)
        · exact (ih (min a b)).2 y hy
    rcases List.mem_cons.1 hx with rfl | hx
    · exact (key as x).1
    · exact (key as a).2 x hx

theorem le_listMin {l : List ℝ} {c : ℝ} (hne : l ≠ []) (h : ∀ x ∈ l, c ≤ x) :
    c ≤ listMin l := by
  match l with
  | [] => exact absurd rfl hne
  | a :: as =>
    have key : ∀ (as : List ℝ) (a : ℝ), c ≤ a → (∀ y ∈ as, c ≤ y) → c ≤ as.foldl min a := by
      intro as
      induction as with
      | nil => intro a ha _; exact ha
      | cons b bs ih =>
        intro a ha hall
        exact ih (min a b) (le_min ha (hall b (by simp))) fun y hy => hall y (by simp [hy])
    exact key as a (h a (by simp)) fun y hy => h y (by simp [hy])

theorem listMin_nonneg {l : List ℝ} (h : ∀ x ∈ l, (0:ℝ) ≤ x) : 0 ≤ listMin l := by
  match l with
  | [] => simp [listMin]
  | a :: as => exact le_listMin (by simp) h

theorem listMin_const {l : List ℝ} {c : ℝ} (hne : l ≠ []) (h : ∀ x ∈ l, x = c) :
    listMin l = c := by
  have h1 : listMin l ≤ c := by
    match l with
    | [] => exact absurd rfl hne
    | a :: as => exact (h a (by simp)) ▸ listMin_le_of_mem (by simp)
  have h2 : c ≤ listMin l := le_listMin hne fun x hx => le_of_eq (h x hx).symm
  exact le_antisymm h1 h2

theorem numSamples_ge (b : QuadraticBezier) : 50 ≤ numSamples b := by
  have h : (50 : ℝ) ≤ min (max ((b.p0.distance_to b.p1 + b.p1.distance_to b.p2) / 2) 50) 200 :=
    le_min (le_max_right _ _) (by norm_num)
  calc (50 : ℕ) = ⌊(50 : ℝ)⌋₊ := by norm_num
    _ ≤ _ := Nat.floor_le_floor h

theorem numSamples_pos (b : QuadraticBezier) : 0 < numSamples b :=
  lt_of_lt_of_le (by norm_num) (numSamples_ge b)

/-- When the control polygon is short (`L ≤ 100`) the sample count clamps
to exactly 50. -/
theorem numSamples_eq_50 (b : QuadraticBezier)
    (h : b.p0.distance_to b.p1 + b.p1.distance_to b.p2 ≤ 100) : numSamples b = 50 := by
  rw [numSamples]
  have h1 : max ((b.p0.distance_to b.p1 + b.p1.distance_to b.p2) / 2) 50 = 50 :=
    max_eq_right (by linarith)
  rw [h1, min_eq_left (by norm_num)]
  norm_num

theorem sampleList_ne_nil (b : QuadraticBezier) (q : Point2D) :
    ((List.range (numSamples b)).map fun i : ℕ =>
      (b.evaluate ((i : ℝ) / ((numSamples b - 1 : ℕ) : ℝ))).distance_to q) ≠ [] := by
  apply List.ne_nil_of_length_pos
  rw [List.length_map, List.length_range]
  exact numSamples_pos b

theorem distance_to_point_nonneg (b : QuadraticBezier) (q : Point2D) :
    0 ≤ b.distance_to_point q := by
  apply listMin_nonneg
  intro x hx
  obtain ⟨i, _, rfl⟩ := List.mem_map.1 hx
  exact Point2D.distance_to_nonneg _ _

/-- A fully degenerate Bézier evaluates to its single point everywhere. -/
theorem evaluate_const (p : Point2D) (t : ℝ) :
    (⟨p, p, p⟩ : QuadraticBezier).evaluate t = p := by
  apply Point2D.ext' <;> · simp only [evaluate]; ring

/-- Distance from a query point to a fully degenerate Bézier is the plain
point distance. -/
theorem distance_to_point_const (p q : Point2D) :
    (⟨p, p, p⟩ : QuadraticBezier).distance_to_point q = p.distance_to q := by
  rw [distance_to_point]
  apply listMin_const (sampleList_ne_nil _ _)
  intro x hx
  obtain ⟨i, _, rfl⟩ := List.mem_map.1 hx
  rw [evaluate_const]

/-- A lower bound that holds for every sampled curve point transfers to
`distance_to_point`. -/
theorem le_distance_to_point (b : QuadraticBezier) (q : Point2D) {c : ℝ}
    (h : ∀ t : ℝ, 0 ≤ t → t ≤ 1 → c ≤ (b.evaluate t).distance_to q) :
    c ≤ b.distance_to_point q := by
  apply le_listMin (sampleList_ne_nil _ _)
  intro x hx
  obtain ⟨i, hi, rfl⟩ := List.mem_map.1 hx
  rw [List.mem_range] at hi
  have hs := numSamples_ge b
  have h1 : 1 ≤ numSamples b - 1 := by omega
  have hpos : (0:ℝ) < ((numSamples b - 1 : ℕ) : ℝ) := by
    have h2 : (0:ℕ) < numSamples b - 1 := h1
    exact_mod_cast h2
  apply h
  · positivity
  · rw [div_le_one hpos]
    have h3 : i ≤ numSamples b - 1 := by omega
    exact_mod_cast h3

/-- `distance_to_point` is bounded above by the distance to any one
sampled curve point. -/
theorem distance_to_point_le (b : QuadraticBezier) (q : Point2D) {i : ℕ}
    (hi : i < numSamples b) :
    b.distance_to_point q ≤ (b.evaluate ((i : ℝ) / ((numSamples b - 1 : ℕ) : ℝ))).distance_to q := by
  apply listMin_le_of_mem
  exact List.mem_map.2 ⟨i, List.mem_range.2 hi, rfl⟩

end QuadraticBezier

namespace BezierFitter

/-- Modelled from the spec: the residual loop of
`BezierFitter::fit_segment_with_limit`, whose defining source file is not
under `src/` (only its caller `DPOptimizer::compute_error_cache` is).
Spec §4.2 "Truncated residual": "let S be the running sum of squared
distances and B := ε·N the acceptance budget; after each sample, if S > B,
return S/N immediately without completing the sum"; on completion the full
mean S/N is returned.  `n` is the total sample count N of the run. -/
noncomputable def truncGo (b : QuadraticBezier) (n : ℕ) (limit : WithTop ℝ) :
    ℝ → List Point2D → ℝ
  | s, [] => s / n
  | s, p :: rest =>
    let s' := s + b.distance_to_point p ^ 2
    if ((s' : ℝ) : WithTop ℝ) > limit * ((n : ℝ) : WithTop ℝ) then s' / n
    else truncGo b n limit s' rest

/-- Modelled from the spec: `BezierFitter::fit_segment_with_limit`
(declared in the crate's fitting module, which is missing from `src/`).
Per spec §4.2 it applies the same boundary policies and least-squares fit
as `fit_segment` and differs only in computing the truncated residual. -/
noncomputable def fit_segment_with_limit : List Point2D → WithTop ℝ → FitError
  | [], _ => ⟨⟨⟨0, 0⟩, ⟨0, 0⟩, ⟨0, 0⟩⟩, 0⟩
  | [p], _ => ⟨⟨p, p, p⟩, 0⟩
  | [p, q], _ => ⟨⟨p, p.lerp q (1 / 2), q⟩, 0⟩
  | l@(_ :: _ :: _ :: _), limit =>
    let b := fitLS l
    ⟨b, truncGo b l.length limit 0 l⟩

/-- The fitted curve of the limited variant is that of `fit_segment`. -/
theorem fit_segment_with_limit_bezier (l : List Point2D) (limit : WithTop ℝ) :
    (fit_segment_with_limit l limit).bezier = (fit_segment l).bezier := by
  match l with
  | [] => rfl
  | [_] => rfl
  | [_, _] => rfl
  | _ :: _ :: _ :: _ => rfl

/-- The truncated loop never exceeds the full mean over the remaining
samples. -/
theorem truncGo_le (b : QuadraticBezier) (n : ℕ) (limit : WithTop ℝ) (hn : 0 < n) :
    ∀ (rest : List Point2D) (s : ℝ),
      truncGo b n limit s rest ≤ (s + (rest.map fun p => b.distance_to_point p ^ 2).sum) / n := by
  have hnR : (0:ℝ) < (n : ℝ) := by exact_mod_cast hn
  intro rest
  induction rest with
  | nil => intro s; simp [truncGo]
  | cons p ps ih =>
    intro s
    rw [truncGo]
    have hsum : 0 ≤ (ps.map fun p => b.distance_to_point p ^ 2).sum :=
      List.sum_nonneg fun x hx => by
        obtain ⟨y, _, rfl⟩ := List.mem_map.1 hx
        positivity
    by_cases hfire : (((s + b.distance_to_point p ^ 2 : ℝ) : WithTop ℝ)
        > limit * ((n : ℝ) : WithTop ℝ))
    · rw [if_pos hfire]
      apply div_le_div_of_nonneg_right ?_ hnR.le
      simp only [List.map_cons, List.sum_cons]
      linarith
    · rw [if_neg hfire]
      refine (ih _).trans (le_of_eq ?_)
      simp only [List.map_cons, List.sum_cons]
      ring_nf

/-- The truncated loop and the full mean sit on the same side of the
budget `limit`. -/
theorem truncGo_gt_iff (b : QuadraticBezier) (n : ℕ) (limit : WithTop ℝ) (hn : 0 < n) :
    ∀ (rest : List Point2D) (s : ℝ), 0 ≤ s →
      (((truncGo b n limit s rest : ℝ) : WithTop ℝ) > limit ↔
        ((((s + (rest.map fun p => b.distance_to_point p ^ 2).sum) / n : ℝ) : WithTop ℝ) > limit)) := by
  have hnR : (0:ℝ) < (n : ℝ) := by exact_mod_cast hn
  intro rest
  induction rest with
  | nil => intro s _; simp [truncGo]
  | cons p ps ih =>
    intro s hs
    have hd : 0 ≤ b.distance_to_point p ^ 2 := by positivity
    have hsum : 0 ≤ (ps.map fun p => b.distance_to_point p ^ 2).sum :=
      List.sum_nonneg fun x hx => by
        obtain ⟨y, _, rfl⟩ := List.mem_map.1 hx
        positivity
    rw [truncGo]
    by_cases hfire : (((s + b.distance_to_point p ^ 2 : ℝ) : WithTop ℝ)
        > limit * ((n : ℝ) : WithTop ℝ))
    · rw [if_pos hfire]
      -- the budget fired: both the returned partial mean and the full mean
      -- strictly exceed `limit`
      match limit with
      | ⊤ =>
        have hne : (((n : ℝ) : WithTop ℝ)) ≠ 0 := by
          exact_mod_cast ne_of_gt hnR
        rw [WithTop.top_mul hne] at hfire
        exact absurd hfire (by simp)
      | (e : ℝ) =>
        rw [gt_iff_lt, ← WithTop.coe_mul, WithTop.coe_lt_coe] at hfire
        have h1 : e < (s + b.distance_to_point p ^ 2) / n := by
          rw [lt_div_iff hnR]; linarith
        have h2 : e < (s + (List.map (fun p => b.distance_to_point p ^ 2) (p :: ps)).sum) / n := by
          apply h1.trans_le
          apply div_le_div_of_nonneg_right ?_ hnR.le
          simp only [List.map_cons, List.sum_cons]
          linarith
        exact iff_of_true (by exact_mod_cast h1) (by exact_mod_cast h2)
    · rw [if_neg hfire]
      rw [ih _ (by linarith)]
      have harith : (s + b.distance_to_point p ^ 2 +
          (List.map (fun p => b.distance_to_point p ^ 2) ps).sum)
          = s + (List.map (fun p => b.distance_to_point p ^ 2) (p :: ps)).sum := by
        simp only [List.map_cons, List.sum_cons]
        ring
      rw [harith]

/-- C3 bridge, packaged for lists: the limited fit's residual is at most
the exact residual of `fit_segment`, and the two residuals sit on the same
side of the budget. -/
theorem fit_segment_with_limit_le (l : List Point2D) (limit : WithTop ℝ) :
    (fit_segment_with_limit l limit).error ≤ (fit_segment l).error := by
  match l with
  | [] => simp [fit_segment_with_limit, fit_segment]
  | [p] => simp [fit_segment_with_limit, fit_segment]
  | [p, q] => simp [fit_segment_with_limit, fit_segment]
  | p :: q :: r :: rest =>
    have h := truncGo_le (fitLS (p :: q :: r :: rest)) (p :: q :: r :: rest).length limit
      (by simp) (p :: q :: r :: rest) 0
    rw [zero_add] at h
    simpa [fit_segment_with_limit, fit_segment, compute_error] using h

theorem fit_segment_with_limit_gt_iff (l : List Point2D) (limit : WithTop ℝ) :
    (((fit_segment_with_limit l limit).error : ℝ) : WithTop ℝ) > limit ↔
      (((fit_segment l).error : ℝ) : WithTop ℝ) > limit := by
  match l with
  | [] => rfl
  | [p] => rfl
  | [p, q] => rfl
  | p :: q :: r :: rest =>
    have h := truncGo_gt_iff (fitLS (p :: q :: r :: rest)) (p :: q :: r :: rest).length limit
      (by simp) (p :: q :: r :: rest) 0 le_rfl
    rw [zero_add] at h
    simpa [fit_segment_with_limit, fit_segment, compute_error] using h

end BezierFitter

/-! ## The dynamic-programming segmentation optimizer (`src/optimizer/dp.rs`) -/

/-- `FitResult` from `src/optimizer/dp.rs` (serialization helpers omitted:
no claim concerns them). -/
structure FitResult where
  curves : List QuadraticBezier
  total_error : ℝ
  num_segments : ℕ
  config : FitConfig

/-- One DP cell: the pair `(seg_dp[i], err_dp[i])` collapsed to
`Option (ℕ × ℝ)` (`none` models the `usize::MAX` / `f64::INFINITY`
sentinels, which are always set together), and `parent[i]`. -/
abbrev Cell : Type := Option (ℕ × ℝ) × ℕ

namespace DPOptimizer

open BezierFitter

/-- `config.max_segment_len.max(1)` from the optimizer. -/
def maxLenEff (cfg : FitConfig) : ℕ := max cfg.max_segment_len 1

/-- Lower end of the inner loop: `i.saturating_sub(max_len - 1)`. -/
def jStart (cfg : FitConfig) (i : ℕ) : ℕ := i - (maxLenEff cfg - 1)

/-- Upper end of the inner loop:
`if min_segment_len > 0 { i.saturating_sub(min_segment_len - 1) } else { i }`. -/
def jEnd (cfg : FitConfig) (i : ℕ) : ℕ :=
  if 0 < cfg.min_segment_len then i - (cfg.min_segment_len - 1) else i

/-- The inner-loop index list `start..=end` (empty when `start > end`). -/
def jList (cfg : FitConfig) (i : ℕ) : List ℕ :=
  List.range' (jStart cfg i) (jEnd cfg i + 1 - jStart cfg i)

/-- The interval `(j, i)` is generated by the loops of
`compute_error_cache` (and hence is a key of the cache). -/
def cacheCond (n : ℕ) (cfg : FitConfig) (j i : ℕ) : Prop :=
  cfg.min_segment_len ≤ i ∧ i < n ∧ jStart cfg i ≤ j ∧ j ≤ jEnd cfg i

instance (n : ℕ) (cfg : FitConfig) (j i : ℕ) : Decidable (cacheCond n cfg j i) := by
  unfold cacheCond; infer_instance

/-- `&points[j..=i]`. -/
def slice (pts : List Point2D) (j i : ℕ) : List Point2D :=
  (pts.drop j).take (i + 1 - j)

/-- `cache.get(&(j, i))`: the cache of `compute_error_cache` holds exactly
the intervals generated by its loops, each mapped (by the parallel map;
insertion order is immaterial for a key→value map) to
`fit_segment_with_limit(&points[j..=i], max_error)`. -/
noncomputable def cacheLookup (pts : List Point2D) (cfg : FitConfig) (j i : ℕ) :
    Option FitError :=
  if cacheCond pts.length cfg j i then
    some (fit_segment_with_limit (slice pts j i) cfg.max_error)
  else none

/-- The body of the inner relaxation loop of `DPOptimizer::optimize` for
interval `(j, i)`: reject when the cached residual exceeds `max_error` or
`seg_dp[j]` is unreached; otherwise adopt the candidate iff it is
lexicographically smaller.  The current working value of entry `i` is the
accumulator `acc`, so reads go through `Function.update st i acc` exactly
as the Rust code reads its partially-updated arrays. -/
noncomputable def relax (pts : List Point2D) (cfg : FitConfig) (st : ℕ → Cell) (i : ℕ)
    (acc : Cell) (j : ℕ) : Cell :=
  match cacheLookup pts cfg j i with
  | none => acc
  | some fit =>
    if ((fit.error : ℝ) : WithTop ℝ) > cfg.max_error then acc
    else
      match (Function.update st i acc) j with
      | (none, _) => acc
      | (some (sj, ej), _) =>
        match acc with
        | (none, _) => (some (sj + 1, ej + fit.error), j)
        | (some (si, ei), _) =>
          if sj + 1 < si ∨ (sj + 1 = si ∧ ej + fit.error < ei) then
            (some (sj + 1, ej + fit.error), j)
          else acc

/-- One iteration of the outer loop (`for i in min_segment_len..n`). -/
noncomputable def relaxRow (pts : List Point2D) (cfg : FitConfig) (st : ℕ → Cell) (i : ℕ) :
    ℕ → Cell :=
  Function.update st i ((jList cfg i).foldl (relax pts cfg st i) (st i))

/-- Initial DP state: `seg_dp[0] = 0, err_dp[0] = 0.0`, everything else
unreached, all parents `0`. -/
def dpInit : ℕ → Cell := fun k => if k = 0 then (some (0, 0), 0) else (none, 0)

/-- DP state after processing all rows `min_segment_len ≤ i < m`. -/
noncomputable def dpUpTo (pts : List Point2D) (cfg : FitConfig) (m : ℕ) : ℕ → Cell :=
  (List.range' cfg.min_segment_len (m - cfg.min_segment_len)).foldl
    (relaxRow pts cfg) dpInit

/-- Final DP state (all rows `min_segment_len ≤ i < points.len()`). -/
noncomputable def dpFinal (pts : List Point2D) (cfg : FitConfig) : ℕ → Cell :=
  dpUpTo pts cfg pts.length

/-- `DPOptimizer::reconstruct_curves`, driven by the parent array.  The
Rust loop pushes segments back-to-front and reverses at the end; this
recursion produces the same (front-to-back) list.  `fuel` bounds the loop:
for reached cells the parent strictly decreases, so `fuel = e` always
suffices and the `fuel = 0` clause is unreachable. -/
noncomputable def backtrackAux (pts : List Point2D) (cfg : FitConfig) (par : ℕ → ℕ) :
    ℕ → ℕ → List QuadraticBezier
  | 0, _ => []
  | fuel + 1, e =>
    if e = 0 then []
    else
      backtrackAux pts cfg par fuel (par e) ++
        (match cacheLookup pts cfg (par e) e with
         | some fit => [fit.bezier]
         | none => [])

/-- One full pass of `DPOptimizer::optimize` (boundary cases, cache
build, DP, backtrack), *without* the ε-fallback: `none` models the
"no valid path found" outcome in which the source recurses. -/
noncomputable def optimizeOnce (pts : List Point2D) (cfg : FitConfig) : Option FitResult :=
  if pts.length = 0 then some ⟨[], 0, 0, cfg⟩
  else if pts.length ≤ cfg.min_segment_len then
    some ⟨[(fit_segment pts).bezier], (fit_segment pts).error, 1, cfg⟩
  else
    match (dpFinal pts cfg (pts.length - 1)).1 with
    | none => none
    | some (_, e) =>
      some ⟨backtrackAux pts cfg (fun k => (dpFinal pts cfg k).2)
              (pts.length - 1) (pts.length - 1),
            e,
            (backtrackAux pts cfg (fun k => (dpFinal pts cfg k).2)
              (pts.length - 1) (pts.length - 1)).length,
            cfg⟩

/-- The config used by the ε-fallback:
`FitConfig::new_clamped(min_segment_len, max_segment_len, f64::INFINITY)`. -/
noncomputable def fallbackConfig (cfg : FitConfig) : FitConfig :=
  FitConfig.new_clamped cfg.min_segment_len cfg.max_segment_len ⊤

/-- The fallback config is a fixed point of the fallback transformation:
a second failing pass would recurse with the *same* arguments. -/
theorem fallbackConfig_idem (cfg : FitConfig) :
    fallbackConfig (fallbackConfig cfg) = fallbackConfig cfg := by
  have hm : max (max cfg.min_segment_len 3) 3 = max cfg.min_segment_len 3 :=
    max_eq_left (le_max_right _ _)
  have he : max (⊤ : WithTop ℝ) ((1 / 10 : ℝ) : WithTop ℝ) = ⊤ := max_eq_left le_top
  simp only [fallbackConfig, FitConfig.new_clamped, FitConfig.mk.injEq, hm, he]
  exact ⟨trivial, max_eq_left (le_max_right _ _), trivial⟩

/-- `DPOptimizer::optimize` including the ε-fallback.  Because
`fallbackConfig` is idempotent (`fallbackConfig_idem`), if the fallback
pass also finds no admissible cover the Rust recursion repeats the same
call forever; that divergence is modelled by `none`. -/
noncomputable def optimize (pts : List Point2D) (cfg : FitConfig) : Option FitResult :=
  match optimizeOnce pts cfg with
  | some r => some r
  | none => optimizeOnce pts (fallbackConfig cfg)

/-- `fit_curve`, the public entry point of the crate. -/
noncomputable def fit_curve (pts : List Point2D) (cfg : FitConfig) : Option FitResult :=
  optimize pts cfg

/-- Every `FitResult` built by a single pass carries the config of that
pass. -/
theorem optimizeOnce_config {pts : List Point2D} {cfg : FitConfig} {r : FitResult}
    (h : optimizeOnce pts cfg = some r) : r.config = cfg := by
  unfold optimizeOnce at h
  by_cases h0 : pts.length = 0
  · rw [if_pos h0, Option.some_inj] at h
    subst h; rfl
  · rw [if_neg h0] at h
    by_cases h1 : pts.length ≤ cfg.min_segment_len
    · rw [if_pos h1, Option.some_inj] at h
      subst h; rfl
    · rw [if_neg h1] at h
      rcases hm : (dpFinal pts cfg (pts.length - 1)).1 with _ | ⟨s, e⟩ <;> rw [hm] at h
      · cases h
      · rw [Option.some_inj] at h
        subst h; rfl

/-! ### DP state bookkeeping -/

/-- A row only writes its own entry. -/
theorem relaxRow_apply_ne (pts : List Point2D) (cfg : FitConfig) (st : ℕ → Cell)
    {i k : ℕ} (hk : k ≠ i) : relaxRow pts cfg st i k = st k :=
  Function.update_noteq hk _ _

/-- A row's own entry is the inner fold. -/
theorem relaxRow_apply_self (pts : List Point2D) (cfg : FitConfig) (st : ℕ → Cell)
    (i : ℕ) : relaxRow pts cfg st i i = (jList cfg i).foldl (relax pts cfg st i) (st i) :=
  Function.update_same _ _ _

theorem foldl_relaxRow_not_mem (pts : List Point2D) (cfg : FitConfig) {k : ℕ} :
    ∀ (rows : List ℕ) (st : ℕ → Cell), k ∉ rows →
      (rows.foldl (relaxRow pts cfg) st) k = st k := by
  intro rows
  induction rows with
  | nil => intro st _; rfl
  | cons r rs ih =>
    intro st hk
    rw [List.foldl_cons, ih _ fun hmem => hk (List.mem_cons.2 (Or.inr hmem)),
      relaxRow_apply_ne _ _ _ fun he => hk (List.mem_cons.2 (Or.inl he))]

/-- Entries below `m` are frozen once the rows up to `m` have run. -/
theorem dpUpTo_stable (pts : List Point2D) (cfg : FitConfig) {k m m' : ℕ}
    (hk : k < m) (hm : m ≤ m') : dpUpTo pts cfg m' k = dpUpTo pts cfg m k := by
  by_cases hmin : cfg.min_segment_len ≤ m
  · have hsplit : List.range' cfg.min_segment_len (m' - cfg.min_segment_len) =
        List.range' cfg.min_segment_len (m - cfg.min_segment_len) ++
          List.range' m (m' - m) := by
      have h := List.range'_append cfg.min_segment_len (m - cfg.min_segment_len) (m' - m) 1
      rw [show cfg.min_segment_len + 1 * (m - cfg.min_segment_len) = m by omega] at h
      rw [h]
      congr 1
      omega
    rw [dpUpTo, hsplit, List.foldl_append]
    exact foldl_relaxRow_not_mem pts cfg _ _ fun hmem => by
      have := List.mem_range'_1.1 hmem
      omega
  · have h2 : dpUpTo pts cfg m = dpInit := by
      rw [dpUpTo, show m - cfg.min_segment_len = 0 by omega]
      rfl
    rw [h2, dpUpTo]
    exact foldl_relaxRow_not_mem pts cfg _ _ fun hmem => by
      have := List.mem_range'_1.1 hmem
      omega

/-- Entries below the first processed row stay at their initial value. -/
theorem dpUpTo_lt_min (pts : List Point2D) (cfg : FitConfig) {k m : ℕ}
    (hk : k < cfg.min_segment_len) : dpUpTo pts cfg m k = dpInit k := by
  rw [dpUpTo]
  exact foldl_relaxRow_not_mem pts cfg _ _ fun hmem => by
    have := List.mem_range'_1.1 hmem
    omega

theorem dpFinal_lt_min (pts : List Point2D) (cfg : FitConfig) {k : ℕ}
    (hk : k < cfg.min_segment_len) : dpFinal pts cfg k = dpInit k :=
  dpUpTo_lt_min pts cfg hk

/-- The final value of a processed entry is the fold of its own row over
the state frozen by the earlier rows. -/
theorem dpFinal_at (pts : List Point2D) (cfg : FitConfig) {k : ℕ}
    (hmin : cfg.min_segment_len ≤ k) (hk : k < pts.length) :
    dpFinal pts cfg k =
      (jList cfg k).foldl (relax pts cfg (dpUpTo pts cfg k) k) (dpUpTo pts cfg k k) := by
  have h1 : dpFinal pts cfg k = dpUpTo pts cfg (k + 1) k :=
    dpUpTo_stable pts cfg (Nat.lt_succ_self k) hk
  have hsplit : List.range' cfg.min_segment_len (k + 1 - cfg.min_segment_len) =
      List.range' cfg.min_segment_len (k - cfg.min_segment_len) ++ List.range' k 1 := by
    have h := List.range'_append cfg.min_segment_len (k - cfg.min_segment_len) 1 1
    rw [show cfg.min_segment_len + 1 * (k - cfg.min_segment_len) = k by omega] at h
    rw [h]
    congr 1
    omega
  rw [h1, dpUpTo, hsplit, List.foldl_append]
  show relaxRow pts cfg (dpUpTo pts cfg k) k k = _
  exact relaxRow_apply_self pts cfg _ k

/-- While row `k` runs, the entries it may read agree with the final
state. -/
theorem dpUpTo_eq_final (pts : List Point2D) (cfg : FitConfig) {j k : ℕ}
    (hj : j < k) (hk : k ≤ pts.length) : dpUpTo pts cfg k j = dpFinal pts cfg j :=
  (dpUpTo_stable pts cfg hj hk).symm

/-- Relaxing against an unreached predecessor leaves the accumulator
unchanged, whatever the cached residual is. -/
theorem relax_skip (pts : List Point2D) (cfg : FitConfig) (st : ℕ → Cell) (i : ℕ)
    (acc : Cell) (j : ℕ) (hj : ((Function.update st i acc) j).1 = none) :
    relax pts cfg st i acc j = acc := by
  unfold relax
  split
  · rfl
  · split
    · rfl
    · split
      · rfl
      · rename_i hcell
        rw [hcell] at hj
        cases hj

end DPOptimizer

/-! ## Coincident sample runs -/

namespace BezierFitter

theorem getLastD_replicate_zero : ∀ n : ℕ, (List.replicate n (0:ℝ)).getLastD 0 = 0
  | 0 => rfl
  | n + 1 => by
    rw [List.replicate_succ, List.getLastD_cons]
    cases n with
    | zero => rfl
    | succ m =>
      rw [List.replicate_succ, List.getLastD_cons]
      have := getLastD_replicate_zero (m + 1)
      rwa [List.replicate_succ, List.getLastD_cons] at this

theorem cumGo_replicate (p : Point2D) : ∀ n : ℕ,
    cumGo p 0 (List.replicate n p) = List.replicate n 0
  | 0 => rfl
  | n + 1 => by
    rw [List.replicate_succ, cumGo]
    rw [Point2D.distance_to_self, add_zero, cumGo_replicate p n, List.replicate_succ]

theorem cumDists_replicate (p : Point2D) (n : ℕ) :
    cumDists (List.replicate n p) = List.replicate n 0 := by
  cases n with
  | zero => rfl
  | succ m =>
    rw [List.replicate_succ, cumDists, cumGo_replicate p m, List.replicate_succ]

/-- On a coincident run the chord length degenerates and the `t` values
fall back to the uniform grid. -/
theorem compute_t_values_replicate (p : Point2D) (n : ℕ) :
    compute_t_values (List.replicate n p) =
      (List.range n).map fun i : ℕ => (i : ℝ) / ((max (n - 1) 1 : ℕ) : ℝ) := by
  rw [compute_t_values]
  simp only [cumDists_replicate, getLastD_replicate_zero, List.length_replicate]
  rw [if_pos (by norm_num)]

theorem zip_replicate_eq_map {α β : Type} (p : α) : ∀ (l : List β) (n : ℕ), l.length ≤ n →
    (List.replicate n p).zip l = l.map fun t => (p, t)
  | [], n, _ => by simp
  | t :: ts, 0, h => by simp at h
  | t :: ts, n + 1, h => by
    rw [List.replicate_succ, List.zip_cons_cons,
      zip_replicate_eq_map p ts n (by simpa using h), List.map_cons]

/-- `sum_weight` only grows along the accumulation loop. -/
theorem foldl_fitStep_sw_mono (p0 p2 : Point2D) : ∀ (l : List (Point2D × ℝ)) (acc : ℝ × ℝ × ℝ),
    acc.2.2 ≤ (l.foldl (fitStep p0 p2) acc).2.2 := by
  intro l
  induction l with
  | nil => intro acc; exact le_rfl
  | cons q qs ih =>
    intro acc
    rw [List.foldl_cons]
    refine le_trans ?_ (ih (fitStep p0 p2 acc q))
    rw [fitStep]
    split
    · exact le_rfl
    · have : (0:ℝ) ≤ (2 * (1 - q.2) * q.2) * (2 * (1 - q.2) * q.2) := mul_self_nonneg _
      simp only
      linarith

/-- Any unskipped sample gives a lower bound on the final `sum_weight`. -/
theorem foldl_fitStep_sw_ge (p0 p2 : Point2D) {pt : Point2D × ℝ} (l : List (Point2D × ℝ))
    (hmem : pt ∈ l) (hw : ¬ |2 * (1 - pt.2) * pt.2| < 1 / 10 ^ 10)
    (acc : ℝ × ℝ × ℝ) (hacc : 0 ≤ acc.2.2) :
    (2 * (1 - pt.2) * pt.2) * (2 * (1 - pt.2) * pt.2) ≤ (l.foldl (fitStep p0 p2) acc).2.2 := by
  obtain ⟨l1, l2, rfl⟩ := List.append_of_mem hmem
  rw [List.foldl_append, List.foldl_cons]
  refine le_trans ?_ (foldl_fitStep_sw_mono p0 p2 l2 _)
  have h1 : 0 ≤ (l1.foldl (fitStep p0 p2) acc).2.2 :=
    le_trans hacc (foldl_fitStep_sw_mono p0 p2 l1 acc)
  rw [fitStep, if_neg hw]
  simp only
  linarith

/-- On a coincident run the accumulated sums stay proportional to the
common point, so the solved control point is that point. -/
theorem foldl_fitStep_replicate (p : Point2D) : ∀ (l : List (Point2D × ℝ)) (acc : ℝ × ℝ × ℝ),
    (∀ q ∈ l, q.1 = p) → acc.1 = acc.2.2 * p.x → acc.2.1 = acc.2.2 * p.y →
      (l.foldl (fitStep p p) acc).1 = (l.foldl (fitStep p p) acc).2.2 * p.x ∧
        (l.foldl (fitStep p p) acc).2.1 = (l.foldl (fitStep p p) acc).2.2 * p.y := by
  intro l
  induction l with
  | nil => intro acc _ hx hy; exact ⟨hx, hy⟩
  | cons q qs ih =>
    intro acc hall hx hy
    rw [List.foldl_cons]
    have hq : q.1 = p := hall q (by simp)
    refine ih _ (fun r hr => hall r (by simp [hr])) ?_ ?_ <;>
    · rw [fitStep]
      split
      · simpa
      · simp only [hq, hx, hy]
        ring

theorem fitLS_replicate (p : Point2D) (n : ℕ) (hn : 3 ≤ n) :
    fitLS (List.replicate n p) = ⟨p, p, p⟩ := by
  have hhead : (List.replicate n p).headI = p := by
    cases n with
    | zero => omega
    | succ m => rw [List.replicate_succ]; rfl
  have hlast : (List.replicate n p).getLastD ⟨0, 0⟩ = p := by
    have : ∀ m : ℕ, (List.replicate (m + 1) p).getLastD ⟨0, 0⟩ = p := by
      intro m
      induction m with
      | zero => rfl
      | succ k ihk =>
        rw [List.replicate_succ, List.getLastD_cons]
        rw [List.replicate_succ, List.getLastD_cons] at ihk ⊢
        exact ihk
    cases n with
    | zero => omega
    | succ m => exact this m
  rw [fitLS, hhead, hlast, compute_t_values_replicate]
  have hzip : (List.replicate n p).zip
      ((List.range n).map fun i : ℕ => (i : ℝ) / ((max (n - 1) 1 : ℕ) : ℝ)) =
      ((List.range n).map fun i : ℕ => (i : ℝ) / ((max (n - 1) 1 : ℕ) : ℝ)).map
        fun t => (p, t) := by
    apply zip_replicate_eq_map
    rw [List.length_map, List.length_range]
  rw [hzip]
  set l := ((List.range n).map fun i : ℕ => (i : ℝ) / ((max (n - 1) 1 : ℕ) : ℝ)).map
    fun t => (p, t) with hl
  have hprop := foldl_fitStep_replicate p l (0, 0, 0)
    (fun q hq => by
      obtain ⟨t, _, rfl⟩ := List.mem_map.1 hq
      rfl)
    (by simp) (by simp)
  -- the midpoint sample is never skipped, bounding `sum_weight` below
  have hm2 : 2 ≤ n - 1 := by omega
  have hmax : max (n - 1) 1 = n - 1 := max_eq_left (by omega)
  set m := n - 1 with hmdef
  set t0 : ℝ := ((m / 2 : ℕ) : ℝ) / ((max m 1 : ℕ) : ℝ) with ht0
  have hmR : (2:ℝ) ≤ (m : ℝ) := by exact_mod_cast hm2
  have ht0val : t0 = ((m / 2 : ℕ) : ℝ) / (m : ℝ) := by rw [ht0, hmax]
  have hdiv_le : ((m / 2 : ℕ) : ℝ) ≤ (m : ℝ) / 2 := by
    have := Nat.div_mul_le_self m 2
    have h2 : ((m / 2 : ℕ) : ℝ) * 2 ≤ (m : ℝ) := by exact_mod_cast this
    linarith
  have hdiv_ge : ((m : ℝ) - 1) / 2 ≤ ((m / 2 : ℕ) : ℝ) := by
    have h1 : m ≤ 2 * (m / 2) + 1 := by omega
    have h2 : (m : ℝ) ≤ 2 * ((m / 2 : ℕ) : ℝ) + 1 := by exact_mod_cast h1
    linarith
  have ht0low : (1:ℝ) / 4 ≤ t0 := by
    rw [ht0val, le_div_iff (by linarith : (0:ℝ) < (m:ℝ))]
    nlinarith
  have ht0high : t0 ≤ 1 / 2 := by
    rw [ht0val]
    rw [div_le_iff (by linarith : (0:ℝ) < (m:ℝ))]
    nlinarith
  have hw0 : (1:ℝ) / 8 ≤ 2 * (1 - t0) * t0 := by nlinarith
  have hw0abs : ¬ |2 * (1 - t0) * t0| < 1 / 10 ^ 10 := by
    rw [abs_of_nonneg (by nlinarith)]
    push_neg
    linarith
  have hmem : ((p, t0) : Point2D × ℝ) ∈ l := by
    rw [hl]
    apply List.mem_map_of_mem
    apply List.mem_map.2
    exact ⟨m / 2, List.mem_range.2 (by omega), rfl⟩
  have hsw := foldl_fitStep_sw_ge p p l hmem hw0abs (0, 0, 0) le_rfl
  have hswpos : 1 / 10 ^ 10 < (l.foldl (fitStep p p) (0, 0, 0)).2.2 := by
    have h64 : (1:ℝ) / 64 ≤ (2 * (1 - t0) * t0) * (2 * (1 - t0) * t0) := by nlinarith
    calc (1:ℝ) / 10 ^ 10 < 1 / 64 := by norm_num
      _ ≤ _ := le_trans h64 hsw
  rw [if_pos hswpos]
  have hswne : (l.foldl (fitStep p p) (0, 0, 0)).2.2 ≠ 0 := by
    intro hzero
    rw [hzero] at hswpos
    norm_num at hswpos
  congr 1
  apply Point2D.ext'
  · rw [hprop.1, mul_comm, mul_div_assoc, div_self hswne, mul_one]
  · rw [hprop.2, mul_comm, mul_div_assoc, div_self hswne, mul_one]

theorem lerp_self (p : Point2D) (t : ℝ) : p.lerp p t = p := by
  apply Point2D.ext' <;> · simp only [Point2D.lerp]; ring

theorem compute_error_replicate (p : Point2D) (n : ℕ) :
    compute_error ⟨p, p, p⟩ (List.replicate n p) = 0 := by
  cases n with
  | zero => rfl
  | succ m =>
    have hmap : ((List.replicate (m + 1) p).map
        fun q => (⟨p, p, p⟩ : QuadraticBezier).distance_to_point q ^ 2) =
        List.replicate (m + 1) 0 := by
      rw [List.map_replicate, QuadraticBezier.distance_to_point_const,
        Point2D.distance_to_self]
      norm_num
    rw [List.replicate_succ]
    simp only [compute_error]
    rw [List.replicate_succ] at hmap
    rw [hmap]
    simp

theorem fit_segment_replicate (p : Point2D) (n : ℕ) (hn : 1 ≤ n) :
    fit_segment (List.replicate n p) = ⟨⟨p, p, p⟩, 0⟩ := by
  match n, hn with
  | 1, _ => rfl
  | 2, _ =>
    show FitError.mk ⟨p, p.lerp p (1 / 2), p⟩ 0 = _
    rw [lerp_self]
  | (k + 3), _ =>
    have hrepl : List.replicate (k + 3) p = p :: p :: p :: List.replicate k p := by
      rw [show k + 3 = (k + 2) + 1 by ring, List.replicate_succ,
        show k + 2 = (k + 1) + 1 by ring, List.replicate_succ, List.replicate_succ]
    rw [hrepl]
    show FitError.mk (fitLS (p :: p :: p :: List.replicate k p))
      (compute_error (fitLS (p :: p :: p :: List.replicate k p))
        (p :: p :: p :: List.replicate k p)) = _
    rw [← hrepl, fitLS_replicate p (k + 3) (by omega), compute_error_replicate]

theorem truncGo_replicate (p : Point2D) (n : ℕ) (limit : WithTop ℝ) :
    ∀ k : ℕ, truncGo ⟨p, p, p⟩ n limit 0 (List.replicate k p) = 0 := by
  intro k
  induction k with
  | zero => simp [truncGo]
  | succ m ih =>
    rw [List.replicate_succ, truncGo]
    simp only [QuadraticBezier.distance_to_point_const, Point2D.distance_to_self]
    norm_num
    intro _
    exact ih

theorem fit_segment_with_limit_replicate (p : Point2D) (n : ℕ) (limit : WithTop ℝ)
    (hn : 1 ≤ n) :
    fit_segment_with_limit (List.replicate n p) limit = ⟨⟨p, p, p⟩, 0⟩ := by
  match n, hn with
  | 1, _ => rfl
  | 2, _ =>
    show FitError.mk ⟨p, p.lerp p (1 / 2), p⟩ 0 = _
    rw [lerp_self]
  | (k + 3), _ =>
    have hrepl : List.replicate (k + 3) p = p :: p :: p :: List.replicate k p := by
      rw [show k + 3 = (k + 2) + 1 by ring, List.replicate_succ,
        show k + 2 = (k + 1) + 1 by ring, List.replicate_succ, List.replicate_succ]
    rw [hrepl]
    show FitError.mk (fitLS (p :: p :: p :: List.replicate k p))
      (truncGo (fitLS (p :: p :: p :: List.replicate k p))
        (p :: p :: p :: List.replicate k p).length limit 0
        (p :: p :: p :: List.replicate k p)) = _
    rw [← hrepl, fitLS_replicate p (k + 3) (by omega), truncGo_replicate]

end BezierFitter

/-! ## The degenerate length window `L_min = L_max`

The DP's outer loop starts at `i = min_segment_len`, so an interval ending
below `min_segment_len` is never cached nor relaxed; with
`min_segment_len = max_segment_len` every candidate predecessor `j = i - 2`
of a processed row is itself unreachable, the DP never leaves index 0, and
both the main pass and the ε = ∞ fallback report no path: the source
recurses forever. -/

namespace DPOptimizer

theorem dpInit_ne {k : ℕ} (hk : k ≠ 0) : dpInit k = (none, 0) := by
  rw [dpInit, if_neg hk]

theorem dpUpTo_ge (pts : List Point2D) (cfg : FitConfig) {i m : ℕ} (hi : m ≤ i) :
    dpUpTo pts cfg m i = dpInit i := by
  rw [dpUpTo]
  exact foldl_relaxRow_not_mem pts cfg _ _ fun hmem => by
    have := List.mem_range'_1.1 hmem
    omega

theorem dp_minmax3_none (pts : List Point2D) (cfg : FitConfig)
    (hmin : cfg.min_segment_len = 3) (hmax : cfg.max_segment_len = 3) :
    ∀ i, 3 ≤ i → i < pts.length → (dpFinal pts cfg i).1 = none := by
  intro i
  induction i using Nat.strong_induction_on with
  | _ i ih =>
    intro h3 hn
    rw [dpFinal_at pts cfg (by omega) hn]
    have hjl : jList cfg i = [i - 2] := by
      rw [jList, jStart, jEnd, maxLenEff, hmin, hmax, if_pos (by norm_num)]
      rw [show (3 : ℕ) - 1 = 2 from rfl, show max 3 1 - 1 = 2 from rfl,
        show i - 2 + 1 - (i - 2) = 1 by omega]
      rfl
    rw [hjl, List.foldl_cons, List.foldl_nil]
    rw [dpUpTo_ge pts cfg le_rfl, dpInit_ne (by omega)]
    rw [relax_skip]
    rw [Function.update_noteq (by omega)]
    rw [dpUpTo_eq_final pts cfg (by omega) (by omega)]
    by_cases hlow : i - 2 < 3
    · rw [dpFinal_lt_min pts cfg (by omega), dpInit_ne (by omega)]
    · exact ih (i - 2) (by omega) (by omega) (by omega)

theorem optimizeOnce_minmax3 (pts : List Point2D) (cfg : FitConfig)
    (hmin : cfg.min_segment_len = 3) (hmax : cfg.max_segment_len = 3)
    (hn : 3 < pts.length) : optimizeOnce pts cfg = none := by
  rw [optimizeOnce, if_neg (by omega), if_neg (by omega)]
  rw [dp_minmax3_none pts cfg hmin hmax (pts.length - 1) (by omega) (by omega)]

theorem optimize_minmax3 (pts : List Point2D) (cfg : FitConfig)
    (hmin : cfg.min_segment_len = 3) (hmax : cfg.max_segment_len = 3)
    (hn : 3 < pts.length) : optimize pts cfg = none := by
  rw [optimize, optimizeOnce_minmax3 pts cfg hmin hmax hn]
  show optimizeOnce pts (fallbackConfig cfg) = none
  apply optimizeOnce_minmax3 pts _ ?_ ?_ hn
  · simp [fallbackConfig, FitConfig.new_clamped, hmin]
  · simp [fallbackConfig, FitConfig.new_clamped, hmin, hmax]

end DPOptimizer

/-- From the spec (§4.3 and glossary): an interval `(j, i)` with `i > j`
is admissible iff its width satisfies `i − j ∈ [L_min−1, L_max−1]`, and a
cover is an ordered sequence of admissible intervals whose concatenation
spans `[0, N−1]` with shared boundary indices; `bs` lists the shared
breakpoints. -/
def SpecCover (cfg : FitConfig) (n : ℕ) (bs : List ℕ) : Prop :=
  bs.Chain' (fun j i => j < i ∧ cfg.min_segment_len - 1 ≤ i - j ∧
    i - j ≤ cfg.max_segment_len - 1) ∧
  bs.head? = some 0 ∧ bs.getLast? = some (n - 1)

/-- Four samples on a line; any values work, the length window does. -/
noncomputable def ptsI1 : List Point2D := [⟨0, 0⟩, ⟨1, 0⟩, ⟨2, 0⟩, ⟨3, 0⟩]

/-- A well-formed config with `L_min = L_max = 3`. -/
noncomputable def cfgI1 : FitConfig := ⟨3, 3, ((2 : ℝ) : WithTop ℝ)⟩

/-- Five coincident samples. -/
noncomputable def ptsI2 : List Point2D := List.replicate 5 ⟨7, 3⟩

/-- A well-formed config with `L_min = L_max = 3`, ε = 1. -/
noncomputable def cfgI2 : FitConfig := ⟨3, 3, ((1 : ℝ) : WithTop ℝ)⟩

/-- A 4-sample run whose least-squares fit collapses to the origin, with
two samples at distance 10 from it. -/
noncomputable def ptsI4 : List Point2D := [⟨0, 0⟩, ⟨6, 8⟩, ⟨-6, -8⟩, ⟨0, 0⟩]

open DPOptimizer in
/-- C1 counterexample: the well-formed config `(3, 3, 2)` and any four
samples satisfy `N > L_min`, yet `optimize` never returns: the main pass
and the ε = ∞ fallback both leave `err[N−1]` infinite (no cacheable
interval ends at an index `≥ L_min` reachable from 0), so the source
recurses forever (modelled by `none`). -/
theorem C1_counterexample :
    FitConfig.new 3 3 ((2 : ℝ) : WithTop ℝ) = some cfgI1 ∧
      cfgI1.min_segment_len < ptsI1.length ∧ optimize ptsI1 cfgI1 = none := by
  refine ⟨?_, ?_, ?_⟩
  · have hc : 3 ≤ 3 ∧ 3 ≤ 3 ∧ (0 : WithTop ℝ) < ((2 : ℝ) : WithTop ℝ) :=
      ⟨le_rfl, le_rfl, by exact_mod_cast (by norm_num : (0:ℝ) < 2)⟩
    rw [FitConfig.new, if_pos hc, cfgI1]
  · show 3 < ptsI1.length
    simp [ptsI1]
  · exact optimize_minmax3 ptsI1 cfgI1 rfl rfl (by simp [ptsI1])

open DPOptimizer in
/-- C1 (amended): `optimize` terminates with a `FitResult` exactly when
the main pass or the single ε = ∞ fallback pass (same clamped length
bounds) finds an admissible cover; the fallback config is a fixed point
of the fallback transformation, so a failing fallback repeats the same
call forever, and the claim's unconditional guarantee fails for
`L_min = L_max` (see the counterexample). -/
theorem C1_terminates (pts : List Point2D) (cfg : FitConfig) :
    (optimize pts cfg).isSome ↔
      (optimizeOnce pts cfg).isSome ∨
        (optimizeOnce pts (fallbackConfig cfg)).isSome := by
  rw [optimize]
  rcases h1 : optimizeOnce pts cfg with _ | r
  · simp
  · simp

open DPOptimizer BezierFitter in
/-- C2 counterexample: for five coincident samples and the well-formed
config `(3, 3, 1)`, the cover `{(0,2), (2,4)}` is admissible in the
spec's sense and each of its intervals has residual `0 ≤ ε`, yet
`optimize` returns no cover at all (the DP never considers an interval
ending below `L_min`, so with `L_min = L_max` it finds nothing and the
fallback recursion diverges). -/
theorem C2_counterexample :
    FitConfig.new 3 3 ((1 : ℝ) : WithTop ℝ) = some cfgI2 ∧
      SpecCover cfgI2 ptsI2.length [0, 2, 4] ∧
      ((fit_segment_with_limit (slice ptsI2 0 2) cfgI2.max_error).error : WithTop ℝ)
        ≤ cfgI2.max_error ∧
      ((fit_segment_with_limit (slice ptsI2 2 4) cfgI2.max_error).error : WithTop ℝ)
        ≤ cfgI2.max_error ∧
      optimize ptsI2 cfgI2 = none := by
  have h02 : DPOptimizer.slice ptsI2 0 2 = List.replicate 3 (⟨7, 3⟩ : Point2D) := by
    rw [DPOptimizer.slice, ptsI2]
    norm_num [List.take_replicate]
  have h24 : DPOptimizer.slice ptsI2 2 4 = List.replicate 3 (⟨7, 3⟩ : Point2D) := by
    rw [DPOptimizer.slice, ptsI2]
    norm_num [List.drop_replicate, List.take_replicate]
  refine ⟨?_, ⟨?_, rfl, ?_⟩, ?_, ?_, ?_⟩
  · have hc : 3 ≤ 3 ∧ 3 ≤ 3 ∧ (0 : WithTop ℝ) < ((1 : ℝ) : WithTop ℝ) :=
      ⟨le_rfl, le_rfl, by exact_mod_cast (by norm_num : (0:ℝ) < 1)⟩
    rw [FitConfig.new, if_pos hc, cfgI2]
  · show List.Chain' _ [0, 2, 4]
    refine List.chain'_cons.2 ⟨?_, List.chain'_cons.2 ⟨?_, List.chain'_singleton 4⟩⟩ <;>
      refine ⟨by norm_num, by norm_num [cfgI2], by norm_num [cfgI2]⟩
  · show List.getLast? [0, 2, 4] = some (ptsI2.length - 1)
    simp [ptsI2]
  · rw [h02, fit_segment_with_limit_replicate _ 3 _ (by norm_num)]
    show ((0 : ℝ) : WithTop ℝ) ≤ ((1 : ℝ) : WithTop ℝ)
    exact_mod_cast zero_le_one
  · rw [h24, fit_segment_with_limit_replicate _ 3 _ (by norm_num)]
    show ((0 : ℝ) : WithTop ℝ) ≤ ((1 : ℝ) : WithTop ℝ)
    exact_mod_cast zero_le_one
  · exact optimize_minmax3 ptsI2 cfgI2 rfl rfl (by simp [ptsI2])

open BezierFitter in
/-- C3 (amended): the truncated residual of `fit_segment_with_limit` is
**at most** (not at least) the untruncated residual of `fit_segment` on
the same run, and the two always sit on the same side of the budget, so an
interval is rejected by the truncated value iff its true (sampled)
residual exceeds ε. -/
theorem C3_truncated_vs_true (l : List Point2D) (limit : WithTop ℝ) :
    (fit_segment_with_limit l limit).error ≤ (fit_segment l).error ∧
      ((((fit_segment_with_limit l limit).error : ℝ) : WithTop ℝ) > limit ↔
        (((fit_segment l).error : ℝ) : WithTop ℝ) > limit) :=
  ⟨fit_segment_with_limit_le l limit, fit_segment_with_limit_gt_iff l limit⟩


section C3Instance

open BezierFitter

theorem distI4_1 : (⟨6, 8⟩ : Point2D).distance_to ⟨0, 0⟩ = 10 :=
  Point2D.distance_to_eval _ _ 10 (by norm_num) (by norm_num)

theorem distI4_2 : (⟨-6, -8⟩ : Point2D).distance_to ⟨6, 8⟩ = 20 :=
  Point2D.distance_to_eval _ _ 20 (by norm_num) (by norm_num)

theorem distI4_3 : (⟨0, 0⟩ : Point2D).distance_to ⟨-6, -8⟩ = 10 :=
  Point2D.distance_to_eval _ _ 10 (by norm_num) (by norm_num)

theorem distI4_4 : (⟨0, 0⟩ : Point2D).distance_to ⟨6, 8⟩ = 10 :=
  Point2D.distance_to_eval _ _ 10 (by norm_num) (by norm_num)

theorem cumDistsI4 : cumDists ptsI4 = [0, 10, 30, 40] := by
  rw [ptsI4, cumDists]
  rw [cumGo, distI4_1]
  rw [cumGo, distI4_2]
  rw [cumGo, distI4_3]
  rw [cumGo]
  norm_num

theorem tvalsI4 : compute_t_values ptsI4 = [0, 1 / 4, 3 / 4, 1] := by
  simp only [compute_t_values, cumDistsI4]
  rw [show ([0, 10, 30, 40] : List ℝ).getLastD 0 = 40 from rfl]
  rw [if_neg (by norm_num)]
  norm_num

theorem fitLSI4 : fitLS ptsI4 = ⟨⟨0, 0⟩, ⟨0, 0⟩, ⟨0, 0⟩⟩ := by
  have s1 : fitStep ⟨0, 0⟩ ⟨0, 0⟩ (0, 0, 0) ((⟨0, 0⟩ : Point2D), (0:ℝ)) = (0, 0, 0) := by
    rw [fitStep]
    norm_num
  have s2 : fitStep ⟨0, 0⟩ ⟨0, 0⟩ (0, 0, 0) ((⟨6, 8⟩ : Point2D), (1/4:ℝ)) =
      (9/4, 3, 9/64) := by
    rw [fitStep]
    norm_num [Prod.ext_iff]
    rw [abs_of_nonneg (by norm_num : (0:ℝ) ≤ 3/8)]
    norm_num
  have s3 : fitStep ⟨0, 0⟩ ⟨0, 0⟩ (9/4, 3, 9/64) ((⟨-6, -8⟩ : Point2D), (3/4:ℝ)) =
      (0, 0, 9/32) := by
    rw [fitStep]
    norm_num [Prod.ext_iff]
    rw [abs_of_nonneg (by norm_num : (0:ℝ) ≤ 3/8)]
    norm_num
  have s4 : fitStep ⟨0, 0⟩ ⟨0, 0⟩ (0, 0, 9/32) ((⟨0, 0⟩ : Point2D), (1:ℝ)) =
      (0, 0, 9/32) := by
    rw [fitStep]
    norm_num
  simp only [fitLS, tvalsI4]
  rw [show ptsI4.headI = (⟨0, 0⟩ : Point2D) from rfl,
    show ptsI4.getLastD ⟨0, 0⟩ = (⟨0, 0⟩ : Point2D) from rfl,
    show ptsI4.zip [0, 1 / 4, 3 / 4, 1] =
      [((⟨0, 0⟩ : Point2D), (0:ℝ)), (⟨6, 8⟩, 1 / 4), (⟨-6, -8⟩, 3 / 4), (⟨0, 0⟩, 1)]
      from rfl]
  rw [List.foldl_cons, s1, List.foldl_cons, s2, List.foldl_cons, s3,
    List.foldl_cons, s4, List.foldl_nil]
  rw [if_pos (by norm_num : (1:ℝ) / 10 ^ 10 < (((0:ℝ), (0:ℝ), (9/32:ℝ)) : ℝ × ℝ × ℝ).2.2)]
  norm_num [QuadraticBezier.mk.injEq, Point2D.mk.injEq]

theorem truncI4 :
    truncGo ⟨⟨0, 0⟩, ⟨0, 0⟩, ⟨0, 0⟩⟩ 4 ((1 : ℝ) : WithTop ℝ) 0 ptsI4 = 25 := by
  rw [ptsI4, truncGo]
  rw [QuadraticBezier.distance_to_point_const, Point2D.distance_to_self]
  rw [if_neg (by
    rw [← WithTop.coe_mul, gt_iff_lt, WithTop.coe_lt_coe]
    norm_num)]
  rw [truncGo, QuadraticBezier.distance_to_point_const, distI4_4]
  rw [if_pos (by
    rw [← WithTop.coe_mul, gt_iff_lt, WithTop.coe_lt_coe]
    norm_num)]
  norm_num

theorem computeErrI4 :
    compute_error ⟨⟨0, 0⟩, ⟨0, 0⟩, ⟨0, 0⟩⟩ ptsI4 = 50 := by
  rw [ptsI4]
  simp only [compute_error, List.map_cons, List.map_nil,
    QuadraticBezier.distance_to_point_const, Point2D.distance_to_self,
    distI4_4, distI4_3]
  norm_num

open BezierFitter in
/-- C3 counterexample (to the claimed direction "truncated ≥ true"): on
`ptsI4` with ε = 1 the sum exceeds the budget `ε·N = 4` at the second
sample and the loop returns the partial mean `25`, while the untruncated
residual is `50`: truncation *under*-reports. -/
theorem C3_counterexample :
    (fit_segment_with_limit ptsI4 ((1 : ℝ) : WithTop ℝ)).error <
      (fit_segment ptsI4).error := by
  have hfsl : fit_segment_with_limit ptsI4 ((1 : ℝ) : WithTop ℝ) =
      ⟨fitLS ptsI4, truncGo (fitLS ptsI4) 4 ((1 : ℝ) : WithTop ℝ) 0 ptsI4⟩ := rfl
  have hfs : fit_segment ptsI4 = ⟨fitLS ptsI4, compute_error (fitLS ptsI4) ptsI4⟩ := rfl
  rw [hfsl, hfs]
  show truncGo (fitLS ptsI4) 4 ((1 : ℝ) : WithTop ℝ) 0 ptsI4 <
    compute_error (fitLS ptsI4) ptsI4
  rw [fitLSI4, truncI4, computeErrI4]
  norm_num

end C3Instance
end BezierDP


namespace BezierDP

/-! ## Endpoint pinning (C6) and the strict constructor (C8) -/

theorem getLastD_eq_getLast (l : List Point2D) (h : l ≠ []) (d : Point2D) :
    l.getLastD d = l.getLast h := by
  rw [List.getLastD_eq_getLast?, List.getLast?_eq_getLast l h]
  rfl

open BezierFitter in
/-- C6: for every non-empty run, the fitted Bézier's `p0` is the first
sample and its `p2` is the last, in every arity branch (`N = 1`, `N = 2`,
`N ≥ 3`). -/
theorem C6_endpoints (pts : List Point2D) (h : pts ≠ []) :
    (fit_segment pts).bezier.p0 = pts.head h ∧
      (fit_segment pts).bezier.p2 = pts.getLast h := by
  match pts with
  | [p] => exact ⟨rfl, rfl⟩
  | [p, q] => exact ⟨rfl, rfl⟩
  | p :: q :: r :: rest =>
    refine ⟨rfl, ?_⟩
    show (p :: q :: r :: rest).getLastD ⟨0, 0⟩ = _
    exact getLastD_eq_getLast _ h _

/-- C6 witness at the one-point run `[(1, 2)]`. -/
theorem C6_endpoints_witness :
    (BezierFitter.fit_segment [(⟨1, 2⟩ : Point2D)]).bezier.p0 = (⟨1, 2⟩ : Point2D) ∧
      (BezierFitter.fit_segment [(⟨1, 2⟩ : Point2D)]).bezier.p2 = (⟨1, 2⟩ : Point2D) :=
  C6_endpoints [⟨1, 2⟩] (by simp)

/-- C8: the strict constructor fails exactly on `min_segment_len < 3`,
`max_segment_len < min_segment_len` or `max_error ≤ 0`, and otherwise
returns the three arguments unchanged. -/
theorem C8_new_spec (a b : ℕ) (e : WithTop ℝ) :
    (FitConfig.new a b e = none ↔ a < 3 ∨ b < a ∨ e ≤ 0) ∧
      ∀ c, FitConfig.new a b e = some c → c = ⟨a, b, e⟩ := by
  have hiff : ¬(3 ≤ a ∧ a ≤ b ∧ 0 < e) ↔ a < 3 ∨ b < a ∨ e ≤ 0 := by
    rw [not_and_or, not_and_or, not_le, not_le, not_lt]
  constructor
  · rw [FitConfig.new]
    by_cases hc : 3 ≤ a ∧ a ≤ b ∧ 0 < e
    · rw [if_pos hc]
      exact iff_of_false (by simp) fun h => (hiff.mpr h) hc
    · rw [if_neg hc]
      exact iff_of_true rfl (hiff.mp hc)
  · intro c hc2
    rw [FitConfig.new] at hc2
    by_cases hc : 3 ≤ a ∧ a ≤ b ∧ 0 < e
    · rw [if_pos hc, Option.some_inj] at hc2
      exact hc2.symm
    · rw [if_neg hc] at hc2
      cases hc2

/-- C8 witness: a violating call fails. -/
theorem C8_new_spec_witness : FitConfig.new 2 5 ((2 : ℝ) : WithTop ℝ) = none :=
  (C8_new_spec 2 5 _).1.mpr (Or.inl (by norm_num))

/-! ## The adaptive sample count of `distance_to_point` (C9) -/

/-- Following the spec's words for the claim: the sample count
`s = clamp(round(L/2), 50, 200)` with `L = ‖p0−p1‖ + ‖p1−p2‖`. -/
noncomputable def claimedNumSamples (b : QuadraticBezier) : ℕ :=
  (min (max (round ((b.p0.distance_to b.p1 + b.p1.distance_to b.p2) / 2)) 50) 200).toNat

/-- Following the spec's words: the minimum of the distances from `q` to
`s` uniformly spaced curve samples. -/
noncomputable def sampledMinDist (b : QuadraticBezier) (q : Point2D) (s : ℕ) : ℝ :=
  QuadraticBezier.listMin ((List.range s).map fun i : ℕ =>
    (b.evaluate ((i : ℝ) / ((s - 1 : ℕ) : ℝ))).distance_to q)

/-- The straight-line Bézier of control-polygon length 101. -/
noncomputable def bezI6 : QuadraticBezier := ⟨⟨0, 0⟩, ⟨101 / 2, 0⟩, ⟨101, 0⟩⟩

/-- A query point lying exactly on the 51-sample grid but off the
50-sample grid. -/
noncomputable def qI6 : Point2D := ⟨101 / 50, 0⟩

end BezierDP

namespace BezierDP

theorem bezI6_dist1 : bezI6.p0.distance_to bezI6.p1 = 101 / 2 :=
  Point2D.distance_to_eval _ _ (101 / 2) (by norm_num) (by norm_num [bezI6])

theorem bezI6_dist2 : bezI6.p1.distance_to bezI6.p2 = 101 / 2 :=
  Point2D.distance_to_eval _ _ (101 / 2) (by norm_num) (by norm_num [bezI6])

theorem bezI6_eval (t : ℝ) : bezI6.evaluate t = ⟨101 * t, 0⟩ := by
  apply Point2D.ext' <;> · simp only [QuadraticBezier.evaluate, bezI6]; ring

theorem bezI6_numSamples : QuadraticBezier.numSamples bezI6 = 50 := by
  rw [QuadraticBezier.numSamples, bezI6_dist1, bezI6_dist2]
  rw [show (101 / 2 + 101 / 2 : ℝ) / 2 = 101 / 2 by norm_num]
  rw [max_eq_left (by norm_num), min_eq_left (by norm_num)]
  rw [Nat.floor_eq_iff (by norm_num)]
  norm_num

theorem bezI6_claimedNumSamples : claimedNumSamples bezI6 = 51 := by
  rw [claimedNumSamples, bezI6_dist1, bezI6_dist2]
  rw [show (101 / 2 + 101 / 2 : ℝ) / 2 = 101 / 2 by norm_num]
  rw [show round ((101 : ℝ) / 2) = 51 by rw [round_eq]; norm_num]
  rfl

theorem bezI6_spec_sampled_zero : sampledMinDist bezI6 qI6 (claimedNumSamples bezI6) = 0 := by
  rw [bezI6_claimedNumSamples, sampledMinDist]
  apply le_antisymm
  · apply QuadraticBezier.listMin_le_of_mem (x := 0)
    apply List.mem_map.2
    refine ⟨1, List.mem_range.2 (by norm_num), ?_⟩
    rw [bezI6_eval]
    apply Point2D.distance_to_eval _ _ 0 le_rfl
    norm_num [qI6]
  · apply QuadraticBezier.listMin_nonneg
    intro x hx
    obtain ⟨i, _, rfl⟩ := List.mem_map.1 hx
    exact Point2D.distance_to_nonneg _ _

theorem bezI6_code_dist_pos : 101 / 2450 ≤ QuadraticBezier.distance_to_point bezI6 qI6 := by
  rw [QuadraticBezier.distance_to_point, bezI6_numSamples]
  apply QuadraticBezier.le_listMin
  · apply List.ne_nil_of_length_pos
    rw [List.length_map, List.length_range]
    norm_num
  · intro x hx
    obtain ⟨i, hi, rfl⟩ := List.mem_map.1 hx
    rw [List.mem_range] at hi
    rw [bezI6_eval]
    rw [Point2D.distance_to]
    have hy : ((⟨101 * ((i : ℝ) / ((50 - 1 : ℕ) : ℝ)), 0⟩ : Point2D).y - qI6.y) = 0 := by
      simp [qI6]
    rw [hy]
    have hx49 : ((50 - 1 : ℕ) : ℝ) = 49 := by norm_num
    rw [hx49]
    set d : ℝ := 101 * ((i : ℝ) / 49) - 101 / 50 with hd
    have hform : ((⟨101 * ((i : ℝ) / 49), 0⟩ : Point2D).x - qI6.x) = d := by
      simp [qI6, hd]
    rw [hform, mul_zero, add_zero, Real.sqrt_mul_self_eq_abs]
    have hdval : d = 101 * ((50 * (i : ℝ) - 49) / 2450) := by
      rw [hd]; ring
    have hne : (50 * (i : ℤ) - 49) ≠ 0 := by omega
    have habs : (1 : ℝ) ≤ |50 * (i : ℝ) - 49| := by
      have h1 : (1 : ℤ) ≤ |50 * (i : ℤ) - 49| := Int.one_le_abs hne
      exact_mod_cast h1
    rw [hdval, abs_mul, abs_div]
    rw [show |(101 : ℝ)| = 101 from abs_of_nonneg (by norm_num),
      show |(2450 : ℝ)| = 2450 from abs_of_nonneg (by norm_num)]
    calc (101 : ℝ) / 2450 = 101 * (1 / 2450) := by ring
      _ ≤ 101 * (|50 * (i : ℝ) - 49| / 2450) := by
          apply mul_le_mul_of_nonneg_left ?_ (by norm_num)
          apply div_le_div_of_nonneg_right habs (by norm_num)
      _ = _ := by ring

open QuadraticBezier in
/-- C9 counterexample: for the straight-line Bézier with control-polygon
length `L = 101`, the code truncates (`as usize`) and samples 50 points
(`⌊50.5⌋`), not `round(50.5) = 51` as claimed; at a query point on the
51-point grid the two sample counts give different minima (`0` versus a
strictly positive distance). -/
theorem C9_counterexample :
    distance_to_point bezI6 qI6 ≠ sampledMinDist bezI6 qI6 (claimedNumSamples bezI6) := by
  rw [bezI6_spec_sampled_zero]
  intro h
  have := bezI6_code_dist_pos
  rw [h] at this
  norm_num at this

open QuadraticBezier in
/-- C9 (amended): `distance_to_point` evaluates the curve at exactly
`s = ⌊clamp(L/2, 50, 200)⌋` uniformly spaced parameters (the `as usize`
cast truncates rather than rounds) and returns the minimum sampled
distance; the count is always clamped into `[50, 200]`. -/
theorem C9_sampling (b : QuadraticBezier) (q : Point2D) :
    distance_to_point b q =
      sampledMinDist b q
        (⌊min (max ((b.p0.distance_to b.p1 + b.p1.distance_to b.p2) / 2) 50) 200⌋₊) ∧
      50 ≤ numSamples b ∧ numSamples b ≤ 200 := by
  refine ⟨rfl, numSamples_ge b, ?_⟩
  rw [numSamples]
  calc ⌊min (max ((b.p0.distance_to b.p1 + b.p1.distance_to b.p2) / 2) 50) 200⌋₊
      ≤ ⌊(200 : ℝ)⌋₊ := Nat.floor_le_floor (min_le_right _ _)
    _ = 200 := by norm_num

end BezierDP

namespace BezierDP

namespace DPOptimizer

/-! ## DP correctness: chains of cacheable, accepted intervals -/

open BezierFitter

/-- The cached (truncated) residual of interval `(j, i)`. -/
noncomputable def errOf (pts : List Point2D) (cfg : FitConfig) (j i : ℕ) : ℝ :=
  (fit_segment_with_limit (slice pts j i) cfg.max_error).error

theorem cacheLookup_pos {pts : List Point2D} {cfg : FitConfig} {j i : ℕ}
    (h : cacheCond pts.length cfg j i) :
    cacheLookup pts cfg j i =
      some (fit_segment_with_limit (slice pts j i) cfg.max_error) := by
  rw [cacheLookup, if_pos h]

theorem cacheLookup_neg {pts : List Point2D} {cfg : FitConfig} {j i : ℕ}
    (h : ¬ cacheCond pts.length cfg j i) : cacheLookup pts cfg j i = none := by
  rw [cacheLookup, if_neg h]

/-- A cover the DP can assemble: breakpoints descending to `0` through
intervals that are generated by the cache loops and pass the ε test,
carrying the segment count and the accumulated cached residual. -/
inductive CoverChain (pts : List Point2D) (cfg : FitConfig) : ℕ → ℕ → ℝ → Prop
  | nil : CoverChain pts cfg 0 0 0
  | cons {j : ℕ} {s : ℕ} {e : ℝ} {i : ℕ} :
      CoverChain pts cfg j s e →
      cacheCond pts.length cfg j i →
      ¬ (((errOf pts cfg j i : ℝ) : WithTop ℝ) > cfg.max_error) →
      CoverChain pts cfg i (s + 1) (e + errOf pts cfg j i)

/-- Chains with zero segments stop at index 0 with zero residual
(assuming a well-formed minimum length). -/
theorem CoverChain.zero_iff {pts : List Point2D} {cfg : FitConfig} {i : ℕ} {e : ℝ}
    (h : CoverChain pts cfg i 0 e) : i = 0 ∧ e = 0 := by
  cases h
  exact ⟨rfl, rfl⟩

/-- No chain reaches an index strictly between `0` and `min_segment_len`. -/
theorem CoverChain.not_small {pts : List Point2D} {cfg : FitConfig} {i s : ℕ} {e : ℝ}
    (hi : i ≠ 0) (hlt : i < cfg.min_segment_len) : ¬ CoverChain pts cfg i s e := by
  intro h
  cases h with
  | nil => exact hi rfl
  | cons hc hcond herr => exact absurd hcond.1 (by omega)

/-- The truncated residual loop stays nonnegative. -/
theorem truncGo_nonneg (b : QuadraticBezier) (n : ℕ) (limit : WithTop ℝ) :
    ∀ (l : List Point2D) (s : ℝ), 0 ≤ s → 0 ≤ BezierFitter.truncGo b n limit s l := by
  intro l
  induction l with
  | nil => intro s hs; exact div_nonneg hs (Nat.cast_nonneg n)
  | cons p ps ih =>
    intro s hs
    rw [BezierFitter.truncGo]
    have hs' : 0 ≤ s + b.distance_to_point p ^ 2 := by positivity
    split
    · exact div_nonneg hs' (Nat.cast_nonneg n)
    · exact ih _ hs'

theorem fit_segment_with_limit_error_nonneg (l : List Point2D) (limit : WithTop ℝ) :
    0 ≤ (BezierFitter.fit_segment_with_limit l limit).error := by
  match l with
  | [] => exact le_rfl
  | [p] => exact le_rfl
  | [p, q] => exact le_rfl
  | p :: q :: r :: rest => exact truncGo_nonneg _ _ _ _ 0 le_rfl

theorem errOf_nonneg (pts : List Point2D) (cfg : FitConfig) (j i : ℕ) :
    0 ≤ errOf pts cfg j i :=
  fit_segment_with_limit_error_nonneg _ _

/-- Chain residuals are nonnegative. -/
theorem CoverChain.err_nonneg {pts : List Point2D} {cfg : FitConfig} {i s : ℕ} {e : ℝ}
    (h : CoverChain pts cfg i s e) : 0 ≤ e := by
  induction h with
  | nil => exact le_rfl
  | cons hc hcond herr ih => exact add_nonneg ih (errOf_nonneg _ _ _ _)

/-- The non-strict lexicographic order on `(segments, error)` used to
compare DP values. -/
def LexLe (a b : ℕ × ℝ) : Prop := a.1 < b.1 ∨ (a.1 = b.1 ∧ a.2 ≤ b.2)

/-- The strict lexicographic order: the DP's adoption test. -/
def LexLt (a b : ℕ × ℝ) : Prop := a.1 < b.1 ∨ (a.1 = b.1 ∧ a.2 < b.2)

theorem lexLe_refl (a : ℕ × ℝ) : LexLe a a := Or.inr ⟨Eq.refl _, le_rfl⟩

theorem LexLt.le {a b : ℕ × ℝ} (h : LexLt a b) : LexLe a b := by
  rcases h with h | ⟨h, h'⟩
  · exact Or.inl h
  · exact Or.inr ⟨h, le_of_lt h'⟩

theorem LexLe.trans {a b c : ℕ × ℝ} (h1 : LexLe a b) (h2 : LexLe b c) : LexLe a c := by
  rcases h1 with h1 | ⟨h1, h1'⟩ <;> rcases h2 with h2 | ⟨h2, h2'⟩
  · exact Or.inl (h1.trans h2)
  · exact Or.inl (h2 ▸ h1)
  · exact Or.inl (h1 ▸ h2)
  · exact Or.inr ⟨h1.trans h2, h1'.trans h2'⟩

/-- Full case analysis of one inner-loop step: either the accumulator is
kept (and then it already beats any viable candidate at `k`), or a viable
candidate strictly better than the accumulator is adopted. -/
theorem relax_spec (pts : List Point2D) (cfg : FitConfig) (st : ℕ → Cell) (i : ℕ)
    (acc : Cell) (k : ℕ) (hk : k ≠ i) :
    (relax pts cfg st i acc k = acc ∧
      ∀ sk ek, (st k).1 = some (sk, ek) → cacheCond pts.length cfg k i →
        ¬ (((errOf pts cfg k i : ℝ) : WithTop ℝ) > cfg.max_error) →
        ∃ s0 e0, acc.1 = some (s0, e0) ∧ LexLe (s0, e0) (sk + 1, ek + errOf pts cfg k i)) ∨
    (∃ sk ek, (st k).1 = some (sk, ek) ∧ cacheCond pts.length cfg k i ∧
      ¬ (((errOf pts cfg k i : ℝ) : WithTop ℝ) > cfg.max_error) ∧
      relax pts cfg st i acc k = (some (sk + 1, ek + errOf pts cfg k i), k) ∧
      ∀ s e, acc.1 = some (s, e) → LexLt (sk + 1, ek + errOf pts cfg k i) (s, e)) := by
  unfold relax
  split
  · rename_i heq
    refine Or.inl ⟨rfl, ?_⟩
    intro sk ek hstk hcond herr
    rw [cacheLookup_pos hcond] at heq
    cases heq
  · rename_i fit heq
    have hcond : cacheCond pts.length cfg k i := by
      by_contra hcon
      rw [cacheLookup_neg hcon] at heq
      cases heq
    have hfit : fit = BezierFitter.fit_segment_with_limit (slice pts k i) cfg.max_error := by
      rw [cacheLookup_pos hcond] at heq
      exact (Option.some_inj.1 heq).symm
    have herrOf : fit.error = errOf pts cfg k i := by rw [hfit]; rfl
    split
    · rename_i herr
      rw [herrOf] at herr
      refine Or.inl ⟨rfl, ?_⟩
      intro sk ek hstk hcond' herr'
      exact absurd herr herr'
    · rename_i herr
      rw [herrOf] at herr
      split
      · rename_i par hcell
        rw [Function.update_noteq hk] at hcell
        refine Or.inl ⟨rfl, ?_⟩
        intro sk ek hstk _ _
        rw [hcell] at hstk
        cases hstk
      · rename_i sj ej par hcell
        rw [Function.update_noteq hk] at hcell
        have hstj : (st k).1 = some (sj, ej) := by rw [hcell]
        split
        · rename_i par2
          refine Or.inr ⟨sj, ej, hstj, hcond, herr, by rw [herrOf], ?_⟩
          intro s e hacc'
          cases hacc'
        · rename_i si ei par2
          split
          · rename_i hbetter
            rw [herrOf] at hbetter
            refine Or.inr ⟨sj, ej, hstj, hcond, herr, by rw [herrOf], ?_⟩
            intro s e hacc'
            cases hacc'
            exact hbetter
          · rename_i hnb
            rw [herrOf] at hnb
            refine Or.inl ⟨rfl, ?_⟩
            intro sk ek hstk _ _
            rw [hstj] at hstk
            cases hstk
            refine ⟨si, ei, rfl, ?_⟩
            push_neg at hnb
            rcases Nat.lt_or_ge si (sj + 1) with hlt | hge
            · exact Or.inl hlt
            · have heqn : si = sj + 1 := by omega
              exact Or.inr ⟨heqn, le_of_not_lt fun hlt' => (hnb.2 heqn.symm).not_lt hlt'⟩

/-- Along the inner fold the accumulator value only improves. -/
theorem foldl_relax_mono (pts : List Point2D) (cfg : FitConfig) (st : ℕ → Cell) (i : ℕ) :
    ∀ (js : List ℕ), (∀ j ∈ js, j ≠ i) → ∀ (acc : Cell) (s : ℕ) (e : ℝ),
      acc.1 = some (s, e) →
      ∃ s' e', (js.foldl (relax pts cfg st i) acc).1 = some (s', e') ∧
        LexLe (s', e') (s, e) := by
  intro js
  induction js with
  | nil => intro _ acc s e hacc; exact ⟨s, e, hacc, lexLe_refl _⟩
  | cons c cs ih =>
    intro hne acc s e hacc
    rw [List.foldl_cons]
    rcases relax_spec pts cfg st i acc c (hne c (by simp)) with
      ⟨hkeep, _⟩ | ⟨sk, ek, _, _, _, hadopt, hstrict⟩
    · rw [hkeep]
      exact ih (fun j hj => hne j (by simp [hj])) acc s e hacc
    · rw [hadopt]
      obtain ⟨s', e', hfold, hle⟩ := ih (fun j hj => hne j (by simp [hj]))
        (some (sk + 1, ek + errOf pts cfg c i), c) (sk + 1) (ek + errOf pts cfg c i) rfl
      exact ⟨s', e', hfold, hle.trans (hstrict s e hacc).le⟩

/-- The fold result is lexicographically at most any viable candidate. -/
theorem foldl_relax_le_cand (pts : List Point2D) (cfg : FitConfig) (st : ℕ → Cell) (i : ℕ) :
    ∀ (js : List ℕ), (∀ j ∈ js, j ≠ i) → ∀ (acc : Cell) (k : ℕ), k ∈ js →
      ∀ sk ek, (st k).1 = some (sk, ek) → cacheCond pts.length cfg k i →
        ¬ (((errOf pts cfg k i : ℝ) : WithTop ℝ) > cfg.max_error) →
        ∃ s e, (js.foldl (relax pts cfg st i) acc).1 = some (s, e) ∧
          LexLe (s, e) (sk + 1, ek + errOf pts cfg k i) := by
  intro js
  induction js with
  | nil => intro _ _ k hk; cases hk
  | cons c cs ih =>
    intro hne acc k hkmem sk ek hstk hcond herr
    rw [List.foldl_cons]
    rcases List.mem_cons.1 hkmem with rfl | hmem
    · rcases relax_spec pts cfg st i acc k (hne k (by simp)) with
        ⟨hkeep, hbeats⟩ | ⟨sk', ek', hstk', _, _, hadopt, _⟩
      · rw [hkeep]
        obtain ⟨s0, e0, hacc0, hle0⟩ := hbeats sk ek hstk hcond herr
        obtain ⟨s', e', hf, hle⟩ := foldl_relax_mono pts cfg st i cs
          (fun j hj => hne j (by simp [hj])) acc s0 e0 hacc0
        exact ⟨s', e', hf, hle.trans hle0⟩
      · rw [hadopt]
        rw [hstk] at hstk'
        cases hstk'
        obtain ⟨s', e', hf, hle⟩ := foldl_relax_mono pts cfg st i cs
          (fun j hj => hne j (by simp [hj]))
          (some (sk + 1, ek + errOf pts cfg k i), k) (sk + 1) (ek + errOf pts cfg k i) rfl
        exact ⟨s', e', hf, hle⟩
    · exact ih (fun j hj => hne j (by simp [hj])) (relax pts cfg st i acc c) k hmem
        sk ek hstk hcond herr

/-- The fold result is either the untouched initial cell or an adopted
viable candidate. -/
theorem foldl_relax_origin (pts : List Point2D) (cfg : FitConfig) (st : ℕ → Cell) (i : ℕ) :
    ∀ (js : List ℕ), (∀ j ∈ js, j ≠ i) → ∀ (acc : Cell),
      (js.foldl (relax pts cfg st i) acc) = acc ∨
      ∃ k, k ∈ js ∧ ∃ sk ek, (st k).1 = some (sk, ek) ∧ cacheCond pts.length cfg k i ∧
        ¬ (((errOf pts cfg k i : ℝ) : WithTop ℝ) > cfg.max_error) ∧
        (js.foldl (relax pts cfg st i) acc) = (some (sk + 1, ek + errOf pts cfg k i), k) := by
  intro js
  induction js with
  | nil => intro _ acc; exact Or.inl rfl
  | cons c cs ih =>
    intro hne acc
    rw [List.foldl_cons]
    rcases relax_spec pts cfg st i acc c (hne c (by simp)) with
      ⟨hkeep, _⟩ | ⟨sk, ek, h1, h2, h3, hadopt, _⟩
    · rw [hkeep]
      rcases ih (fun j hj => hne j (by simp [hj])) acc with h | ⟨k, hk, rest⟩
      · exact Or.inl h
      · exact Or.inr ⟨k, by simp [hk], rest⟩
    · rw [hadopt]
      rcases ih (fun j hj => hne j (by simp [hj]))
        (some (sk + 1, ek + errOf pts cfg c i), c) with h | ⟨k, hk, rest⟩
      · exact Or.inr ⟨c, by simp, sk, ek, h1, h2, h3, h⟩
      · exact Or.inr ⟨k, by simp [hk], rest⟩

theorem cacheCond_mem_jList {n : ℕ} {cfg : FitConfig} {j i : ℕ}
    (h : cacheCond n cfg j i) : j ∈ jList cfg i := by
  have h3 := h.2.2.1
  have h4 := h.2.2.2
  rw [jList, List.mem_range'_1]
  omega

theorem jList_lt {cfg : FitConfig} (hmin : 3 ≤ cfg.min_segment_len) {j i : ℕ}
    (hgi : cfg.min_segment_len ≤ i) (hj : j ∈ jList cfg i) : j < i := by
  rw [jList, List.mem_range'_1, jEnd, if_pos (by omega)] at hj
  omega

theorem lexLe_add_step {a b : ℕ} {x y : ℝ} (c : ℝ) (h : LexLe (a, x) (b, y)) :
    LexLe (a + 1, x + c) (b + 1, y + c) := by
  simp only [LexLe] at h ⊢
  rcases h with h | ⟨h, h'⟩
  · exact Or.inl (by omega)
  · exact Or.inr ⟨by omega, by linarith⟩

/-- Correctness of the DP table: a reached cell holds a realizable chain
value that is lexicographically minimal among all chains ending there,
together with a consistent parent link; an unreached cell admits no
chain. -/
theorem dp_correct (pts : List Point2D) (cfg : FitConfig)
    (hmin : 3 ≤ cfg.min_segment_len) :
    ∀ i, i < pts.length →
      (∀ s e, (dpFinal pts cfg i).1 = some (s, e) →
        CoverChain pts cfg i s e ∧
        (∀ s' e', CoverChain pts cfg i s' e' → LexLe (s, e) (s', e')) ∧
        (i ≠ 0 → ∃ sj ej, (dpFinal pts cfg ((dpFinal pts cfg i).2)).1 = some (sj, ej) ∧
          s = sj + 1 ∧ e = ej + errOf pts cfg ((dpFinal pts cfg i).2) i ∧
          cacheCond pts.length cfg ((dpFinal pts cfg i).2) i ∧
          ¬ (((errOf pts cfg ((dpFinal pts cfg i).2) i : ℝ) : WithTop ℝ) > cfg.max_error) ∧
          (dpFinal pts cfg i).2 < i)) ∧
      ((dpFinal pts cfg i).1 = none → ∀ s' e', ¬ CoverChain pts cfg i s' e') := by
  intro i
  induction i using Nat.strong_induction_on with
  | _ i ih =>
    intro hn
    by_cases hi0 : i = 0
    · subst hi0
      rw [dpFinal_lt_min pts cfg (by omega)]
      constructor
      · intro s e hse
        rw [dpInit, if_pos rfl] at hse
        have hs : s = 0 ∧ e = 0 := by
          cases hse
          exact ⟨rfl, rfl⟩
        obtain ⟨rfl, rfl⟩ := hs
        refine ⟨CoverChain.nil, ?_, fun h0 => absurd rfl h0⟩
        intro s' e' hch
        cases hch with
        | nil => exact lexLe_refl _
        | cons hc hcond herr => exact absurd hcond.1 (by omega)
      · intro hnone
        rw [dpInit, if_pos rfl] at hnone
        cases hnone
    · by_cases hilt : i < cfg.min_segment_len
      · rw [dpFinal_lt_min pts cfg hilt, dpInit_ne hi0]
        constructor
        · intro s e hse
          cases hse
        · intro _ s' e' hch
          exact CoverChain.not_small hi0 hilt hch
      · have hge : cfg.min_segment_len ≤ i := by omega
        have hne : ∀ j ∈ jList cfg i, j ≠ i := fun j hj => Nat.ne_of_lt (jList_lt hmin hge hj)
        have hstj : ∀ j ∈ jList cfg i, dpUpTo pts cfg i j = dpFinal pts cfg j :=
          fun j hj => dpUpTo_eq_final pts cfg (jList_lt hmin hge hj) (le_of_lt hn)
        -- completeness helper: a chain into a cacheable predecessor forces
        -- that predecessor's cell to be reached with a value at most the
        -- chain's
        have hpred : ∀ j s'' e'', cacheCond pts.length cfg j i →
            CoverChain pts cfg j s'' e'' →
            ∃ sj ej, (dpFinal pts cfg j).1 = some (sj, ej) ∧ LexLe (sj, ej) (s'', e'') := by
          intro j s'' e'' hcond hch
          have hjlt : j < i := jList_lt hmin hge (cacheCond_mem_jList hcond)
          have hjn : j < pts.length := lt_trans hjlt hn
          rcases hv : (dpFinal pts cfg j).1 with _ | ⟨a, b⟩
          · exact absurd hch ((ih j hjlt hjn).2 hv s'' e'')
          · exact ⟨a, b, rfl, ((ih j hjlt hjn).1 a b hv).2.1 s'' e'' hch⟩
        have hrow := dpFinal_at pts cfg hge hn
        have hinit : dpUpTo pts cfg i i = (none, 0) := by
          rw [dpUpTo_ge pts cfg le_rfl, dpInit_ne hi0]
        rw [hrow, hinit]
        constructor
        · intro s e hse
          rcases foldl_relax_origin pts cfg (dpUpTo pts cfg i) i (jList cfg i) hne (none, 0)
            with hl | ⟨k, hkmem, sk, ek, hstk, hcond, herr, hF⟩
          · rw [hl] at hse
            cases hse
          · rw [hF] at hse
            cases hse
            rw [hstj k hkmem] at hstk
            have hk_lt : k < i := jList_lt hmin hge hkmem
            have hk_n : k < pts.length := lt_trans hk_lt hn
            obtain ⟨hchk, hminik, _⟩ := (ih k hk_lt hk_n).1 sk ek hstk
            refine ⟨CoverChain.cons hchk hcond herr, ?_, ?_⟩
            · intro s' e' hch
              cases hch with
              | nil => exact absurd rfl hi0
              | @cons j' s'' e'' _ hch' hcond' herr' =>
                obtain ⟨sj', ej', hvj', hlej'⟩ := hpred j' s'' e'' hcond' hch'
                have hstj' : (dpUpTo pts cfg i j').1 = some (sj', ej') := by
                  rw [hstj j' (cacheCond_mem_jList hcond')]
                  exact hvj'
                obtain ⟨sF, eF, hFv, hFle⟩ := foldl_relax_le_cand pts cfg
                  (dpUpTo pts cfg i) i (jList cfg i) hne (none, 0) j'
                  (cacheCond_mem_jList hcond') sj' ej' hstj' hcond' herr'
                rw [hF] at hFv
                cases hFv
                exact hFle.trans (lexLe_add_step _ hlej')
            · intro _
              rw [hF]
              exact ⟨sk, ek, hstk, rfl, rfl, hcond, herr, jList_lt hmin hge hkmem⟩
        · intro hnone s' e' hch
          cases hch with
          | nil => exact absurd rfl hi0
          | @cons j' s'' e'' _ hch' hcond' herr' =>
            obtain ⟨sj', ej', hvj', _⟩ := hpred j' s'' e'' hcond' hch'
            have hstj' : (dpUpTo pts cfg i j').1 = some (sj', ej') := by
              rw [hstj j' (cacheCond_mem_jList hcond')]
              exact hvj'
            obtain ⟨sF, eF, hFv, _⟩ := foldl_relax_le_cand pts cfg
              (dpUpTo pts cfg i) i (jList cfg i) hne (none, 0) j'
              (cacheCond_mem_jList hcond') sj' ej' hstj' hcond' herr'
            rw [hnone] at hFv
            cases hFv

end DPOptimizer

end BezierDP

namespace BezierDP

namespace DPOptimizer

open BezierFitter

/-! ## Reconstruction: segment count, endpoint chaining, packaged passes -/

theorem jEnd_le (cfg : FitConfig) (i : ℕ) : jEnd cfg i ≤ i := by
  rw [jEnd]
  split <;> omega

theorem cacheCond_le {n : ℕ} {cfg : FitConfig} {j i : ℕ} (h : cacheCond n cfg j i) :
    j ≤ i := le_trans h.2.2.2 (jEnd_le cfg i)

theorem slice_length {pts : List Point2D} {j i : ℕ} (hj : j ≤ i) (hi : i < pts.length) :
    (slice pts j i).length = i + 1 - j := by
  rw [slice, List.length_take, List.length_drop]
  omega

theorem slice_ne_nil {pts : List Point2D} {j i : ℕ} (hj : j ≤ i) (hi : i < pts.length) :
    slice pts j i ≠ [] := by
  apply List.ne_nil_of_length_pos
  rw [slice_length hj hi]
  omega

theorem slice_headI {pts : List Point2D} {j i : ℕ} (hj : j ≤ i) (hi : i < pts.length) :
    (slice pts j i).headI = pts.getD j ⟨0, 0⟩ := by
  have hjn : j < pts.length := lt_of_le_of_lt hj hi
  rw [slice, List.drop_eq_getElem_cons hjn, show i + 1 - j = (i - j) + 1 by omega,
    List.take_succ_cons, List.getD_eq_getElem pts ⟨0, 0⟩ hjn]
  rfl

theorem slice_getD {pts : List Point2D} {j i k : ℕ} (hk : j + k ≤ i) (hi : i < pts.length)
    (d : Point2D) : (slice pts j i).getD k d = pts.getD (j + k) d := by
  have hjn : j + k < pts.length := by omega
  have h1 : k < (slice pts j i).length := by
    rw [slice_length (by omega) hi]
    omega
  rw [List.getD_eq_getElem _ d h1, List.getD_eq_getElem pts d hjn]
  simp only [slice]
  rw [List.getElem_take, List.getElem_drop]

theorem slice_getLastD {pts : List Point2D} {j i : ℕ} (hj : j ≤ i) (hi : i < pts.length) :
    (slice pts j i).getLastD ⟨0, 0⟩ = pts.getD i ⟨0, 0⟩ := by
  have hne := slice_ne_nil hj hi
  rw [getLastD_eq_getLast _ hne, List.getLast_eq_getElem _ hne]
  have h1 : (slice pts j i).length - 1 < (slice pts j i).length := by
    rw [slice_length hj hi]
    omega
  rw [← List.getD_eq_getElem _ ⟨0, 0⟩ h1, slice_length hj hi,
    show i + 1 - j - 1 = i - j by omega, slice_getD (by omega) hi]
  congr 1
  omega

theorem fit_bezier_p0 : ∀ l : List Point2D, l ≠ [] → (fit_segment l).bezier.p0 = l.headI
  | [], h => absurd rfl h
  | [_], _ => rfl
  | [_, _], _ => rfl
  | _ :: _ :: _ :: _, _ => rfl

theorem fit_bezier_p2 : ∀ l : List Point2D, l ≠ [] →
    (fit_segment l).bezier.p2 = l.getLastD ⟨0, 0⟩
  | [], h => absurd rfl h
  | [_], _ => rfl
  | [_, _], _ => rfl
  | _ :: _ :: _ :: _, _ => rfl

/-- The cached curve over `(j, i)` starts at sample `j`. -/
theorem cache_bezier_p0 {pts : List Point2D} {cfg : FitConfig} {j i : ℕ}
    (hcond : cacheCond pts.length cfg j i) :
    (fit_segment_with_limit (slice pts j i) cfg.max_error).bezier.p0 = pts.getD j ⟨0, 0⟩ := by
  rw [fit_segment_with_limit_bezier,
    fit_bezier_p0 _ (slice_ne_nil (cacheCond_le hcond) hcond.2.1),
    slice_headI (cacheCond_le hcond) hcond.2.1]

/-- The cached curve over `(j, i)` ends at sample `i`. -/
theorem cache_bezier_p2 {pts : List Point2D} {cfg : FitConfig} {j i : ℕ}
    (hcond : cacheCond pts.length cfg j i) :
    (fit_segment_with_limit (slice pts j i) cfg.max_error).bezier.p2 = pts.getD i ⟨0, 0⟩ := by
  rw [fit_segment_with_limit_bezier,
    fit_bezier_p2 _ (slice_ne_nil (cacheCond_le hcond) hcond.2.1),
    slice_getLastD (cacheCond_le hcond) hcond.2.1]

/-- A reached cell's reconstruction has exactly the cell's segment count. -/
theorem backtrack_length (pts : List Point2D) (cfg : FitConfig)
    (hmin : 3 ≤ cfg.min_segment_len) :
    ∀ i, i < pts.length → ∀ fuel, i ≤ fuel → ∀ s e,
      (dpFinal pts cfg i).1 = some (s, e) →
      (backtrackAux pts cfg (fun k => (dpFinal pts cfg k).2) fuel i).length = s := by
  intro i
  induction i using Nat.strong_induction_on with
  | _ i ih =>
    intro hn fuel hfuel s e hse
    by_cases hi0 : i = 0
    · subst hi0
      have h0 : dpFinal pts cfg 0 = (some (0, 0), 0) := by
        rw [dpFinal_lt_min pts cfg (by omega), dpInit, if_pos rfl]
      rw [h0] at hse
      have hse' : some ((0 : ℕ), (0 : ℝ)) = some (s, e) := hse
      cases hse'
      cases fuel with
      | zero => rfl
      | succ f =>
        rw [backtrackAux, if_pos rfl]
        rfl
    · obtain ⟨hchain, _, hpar⟩ := (dp_correct pts cfg hmin i hn).1 s e hse
      obtain ⟨sj, ej, hj, hs, _, hcond, _, hlt⟩ := hpar hi0
      cases fuel with
      | zero => omega
      | succ f =>
        simp only [backtrackAux, if_neg hi0, cacheLookup_pos hcond, List.length_append,
          List.length_singleton]
        rw [ih ((dpFinal pts cfg i).2) hlt (lt_trans hlt hn) f (by omega) sj ej hj]
        omega

/-- The reconstructed list chains endpoint to endpoint, is empty exactly at
index 0, and its final curve ends at sample `i`. -/
theorem backtrack_chain (pts : List Point2D) (cfg : FitConfig)
    (hmin : 3 ≤ cfg.min_segment_len) :
    ∀ i, i < pts.length → ∀ fuel, i ≤ fuel → ∀ s e,
      (dpFinal pts cfg i).1 = some (s, e) →
      List.Chain' (fun a b => a.p2 = b.p0)
        (backtrackAux pts cfg (fun k => (dpFinal pts cfg k).2) fuel i) ∧
      ((backtrackAux pts cfg (fun k => (dpFinal pts cfg k).2) fuel i) = [] ↔ i = 0) ∧
      (i ≠ 0 → ((backtrackAux pts cfg (fun k => (dpFinal pts cfg k).2) fuel i).getLastD
        ⟨⟨0, 0⟩, ⟨0, 0⟩, ⟨0, 0⟩⟩).p2 = pts.getD i ⟨0, 0⟩) := by
  intro i
  induction i using Nat.strong_induction_on with
  | _ i ih =>
    intro hn fuel hfuel s e hse
    by_cases hi0 : i = 0
    · subst hi0
      cases fuel with
      | zero => exact ⟨List.chain'_nil, iff_of_true rfl rfl, fun h0 => absurd rfl h0⟩
      | succ f =>
        rw [backtrackAux, if_pos rfl]
        exact ⟨List.chain'_nil, iff_of_true rfl rfl, fun h0 => absurd rfl h0⟩
    · obtain ⟨hchain, _, hpar⟩ := (dp_correct pts cfg hmin i hn).1 s e hse
      obtain ⟨sj, ej, hj, hs, _, hcond, _, hlt⟩ := hpar hi0
      cases fuel with
      | zero => omega
      | succ f =>
        simp only [backtrackAux, if_neg hi0, cacheLookup_pos hcond]
        obtain ⟨ihc, ihe, ihl⟩ := ih ((dpFinal pts cfg i).2) hlt (lt_trans hlt hn) f
          (by omega) sj ej hj
        refine ⟨?_, by simp [hi0], fun _ => by simp [cache_bezier_p2 hcond]⟩
        rw [List.chain'_append]
        refine ⟨ihc, List.chain'_singleton _, ?_⟩
        intro x hx y hy
        have hy' : (fit_segment_with_limit
            (slice pts ((dpFinal pts cfg i).2) i) cfg.max_error).bezier = y := by
          simpa using hy
        by_cases hj0 : (dpFinal pts cfg i).2 = 0
        · rw [ihe.2 hj0] at hx
          simp at hx
        · have hne : backtrackAux pts cfg (fun k => (dpFinal pts cfg k).2) f
              ((dpFinal pts cfg i).2) ≠ [] := fun hemp => hj0 (ihe.1 hemp)
          rw [List.getLast?_eq_getLast _ hne] at hx
          have hx' : (backtrackAux pts cfg (fun k => (dpFinal pts cfg k).2) f
              ((dpFinal pts cfg i).2)).getLast hne = x := by simpa using hx
          rw [← hx', ← hy', cache_bezier_p0 hcond]
          rw [← ihl hj0, List.getLastD_eq_getLast?, List.getLast?_eq_getLast _ hne]
          rfl

/-- With a well-formed minimum and a DP-sized input, a failed pass is
exactly the absence of any admissible chain to the last index. -/
theorem optimizeOnce_none_iff (pts : List Point2D) (cfg : FitConfig)
    (hmin : 3 ≤ cfg.min_segment_len) (hn : cfg.min_segment_len < pts.length) :
    optimizeOnce pts cfg = none ↔
      ∀ s e, ¬ CoverChain pts cfg (pts.length - 1) s e := by
  rw [optimizeOnce, if_neg (by omega), if_neg (by omega)]
  have hlt : pts.length - 1 < pts.length := by omega
  constructor
  · intro h
    rcases hv : (dpFinal pts cfg (pts.length - 1)).1 with _ | ⟨s, e⟩
    · exact (dp_correct pts cfg hmin (pts.length - 1) hlt).2 hv
    · rw [hv] at h
      cases h
  · intro h
    rcases hv : (dpFinal pts cfg (pts.length - 1)).1 with _ | ⟨s, e⟩
    · rfl
    · exact absurd ((dp_correct pts cfg hmin (pts.length - 1) hlt).1 s e hv).1 (h s e)

/-- A successful pass returns the lexicographically minimal chain value,
with the segment count realized by the reconstruction. -/
theorem optimizeOnce_some_spec (pts : List Point2D) (cfg : FitConfig)
    (hmin : 3 ≤ cfg.min_segment_len) (hn : cfg.min_segment_len < pts.length)
    {r : FitResult} (h : optimizeOnce pts cfg = some r) :
    ∃ s e, (dpFinal pts cfg (pts.length - 1)).1 = some (s, e) ∧
      CoverChain pts cfg (pts.length - 1) s e ∧
      (∀ s' e', CoverChain pts cfg (pts.length - 1) s' e' → LexLe (s, e) (s', e')) ∧
      r.num_segments = s ∧ r.total_error = e := by
  rw [optimizeOnce, if_neg (by omega), if_neg (by omega)] at h
  have hlt : pts.length - 1 < pts.length := by omega
  rcases hv : (dpFinal pts cfg (pts.length - 1)).1 with _ | ⟨s, e⟩ <;> rw [hv] at h
  · cases h
  · obtain ⟨hchain, hle, _⟩ := (dp_correct pts cfg hmin (pts.length - 1) hlt).1 s e hv
    have hr : r = ⟨backtrackAux pts cfg (fun k => (dpFinal pts cfg k).2)
        (pts.length - 1) (pts.length - 1), e,
        (backtrackAux pts cfg (fun k => (dpFinal pts cfg k).2)
          (pts.length - 1) (pts.length - 1)).length, cfg⟩ := (Option.some_inj.1 h).symm
    refine ⟨s, e, rfl, hchain, hle, ?_, ?_⟩
    · rw [hr]
      exact backtrack_length pts cfg hmin (pts.length - 1) hlt (pts.length - 1) le_rfl s e hv
    · rw [hr]

/-- A chain to the last index forces the pass to succeed. -/
theorem optimizeOnce_isSome_of_chain (pts : List Point2D) (cfg : FitConfig)
    (hmin : 3 ≤ cfg.min_segment_len) (hn : cfg.min_segment_len < pts.length)
    {s : ℕ} {e : ℝ} (hch : CoverChain pts cfg (pts.length - 1) s e) :
    ∃ r, optimizeOnce pts cfg = some r := by
  rcases ho : optimizeOnce pts cfg with _ | r
  · exact absurd hch ((optimizeOnce_none_iff pts cfg hmin hn).1 ho s e)
  · exact ⟨r, rfl⟩

end DPOptimizer

end BezierDP

namespace BezierDP

namespace DPOptimizer

open BezierFitter

/-! ## The optimizer on coincident runs -/

theorem slice_replicate (p : Point2D) {n j i : ℕ} (hj : j ≤ i) (hi : i < n) :
    slice (List.replicate n p) j i = List.replicate (i + 1 - j) p := by
  rw [slice, List.drop_replicate, List.take_replicate]
  congr 1
  omega

/-- Cached residuals of coincident runs vanish. -/
theorem errOf_replicate (p : Point2D) (n : ℕ) (cfg : FitConfig) {j i : ℕ}
    (hj : j ≤ i) (hi : i < n) : errOf (List.replicate n p) cfg j i = 0 := by
  rw [errOf, slice_replicate p hj hi,
    fit_segment_with_limit_replicate p (i + 1 - j) _ (by omega)]

/-- A chain into a nonzero index has at least one segment. -/
theorem CoverChain.pos_of_ne {pts : List Point2D} {cfg : FitConfig} {i s : ℕ} {e : ℝ}
    (h : CoverChain pts cfg i s e) (hi : i ≠ 0) : 1 ≤ s := by
  cases h with
  | nil => exact absurd rfl hi
  | cons hc hcond herr => omega

/-- On a coincident run that fits inside the length window, a single pass
returns one degenerate segment with zero residual. -/
theorem optimizeOnce_replicate (p : Point2D) (n : ℕ) (cfg : FitConfig)
    (hmin : 3 ≤ cfg.min_segment_len) (hmax : n ≤ cfg.max_segment_len) (hn : 1 ≤ n)
    (hε : 0 ≤ cfg.max_error) :
    optimizeOnce (List.replicate n p) cfg = some ⟨[⟨p, p, p⟩], 0, 1, cfg⟩ := by
  have hlen : (List.replicate n p).length = n := List.length_replicate n p
  by_cases hsmall : n ≤ cfg.min_segment_len
  · rw [optimizeOnce, if_neg (by rw [hlen]; omega), if_pos (by rw [hlen]; exact hsmall),
      fit_segment_replicate p n hn]
  · have hlt : cfg.min_segment_len < n := by omega
    have hn4 : 4 ≤ n := by omega
    have hne0 : ¬ ((List.replicate n p).length = 0) := by rw [hlen]; omega
    have hnle : ¬ ((List.replicate n p).length ≤ cfg.min_segment_len) := by rw [hlen]; omega
    have hn' : cfg.min_segment_len < (List.replicate n p).length := by rw [hlen]; omega
    have hm1 : (List.replicate n p).length - 1 < (List.replicate n p).length := by
      rw [hlen]; omega
    have hM : cfg.max_segment_len ≤ maxLenEff cfg := le_max_left _ _
    have hcond : cacheCond (List.replicate n p).length cfg 0
        ((List.replicate n p).length - 1) := by
      refine ⟨by rw [hlen]; omega, hm1, ?_, Nat.zero_le _⟩
      rw [jStart, hlen]
      omega
    have herr0 : errOf (List.replicate n p) cfg 0 ((List.replicate n p).length - 1) = 0 :=
      errOf_replicate p n cfg (Nat.zero_le _) (by rw [hlen]; omega)
    have hacc : ¬ (((errOf (List.replicate n p) cfg 0
        ((List.replicate n p).length - 1) : ℝ) : WithTop ℝ) > cfg.max_error) := by
      rw [herr0, WithTop.coe_zero]
      exact not_lt.2 hε
    have hch : CoverChain (List.replicate n p) cfg ((List.replicate n p).length - 1) 1
        (0 + errOf (List.replicate n p) cfg 0 ((List.replicate n p).length - 1)) :=
      CoverChain.cons CoverChain.nil hcond hacc
    obtain ⟨r, hr⟩ := optimizeOnce_isSome_of_chain (List.replicate n p) cfg hmin hn' hch
    obtain ⟨s, e, hcell, hchain, hminle, _, _⟩ :=
      optimizeOnce_some_spec (List.replicate n p) cfg hmin hn' hr
    have hs1 : s = 1 := by
      have hle1 := hminle _ _ hch
      simp only [LexLe] at hle1
      have hge1 : 1 ≤ s := hchain.pos_of_ne (by rw [hlen]; omega)
      rcases hle1 with h | ⟨h, _⟩ <;> omega
    have he0 : e = 0 := by
      have hle1 := hminle _ _ hch
      rw [herr0] at hle1
      simp only [LexLe] at hle1
      rcases hle1 with h | ⟨_, h⟩
      · omega
      · have hnn := hchain.err_nonneg
        linarith
    obtain ⟨_, _, hparcl⟩ :=
      (dp_correct (List.replicate n p) cfg hmin _ hm1).1 s e hcell
    obtain ⟨sj, ej, hcellj, hsj, _, _, _, hjlt⟩ := hparcl (by rw [hlen]; omega)
    have hsj0 : sj = 0 := by omega
    subst hsj0
    obtain ⟨hchainj, _, _⟩ :=
      (dp_correct (List.replicate n p) cfg hmin _ (lt_trans hjlt hm1)).1 0 ej hcellj
    obtain ⟨hq0, _⟩ := CoverChain.zero_iff hchainj
    rw [optimizeOnce, if_neg hne0, if_neg hnle, hcell]
    show some (FitResult.mk
      (backtrackAux (List.replicate n p) cfg (fun k => (dpFinal (List.replicate n p) cfg k).2)
        ((List.replicate n p).length - 1) ((List.replicate n p).length - 1))
      e
      (backtrackAux (List.replicate n p) cfg (fun k => (dpFinal (List.replicate n p) cfg k).2)
        ((List.replicate n p).length - 1) ((List.replicate n p).length - 1)).length
      cfg) = _
    have hbt : backtrackAux (List.replicate n p) cfg
        (fun k => (dpFinal (List.replicate n p) cfg k).2)
        ((List.replicate n p).length - 1) ((List.replicate n p).length - 1) = [⟨p, p, p⟩] := by
      obtain ⟨f, hfe⟩ : ∃ f, (List.replicate n p).length - 1 = f + 1 :=
        ⟨(List.replicate n p).length - 2, by rw [hlen]; omega⟩
      rw [hfe] at hq0 hcond ⊢
      simp only [backtrackAux, if_neg (Nat.succ_ne_zero f), hq0, cacheLookup_pos hcond]
      have hbt0 : backtrackAux (List.replicate n p) cfg
          (fun k => (dpFinal (List.replicate n p) cfg k).2) f 0 = [] := by
        cases f with
        | zero => rfl
        | succ g => rw [backtrackAux, if_pos rfl]
      rw [hbt0, slice_replicate p (Nat.zero_le _) (by rw [← hfe, hlen]; omega),
        fit_segment_with_limit_replicate p _ _ (by omega)]
      rfl
    rw [hbt, he0]
    rfl

end DPOptimizer

end BezierDP

namespace BezierDP

namespace DPOptimizer

open BezierFitter

/-! ## Monotonicity in ε and per-pass endpoint chaining -/

/-- Chains transfer to a config with the same length window and a larger
ceiling (the residual changes because truncation fires differently, but
the segment count is preserved). -/
theorem CoverChain.mono {pts : List Point2D} {c1 c2 : FitConfig}
    (hm : c1.min_segment_len = c2.min_segment_len)
    (hM : c1.max_segment_len = c2.max_segment_len)
    (hε : c1.max_error ≤ c2.max_error) :
    ∀ {i s : ℕ} {e : ℝ}, CoverChain pts c1 i s e → ∃ e', CoverChain pts c2 i s e' := by
  intro i s e h
  induction h with
  | nil => exact ⟨0, CoverChain.nil⟩
  | @cons j s' e' i' hc hcond herr ih =>
    obtain ⟨e2, hch2⟩ := ih
    refine ⟨e2 + errOf pts c2 j i', CoverChain.cons hch2 ?_ ?_⟩
    · unfold cacheCond jStart jEnd maxLenEff at hcond ⊢
      rw [← hm, ← hM]
      exact hcond
    · rw [errOf, BezierFitter.fit_segment_with_limit_gt_iff]
      rw [errOf, BezierFitter.fit_segment_with_limit_gt_iff] at herr
      intro hgt
      exact herr (lt_of_le_of_lt hε hgt)

/-- Any single pass produces an endpoint-chained curve list. -/
theorem optimizeOnce_chain (pts : List Point2D) (cfg : FitConfig)
    (hmin : 3 ≤ cfg.min_segment_len) {r : FitResult}
    (h : optimizeOnce pts cfg = some r) :
    List.Chain' (fun a b => a.p2 = b.p0) r.curves := by
  rw [optimizeOnce] at h
  by_cases h0 : pts.length = 0
  · rw [if_pos h0] at h
    cases Option.some_inj.1 h
    exact List.chain'_nil
  · rw [if_neg h0] at h
    by_cases hsm : pts.length ≤ cfg.min_segment_len
    · rw [if_pos hsm] at h
      cases Option.some_inj.1 h
      exact List.chain'_singleton _
    · rw [if_neg hsm] at h
      rcases hv : (dpFinal pts cfg (pts.length - 1)).1 with _ | ⟨s, e⟩ <;> rw [hv] at h
      · cases h
      · cases Option.some_inj.1 h
        exact (backtrack_chain pts cfg hmin (pts.length - 1) (by omega) (pts.length - 1)
          le_rfl s e hv).1

end DPOptimizer

/-! ## Instances for C2, C4 and C7 -/

/-- Six coincident samples. -/
noncomputable def ptsC : List Point2D := List.replicate 6 ⟨7, 3⟩

/-- A valid config whose window admits a single segment over six samples. -/
noncomputable def cfgC2w : FitConfig := ⟨3, 10, ((1 : ℝ) : WithTop ℝ)⟩

/-- A valid config whose window (max 4) cannot cover six samples in one
segment. -/
noncomputable def cfgC7 : FitConfig := ⟨3, 4, ((1 : ℝ) : WithTop ℝ)⟩

namespace DPOptimizer

/-- Exhaustive inversion of the chains available on six samples under the
window (3, 4): breakpoints can only go 0 → 3 → 5. -/
theorem chain_cfgC7_inv : ∀ i, ∀ {s : ℕ} {e : ℝ}, CoverChain ptsC cfgC7 i s e →
    (i = 0 ∧ s = 0) ∨ (i = 3 ∧ s = 1) ∨ (i = 5 ∧ s = 2) := by
  intro i
  induction i using Nat.strong_induction_on with
  | _ i ih =>
    intro s e h
    cases h with
    | nil => exact Or.inl ⟨rfl, rfl⟩
    | @cons j s' e' _ hc hcond herr =>
      have h1 : cfgC7.min_segment_len ≤ i := hcond.1
      have h2 : i < ptsC.length := hcond.2.1
      have h3 : jStart cfgC7 i ≤ j := hcond.2.2.1
      have h4 : j ≤ jEnd cfgC7 i := hcond.2.2.2
      rw [show cfgC7.min_segment_len = 3 from rfl] at h1
      rw [show ptsC.length = 6 from by simp [ptsC]] at h2
      rw [jStart, show maxLenEff cfgC7 = 4 from rfl] at h3
      rw [jEnd, if_pos (show (0:ℕ) < cfgC7.min_segment_len from by norm_num [cfgC7]),
        show cfgC7.min_segment_len = 3 from rfl] at h4
      have hjlt : j < i := by omega
      rcases ih j hjlt hc with ⟨hj0, hs0⟩ | ⟨hj3, hs1⟩ | ⟨hj5, hs2⟩
      · subst hj0
        subst hs0
        exact Or.inr (Or.inl ⟨by omega, rfl⟩)
      · subst hj3
        subst hs1
        exact Or.inr (Or.inr ⟨by omega, rfl⟩)
      · subst hj5
        exact absurd h4 (by omega)

/-- Concrete run for the C7 counterexample: six coincident samples under
window (3, 4) yield two segments. -/
theorem onceC7 : ∃ r, optimizeOnce ptsC cfgC7 = some r ∧ r.num_segments = 2 := by
  have hlen : ptsC.length = 6 := by simp [ptsC]
  have hmin3 : (3:ℕ) ≤ cfgC7.min_segment_len := le_rfl
  have hn : cfgC7.min_segment_len < ptsC.length := by
    rw [hlen]
    norm_num [cfgC7]
  have hε : (0 : WithTop ℝ) ≤ cfgC7.max_error :=
    show (0 : WithTop ℝ) ≤ ((1 : ℝ) : WithTop ℝ) from by exact_mod_cast zero_le_one
  have hcond03 : cacheCond ptsC.length cfgC7 0 3 := by
    rw [hlen]
    decide
  have hcond35 : cacheCond ptsC.length cfgC7 3 5 := by
    rw [hlen]
    decide
  have herr03 : errOf ptsC cfgC7 0 3 = 0 :=
    errOf_replicate ⟨7, 3⟩ 6 cfgC7 (by omega) (by omega)
  have herr35 : errOf ptsC cfgC7 3 5 = 0 :=
    errOf_replicate ⟨7, 3⟩ 6 cfgC7 (by omega) (by omega)
  have hacc03 : ¬ (((errOf ptsC cfgC7 0 3 : ℝ) : WithTop ℝ) > cfgC7.max_error) := by
    rw [herr03, WithTop.coe_zero]
    exact not_lt.2 hε
  have hacc35 : ¬ (((errOf ptsC cfgC7 3 5 : ℝ) : WithTop ℝ) > cfgC7.max_error) := by
    rw [herr35, WithTop.coe_zero]
    exact not_lt.2 hε
  have hch : CoverChain ptsC cfgC7 5 2 ((0 + errOf ptsC cfgC7 0 3) + errOf ptsC cfgC7 3 5) :=
    CoverChain.cons (CoverChain.cons CoverChain.nil hcond03 hacc03) hcond35 hacc35
  have hch' : CoverChain ptsC cfgC7 (ptsC.length - 1) 2
      ((0 + errOf ptsC cfgC7 0 3) + errOf ptsC cfgC7 3 5) := by
    rw [hlen]
    exact hch
  obtain ⟨r, hr⟩ := optimizeOnce_isSome_of_chain ptsC cfgC7 hmin3 hn hch'
  obtain ⟨s, e, _, hchain, _, hnum, _⟩ := optimizeOnce_some_spec ptsC cfgC7 hmin3 hn hr
  have hchain5 : CoverChain ptsC cfgC7 5 s e := by
    rw [hlen] at hchain
    exact hchain
  have hs : s = 2 := by
    rcases chain_cfgC7_inv 5 hchain5 with ⟨h5, _⟩ | ⟨h5, _⟩ | ⟨_, hs2⟩
    · omega
    · omega
    · exact hs2
  refine ⟨r, hr, ?_⟩
  rw [hnum]
  exact hs

end DPOptimizer

open DPOptimizer in
/-- C2 (amended): when the DP pass itself succeeds, the returned segment
count and cumulative residual are the lexicographic minimum over the
covers the DP can assemble — chains of cache-generated, ε-accepted
intervals from index 0 to N−1 — not over all covers admissible in the
spec's width-window sense (see the counterexample). -/
theorem C2_optimal (pts : List Point2D) (cfg : FitConfig) (r : FitResult)
    (hmin : 3 ≤ cfg.min_segment_len) (hn : cfg.min_segment_len < pts.length)
    (h : optimizeOnce pts cfg = some r) :
    optimize pts cfg = some r ∧
    ∃ s e, CoverChain pts cfg (pts.length - 1) s e ∧
      (∀ s' e', CoverChain pts cfg (pts.length - 1) s' e' → LexLe (s, e) (s', e')) ∧
      r.num_segments = s ∧ r.total_error = e := by
  obtain ⟨s, e, _, hch, hle, h1, h2⟩ := optimizeOnce_some_spec pts cfg hmin hn h
  exact ⟨by rw [optimize, h], s, e, hch, hle, h1, h2⟩

open DPOptimizer in
/-- C2 witness: six coincident samples under the valid config (3, 10, 1);
the pass succeeds with the minimal chain (one segment, zero residual). -/
theorem C2_optimal_witness :
    optimize (List.replicate 6 (⟨7, 3⟩ : Point2D)) cfgC2w =
        some ⟨[⟨⟨7, 3⟩, ⟨7, 3⟩, ⟨7, 3⟩⟩], 0, 1, cfgC2w⟩ ∧
    ∃ s e, CoverChain (List.replicate 6 (⟨7, 3⟩ : Point2D)) cfgC2w
        ((List.replicate 6 (⟨7, 3⟩ : Point2D)).length - 1) s e ∧
      (∀ s' e', CoverChain (List.replicate 6 (⟨7, 3⟩ : Point2D)) cfgC2w
        ((List.replicate 6 (⟨7, 3⟩ : Point2D)).length - 1) s' e' → LexLe (s, e) (s', e')) ∧
      (⟨[⟨⟨7, 3⟩, ⟨7, 3⟩, ⟨7, 3⟩⟩], 0, 1, cfgC2w⟩ : FitResult).num_segments = s ∧
      (⟨[⟨⟨7, 3⟩, ⟨7, 3⟩, ⟨7, 3⟩⟩], 0, 1, cfgC2w⟩ : FitResult).total_error = e :=
  C2_optimal _ _ _ le_rfl (by simp [cfgC2w])
    (optimizeOnce_replicate ⟨7, 3⟩ 6 cfgC2w le_rfl (by norm_num [cfgC2w]) (by norm_num)
      (show (0 : WithTop ℝ) ≤ ((1 : ℝ) : WithTop ℝ) from by exact_mod_cast zero_le_one))

open DPOptimizer in
/-- C4 (amended): with identical length windows and ε1 ≤ ε2, whenever both
DP passes themselves succeed (no fallback), the ε2 result has at most as
many segments as the ε1 result.  The unconditional claim over `optimize`
fails when the ε1 pass falls back to ε = ∞ (see the counterexample). -/
theorem C4_monotone (pts : List Point2D) (c1 c2 : FitConfig) (r1 r2 : FitResult)
    (hmin : 3 ≤ c1.min_segment_len)
    (hm : c1.min_segment_len = c2.min_segment_len)
    (hM : c1.max_segment_len = c2.max_segment_len)
    (hε : c1.max_error ≤ c2.max_error)
    (h1 : optimizeOnce pts c1 = some r1) (h2 : optimizeOnce pts c2 = some r2) :
    r2.num_segments ≤ r1.num_segments := by
  by_cases h0 : pts.length = 0
  · rw [optimizeOnce, if_pos h0] at h1 h2
    cases Option.some_inj.1 h1
    cases Option.some_inj.1 h2
    exact Nat.le_refl _
  · by_cases hsm : pts.length ≤ c1.min_segment_len
    · rw [optimizeOnce, if_neg h0, if_pos hsm] at h1
      rw [optimizeOnce, if_neg h0, if_pos (hm ▸ hsm)] at h2
      cases Option.some_inj.1 h1
      cases Option.some_inj.1 h2
      exact Nat.le_refl _
    · obtain ⟨s1, e1, _, hch1, _, hn1, _⟩ :=
        optimizeOnce_some_spec pts c1 hmin (by omega) h1
      obtain ⟨s2, e2, _, _, hmin2, hn2, _⟩ :=
        optimizeOnce_some_spec pts c2 (hm ▸ hmin) (by omega) h2
      obtain ⟨e1', hch1'⟩ := CoverChain.mono hm hM hε hch1
      have hle := hmin2 s1 e1' hch1'
      rw [hn1, hn2]
      simp only [LexLe] at hle
      rcases hle with h | ⟨h, _⟩ <;> omega

open DPOptimizer in
/-- C4 witness: six coincident samples, windows (3, 10), ε1 = 1 ≤ ε2 = 2;
both passes return one segment. -/
theorem C4_monotone_witness :
    (⟨[⟨⟨7, 3⟩, ⟨7, 3⟩, ⟨7, 3⟩⟩], 0, 1, (⟨3, 10, ((2 : ℝ) : WithTop ℝ)⟩ : FitConfig)⟩ :
        FitResult).num_segments ≤
      (⟨[⟨⟨7, 3⟩, ⟨7, 3⟩, ⟨7, 3⟩⟩], 0, 1, cfgC2w⟩ : FitResult).num_segments :=
  C4_monotone (List.replicate 6 ⟨7, 3⟩) cfgC2w ⟨3, 10, ((2 : ℝ) : WithTop ℝ)⟩ _ _
    le_rfl rfl rfl
    (show ((1 : ℝ) : WithTop ℝ) ≤ ((2 : ℝ) : WithTop ℝ) from by
      exact_mod_cast (by norm_num : (1:ℝ) ≤ 2))
    (optimizeOnce_replicate ⟨7, 3⟩ 6 cfgC2w le_rfl (by norm_num [cfgC2w]) (by norm_num)
      (show (0 : WithTop ℝ) ≤ ((1 : ℝ) : WithTop ℝ) from by exact_mod_cast zero_le_one))
    (optimizeOnce_replicate ⟨7, 3⟩ 6 ⟨3, 10, ((2 : ℝ) : WithTop ℝ)⟩ le_rfl (by norm_num)
      (by norm_num)
      (show (0 : WithTop ℝ) ≤ ((2 : ℝ) : WithTop ℝ) from by
        exact_mod_cast (by norm_num : (0:ℝ) ≤ 2)))

open DPOptimizer in
/-- C5: every multi-curve result of `optimize` (main pass or ε-fallback)
has consecutive curves sharing endpoints exactly: each segment's `p2`
**is** the next segment's `p0` (both are the shared breakpoint sample). -/
theorem C5_continuity (pts : List Point2D) (cfg : FitConfig) (r : FitResult)
    (hmin : 3 ≤ cfg.min_segment_len) (h : optimize pts cfg = some r) :
    List.Chain' (fun a b => a.p2 = b.p0) r.curves := by
  rw [optimize] at h
  rcases ho : optimizeOnce pts cfg with _ | r1 <;> rw [ho] at h
  · exact optimizeOnce_chain pts (fallbackConfig cfg)
      (show (3:ℕ) ≤ max cfg.min_segment_len 3 from le_max_right _ _) h
  · cases Option.some_inj.1 h
    exact optimizeOnce_chain pts cfg hmin ho

open DPOptimizer in
/-- C5 witness: a two-sample run under the valid config (3, 3, 1). -/
theorem C5_continuity_witness :
    List.Chain' (fun a b => a.p2 = b.p0)
      (FitResult.curves ⟨[⟨⟨0, 0⟩, Point2D.lerp ⟨0, 0⟩ ⟨1, 0⟩ (1 / 2), ⟨1, 0⟩⟩], 0, 1,
        ⟨3, 3, ((1 : ℝ) : WithTop ℝ)⟩⟩) :=
  C5_continuity [⟨0, 0⟩, ⟨1, 0⟩] ⟨3, 3, ((1 : ℝ) : WithTop ℝ)⟩ _ le_rfl rfl

open DPOptimizer in
/-- C7 counterexample: six coincident copies of (7, 3) under the **valid**
config (3, 4, 1): the length window cannot cover six samples in one
interval, so the result has two segments, not one. -/
theorem C7_counterexample :
    FitConfig.new 3 4 ((1 : ℝ) : WithTop ℝ) = some cfgC7 ∧
    ∃ r, optimize ptsC cfgC7 = some r ∧ r.num_segments = 2 := by
  obtain ⟨r, hr, hnum⟩ := onceC7
  refine ⟨?_, r, ?_, hnum⟩
  · have hc : 3 ≤ 3 ∧ 3 ≤ 4 ∧ (0 : WithTop ℝ) < ((1 : ℝ) : WithTop ℝ) :=
      ⟨le_rfl, by norm_num, by exact_mod_cast (by norm_num : (0:ℝ) < 1)⟩
    rw [FitConfig.new, if_pos hc, cfgC7]
  · rw [optimize, hr]

open DPOptimizer in
/-- C7 (amended): the coincident-run guarantee holds once the run also
fits inside the length window (`N ≤ max_segment_len`): `fit_curve` then
returns exactly one degenerate segment with residual 0. -/
theorem C7_single (p : Point2D) (n : ℕ) (cfg : FitConfig)
    (hmin : 3 ≤ cfg.min_segment_len) (hε : 0 < cfg.max_error)
    (hn : 1 ≤ n) (hmax : n ≤ cfg.max_segment_len) :
    fit_curve (List.replicate n p) cfg = some ⟨[⟨p, p, p⟩], 0, 1, cfg⟩ := by
  rw [fit_curve, optimize, optimizeOnce_replicate p n cfg hmin hmax hn hε.le]

open DPOptimizer in
/-- C7 witness: the spec's own example, 20 copies of (7, 3) under the
default config (30, 200, 2). -/
theorem C7_single_witness :
    fit_curve (List.replicate 20 (⟨7, 3⟩ : Point2D)) ⟨30, 200, ((2 : ℝ) : WithTop ℝ)⟩ =
      some ⟨[⟨⟨7, 3⟩, ⟨7, 3⟩, ⟨7, 3⟩⟩], 0, 1, ⟨30, 200, ((2 : ℝ) : WithTop ℝ)⟩⟩ :=
  C7_single ⟨7, 3⟩ 20 ⟨30, 200, ((2 : ℝ) : WithTop ℝ)⟩ (by norm_num)
    (show (0 : WithTop ℝ) < ((2 : ℝ) : WithTop ℝ) from by
      exact_mod_cast (by norm_num : (0:ℝ) < 2))
    (by norm_num) (by norm_num)

open DPOptimizer in
/-- C10: whenever the main pass fails and the ε-fallback produces the
result, the returned `config` is the fallback's clamped config with
`max_error = ∞`, not the caller's config. -/
theorem C10_fallback_config (pts : List Point2D) (cfg : FitConfig) (r : FitResult)
    (hfail : optimizeOnce pts cfg = none) (h : optimize pts cfg = some r) :
    r.config = fallbackConfig cfg ∧ r.config.max_error = ⊤ := by
  rw [optimize, hfail] at h
  have hc := optimizeOnce_config h
  refine ⟨hc, ?_⟩
  rw [hc]
  show max (⊤ : WithTop ℝ) ((1 / 10 : ℝ) : WithTop ℝ) = ⊤
  exact max_eq_left le_top

end BezierDP

namespace BezierDP

/-! ## Analytic kit: straight-line curves over the x-axis -/

theorem Point2D.distance_to_xaxis (a q : ℝ) :
    Point2D.distance_to ⟨a, 0⟩ ⟨q, 0⟩ = |a - q| := by
  rw [Point2D.distance_to]
  show Real.sqrt ((a - q) * (a - q) + ((0:ℝ) - 0) * ((0:ℝ) - 0)) = |a - q|
  rw [show (a - q) * (a - q) + ((0:ℝ) - 0) * ((0:ℝ) - 0) = (a - q) ^ 2 by ring,
    Real.sqrt_sq_eq_abs]

/-- Mean of the four squared sample distances. -/
theorem compute_error_four (b : QuadraticBezier) (p1 p2 p3 p4 : Point2D) :
    BezierFitter.compute_error b [p1, p2, p3, p4] =
      (b.distance_to_point p1 ^ 2 + b.distance_to_point p2 ^ 2 +
       b.distance_to_point p3 ^ 2 + b.distance_to_point p4 ^ 2) / 4 := by
  show ((([p1, p2, p3, p4] : List Point2D).map fun p => b.distance_to_point p ^ 2).sum)
      / (([p1, p2, p3, p4] : List Point2D).length : ℝ) = _
  simp only [List.map_cons, List.map_nil, List.sum_cons, List.sum_nil, List.length_cons,
    List.length_nil]
  norm_num
  ring

/-- Mean of the three squared sample distances. -/
theorem compute_error_three (b : QuadraticBezier) (p1 p2 p3 : Point2D) :
    BezierFitter.compute_error b [p1, p2, p3] =
      (b.distance_to_point p1 ^ 2 + b.distance_to_point p2 ^ 2 +
       b.distance_to_point p3 ^ 2) / 3 := by
  show ((([p1, p2, p3] : List Point2D).map fun p => b.distance_to_point p ^ 2).sum)
      / (([p1, p2, p3] : List Point2D).length : ℝ) = _
  simp only [List.map_cons, List.map_nil, List.sum_cons, List.sum_nil, List.length_cons,
    List.length_nil]
  norm_num
  ring

/-! ## The ε-starvation instance: `ptsI1` under a tiny ceiling

On the four unit-spaced collinear samples the least-squares fit is the
straight segment, but the sampled point-to-curve distance of the two
interior samples is `1/49` (the 50-point parameter grid misses them), so
the interval residual is `1/4802 ∈ [1/9604, 1/4802]`.  A ceiling of
`10⁻⁶` rejects every interval, the DP finds nothing, and the ε = ∞
fallback returns the single-interval cover. -/

/-- A valid config with ceiling `10⁻⁶`, far below the attainable
residual. -/
noncomputable def cfgTiny : FitConfig := ⟨3, 4, ((1 / 10 ^ 6 : ℝ) : WithTop ℝ)⟩

/-- The least-squares curve over `ptsI1`: the straight segment. -/
noncomputable def bezB : QuadraticBezier := ⟨⟨0, 0⟩, ⟨3 / 2, 0⟩, ⟨3, 0⟩⟩

theorem distB1 : (⟨1, 0⟩ : Point2D).distance_to ⟨0, 0⟩ = 1 :=
  Point2D.distance_to_eval _ _ 1 (by norm_num) (by norm_num)

theorem distB2 : (⟨2, 0⟩ : Point2D).distance_to ⟨1, 0⟩ = 1 :=
  Point2D.distance_to_eval _ _ 1 (by norm_num) (by norm_num)

theorem distB3 : (⟨3, 0⟩ : Point2D).distance_to ⟨2, 0⟩ = 1 :=
  Point2D.distance_to_eval _ _ 1 (by norm_num) (by norm_num)

open BezierFitter in
theorem cumDistsB : cumDists ptsI1 = [0, 1, 2, 3] := by
  rw [ptsI1, cumDists, cumGo, cumGo, cumGo]
  rw [distB1, distB2, distB3]
  norm_num
  rfl

open BezierFitter in
theorem tvalsB : compute_t_values ptsI1 = [0, 1 / 3, 2 / 3, 1] := by
  simp only [compute_t_values, cumDistsB]
  rw [show ([0, 1, 2, 3] : List ℝ).getLastD 0 = 3 from rfl]
  rw [if_neg (by norm_num)]
  norm_num

open BezierFitter in
theorem fitLSB : fitLS ptsI1 = bezB := by
  have s1 : fitStep ⟨0, 0⟩ ⟨3, 0⟩ (0, 0, 0) ((⟨0, 0⟩ : Point2D), (0:ℝ)) = (0, 0, 0) := by
    rw [fitStep]
    norm_num
  have s2 : fitStep ⟨0, 0⟩ ⟨3, 0⟩ (0, 0, 0) ((⟨1, 0⟩ : Point2D), (1/3:ℝ)) =
      (8/27, 0, 16/81) := by
    rw [fitStep]
    norm_num [Prod.ext_iff]
    rw [abs_of_nonneg (by norm_num : (0:ℝ) ≤ 4/9)]
    norm_num
  have s3 : fitStep ⟨0, 0⟩ ⟨3, 0⟩ (8/27, 0, 16/81) ((⟨2, 0⟩ : Point2D), (2/3:ℝ)) =
      (16/27, 0, 32/81) := by
    rw [fitStep]
    norm_num [Prod.ext_iff]
    rw [abs_of_nonneg (by norm_num : (0:ℝ) ≤ 4/9)]
    norm_num
  have s4 : fitStep ⟨0, 0⟩ ⟨3, 0⟩ (16/27, 0, 32/81) ((⟨3, 0⟩ : Point2D), (1:ℝ)) =
      (16/27, 0, 32/81) := by
    rw [fitStep]
    norm_num
  simp only [fitLS, tvalsB]
  rw [show ptsI1.headI = (⟨0, 0⟩ : Point2D) from rfl,
    show ptsI1.getLastD ⟨0, 0⟩ = (⟨3, 0⟩ : Point2D) from rfl,
    show ptsI1.zip [0, 1 / 3, 2 / 3, 1] =
      [((⟨0, 0⟩ : Point2D), (0:ℝ)), (⟨1, 0⟩, 1 / 3), (⟨2, 0⟩, 2 / 3), (⟨3, 0⟩, 1)]
      from rfl]
  rw [List.foldl_cons, s1, List.foldl_cons, s2, List.foldl_cons, s3,
    List.foldl_cons, s4, List.foldl_nil]
  rw [if_pos (by norm_num :
    (1:ℝ) / 10 ^ 10 < (((16/27:ℝ), (0:ℝ), (32/81:ℝ)) : ℝ × ℝ × ℝ).2.2)]
  norm_num [QuadraticBezier.mk.injEq, Point2D.mk.injEq, bezB]

theorem numSamplesB : QuadraticBezier.numSamples bezB = 50 := by
  apply QuadraticBezier.numSamples_eq_50
  show (⟨0, 0⟩ : Point2D).distance_to ⟨3 / 2, 0⟩ +
    (⟨3 / 2, 0⟩ : Point2D).distance_to ⟨3, 0⟩ ≤ 100
  rw [Point2D.distance_to_eval ⟨0, 0⟩ ⟨3 / 2, 0⟩ (3 / 2) (by norm_num) (by norm_num),
    Point2D.distance_to_eval ⟨3 / 2, 0⟩ ⟨3, 0⟩ (3 / 2) (by norm_num) (by norm_num)]
  norm_num

theorem bezB_eval (t : ℝ) : bezB.evaluate t = ⟨3 * t, 0⟩ := by
  apply Point2D.ext' <;> · simp only [QuadraticBezier.evaluate, bezB]; ring

/-- Sampled distance from the 3t segment to an integer query not hit by
the 50-point grid. -/
theorem bezB_dist_ge (qz : ℤ) (hnz : ∀ k : ℤ, 3 * k - 49 * qz ≠ 0) :
    1 / 49 ≤ bezB.distance_to_point ⟨(qz : ℝ), 0⟩ := by
  rw [QuadraticBezier.distance_to_point, numSamplesB]
  apply QuadraticBezier.le_listMin
  · apply List.ne_nil_of_length_pos
    rw [List.length_map, List.length_range]
    norm_num
  · intro x hx
    obtain ⟨i, hi, rfl⟩ := List.mem_map.1 hx
    rw [bezB_eval, show ((50 - 1 : ℕ) : ℝ) = 49 from by norm_num,
      Point2D.distance_to_xaxis]
    have hform : (3 : ℝ) * ((i : ℝ) / 49) - (qz : ℝ)
        = ((3 * (i : ℤ) - 49 * qz : ℤ) : ℝ) / 49 := by
      push_cast
      ring
    rw [hform, abs_div, abs_of_nonneg (by norm_num : (0:ℝ) ≤ 49)]
    apply div_le_div_of_nonneg_right ?_ (by norm_num : (0:ℝ) ≤ 49)
    rw [← Int.cast_abs]
    exact_mod_cast Int.one_le_abs (hnz i)

/-- The sampled distance is at most the distance to any one grid sample. -/
theorem bezB_dist_le (q : ℝ) (k : ℕ) (hk : k < 50) :
    bezB.distance_to_point ⟨q, 0⟩ ≤ |3 * ((k : ℝ) / 49) - q| := by
  have h := QuadraticBezier.distance_to_point_le bezB ⟨q, 0⟩
    (show k < QuadraticBezier.numSamples bezB by rw [numSamplesB]; exact hk)
  rw [numSamplesB, show ((50 - 1 : ℕ) : ℝ) = 49 from by norm_num, bezB_eval,
    Point2D.distance_to_xaxis] at h
  exact h

open BezierFitter in
theorem computeErrB_ge : (1 : ℝ) / 9604 ≤ compute_error bezB ptsI1 := by
  rw [show ptsI1 = [(⟨0, 0⟩ : Point2D), ⟨1, 0⟩, ⟨2, 0⟩, ⟨3, 0⟩] from rfl,
    compute_error_four]
  have h1 : (1:ℝ) / 49 ≤ bezB.distance_to_point ⟨1, 0⟩ := by
    simpa using bezB_dist_ge 1 (fun k => by omega)
  have hsq : (1:ℝ) / 2401 ≤ bezB.distance_to_point ⟨1, 0⟩ ^ 2 := by
    calc (1:ℝ) / 2401 = (1 / 49) ^ 2 := by norm_num
      _ ≤ _ := pow_le_pow_left (by norm_num) h1 2
  have s0 := sq_nonneg (bezB.distance_to_point ⟨0, 0⟩)
  have s2 := sq_nonneg (bezB.distance_to_point ⟨2, 0⟩)
  have s3 := sq_nonneg (bezB.distance_to_point ⟨3, 0⟩)
  linarith

open BezierFitter in
theorem computeErrB_le : compute_error bezB ptsI1 ≤ (1 : ℝ) / 4802 := by
  rw [show ptsI1 = [(⟨0, 0⟩ : Point2D), ⟨1, 0⟩, ⟨2, 0⟩, ⟨3, 0⟩] from rfl,
    compute_error_four]
  have h0 : bezB.distance_to_point ⟨0, 0⟩ ≤ 0 := by
    have h := bezB_dist_le 0 0 (by norm_num)
    rw [show |3 * (((0:ℕ) : ℝ) / 49) - 0| = 0 from by norm_num] at h
    exact h
  have h1 : bezB.distance_to_point ⟨1, 0⟩ ≤ 1 / 49 := by
    have h := bezB_dist_le 1 16 (by norm_num)
    rw [show |3 * (((16:ℕ) : ℝ) / 49) - 1| = 1 / 49 from by
      rw [show (3:ℝ) * (((16:ℕ):ℝ) / 49) - 1 = -(1 / 49) by push_cast; ring, abs_neg,
        abs_of_nonneg (by norm_num : (0:ℝ) ≤ 1 / 49)]] at h
    exact h
  have h2 : bezB.distance_to_point ⟨2, 0⟩ ≤ 1 / 49 := by
    have h := bezB_dist_le 2 33 (by norm_num)
    rw [show |3 * (((33:ℕ) : ℝ) / 49) - 2| = 1 / 49 from by
      rw [show (3:ℝ) * (((33:ℕ):ℝ) / 49) - 2 = 1 / 49 by push_cast; ring,
        abs_of_nonneg (by norm_num : (0:ℝ) ≤ 1 / 49)]] at h
    exact h
  have h3 : bezB.distance_to_point ⟨3, 0⟩ ≤ 0 := by
    have h := bezB_dist_le 3 49 (by norm_num)
    rw [show |3 * (((49:ℕ) : ℝ) / 49) - 3| = 0 from by norm_num] at h
    exact h
  have n0 := QuadraticBezier.distance_to_point_nonneg bezB ⟨0, 0⟩
  have n1 := QuadraticBezier.distance_to_point_nonneg bezB ⟨1, 0⟩
  have n2 := QuadraticBezier.distance_to_point_nonneg bezB ⟨2, 0⟩
  have n3 := QuadraticBezier.distance_to_point_nonneg bezB ⟨3, 0⟩
  have q0 : bezB.distance_to_point ⟨0, 0⟩ ^ 2 ≤ 0 := by nlinarith
  have q1 : bezB.distance_to_point ⟨1, 0⟩ ^ 2 ≤ 1 / 2401 := by nlinarith
  have q2 : bezB.distance_to_point ⟨2, 0⟩ ^ 2 ≤ 1 / 2401 := by nlinarith
  have q3 : bezB.distance_to_point ⟨3, 0⟩ ^ 2 ≤ 0 := by nlinarith
  linarith

end BezierDP

namespace BezierDP

namespace DPOptimizer

open BezierFitter

/-- The whole-run interval of `ptsI1` is rejected under the tiny ceiling:
its true residual is at least `1/9604 > 10⁻⁶`, and the truncated value
sits on the same side of the budget. -/
theorem tiny_reject : ((errOf ptsI1 cfgTiny 0 3 : ℝ) : WithTop ℝ) > cfgTiny.max_error := by
  rw [errOf, show slice ptsI1 0 3 = ptsI1 from rfl]
  rw [show cfgTiny.max_error = ((1 / 10 ^ 6 : ℝ) : WithTop ℝ) from rfl]
  rw [fit_segment_with_limit_gt_iff]
  have hfs : (fit_segment ptsI1).error = compute_error bezB ptsI1 := by
    rw [show fit_segment ptsI1 =
      ⟨fitLS ptsI1, compute_error (fitLS ptsI1) ptsI1⟩ from rfl, fitLSB]
  rw [hfs, gt_iff_lt, WithTop.coe_lt_coe]
  calc (1:ℝ) / 10 ^ 6 < 1 / 9604 := by norm_num
    _ ≤ compute_error bezB ptsI1 := computeErrB_ge

/-- Under the tiny ceiling no chain leaves index 0: the only candidate
interval `(0, 3)` is rejected. -/
theorem chain_tiny_inv : ∀ i, ∀ {s : ℕ} {e : ℝ},
    CoverChain ptsI1 cfgTiny i s e → i = 0 := by
  intro i
  induction i using Nat.strong_induction_on with
  | _ i ih =>
    intro s e h
    cases h with
    | nil => rfl
    | @cons j s' e' _ hc hcond herr =>
      have h1 : cfgTiny.min_segment_len ≤ i := hcond.1
      have h2 : i < ptsI1.length := hcond.2.1
      have h3 : jStart cfgTiny i ≤ j := hcond.2.2.1
      have h4 : j ≤ jEnd cfgTiny i := hcond.2.2.2
      rw [show cfgTiny.min_segment_len = 3 from rfl] at h1
      rw [show ptsI1.length = 4 from rfl] at h2
      rw [jStart, show maxLenEff cfgTiny = 4 from rfl] at h3
      rw [jEnd, if_pos (show (0:ℕ) < cfgTiny.min_segment_len from by norm_num [cfgTiny]),
        show cfgTiny.min_segment_len = 3 from rfl] at h4
      have hj0 : j = 0 := ih j (by omega) hc
      subst hj0
      have hi3 : i = 3 := by omega
      subst hi3
      exact absurd tiny_reject herr

theorem once_tiny_none : optimizeOnce ptsI1 cfgTiny = none := by
  rw [optimizeOnce_none_iff ptsI1 cfgTiny le_rfl
    (show cfgTiny.min_segment_len < ptsI1.length from by
      rw [show cfgTiny.min_segment_len = 3 from rfl, show ptsI1.length = 4 from rfl]
      norm_num)]
  intro s e h
  have h3 : CoverChain ptsI1 cfgTiny 3 s e := h
  have := chain_tiny_inv 3 h3
  omega

theorem fb_tiny : fallbackConfig cfgTiny = ⟨3, 4, ⊤⟩ := by
  have he : max (⊤ : WithTop ℝ) ((1 / 10 : ℝ) : WithTop ℝ) = ⊤ := max_eq_left le_top
  simp [fallbackConfig, FitConfig.new_clamped, cfgTiny, he]

/-- The ε = ∞ fallback on `ptsI1` succeeds (it accepts the whole-run
interval). -/
theorem once_tiny_fb : ∃ r, optimizeOnce ptsI1 (fallbackConfig cfgTiny) = some r := by
  rw [fb_tiny]
  have hcond : cacheCond ptsI1.length (⟨3, 4, ⊤⟩ : FitConfig) 0 3 := by
    rw [show ptsI1.length = 4 from rfl]
    refine ⟨by norm_num, by norm_num, ?_, ?_⟩
    · rw [jStart, show maxLenEff (⟨3, 4, ⊤⟩ : FitConfig) = 4 from rfl]
    · rw [jEnd, if_pos (by norm_num : (0:ℕ) < (⟨3, 4, ⊤⟩ : FitConfig).min_segment_len)]
      norm_num
  have hacc : ¬ (((errOf ptsI1 (⟨3, 4, ⊤⟩ : FitConfig) 0 3 : ℝ) : WithTop ℝ)
      > (⟨3, 4, ⊤⟩ : FitConfig).max_error) := by
    show ¬ (_ > (⊤ : WithTop ℝ))
    exact not_top_lt
  have hch : CoverChain ptsI1 (⟨3, 4, ⊤⟩ : FitConfig) (ptsI1.length - 1) 1
      (0 + errOf ptsI1 (⟨3, 4, ⊤⟩ : FitConfig) 0 3) :=
    CoverChain.cons CoverChain.nil hcond hacc
  exact optimizeOnce_isSome_of_chain ptsI1 ⟨3, 4, ⊤⟩ le_rfl
    (show (⟨3, 4, ⊤⟩ : FitConfig).min_segment_len < ptsI1.length from by
      rw [show ptsI1.length = 4 from rfl]
      norm_num) hch

end DPOptimizer

open DPOptimizer in
/-- C10 witness: under the tiny ceiling the main pass on `ptsI1` fails and
the fallback answers; the returned config is the clamped fallback config
with infinite ceiling. -/
theorem C10_fallback_config_witness :
    ∃ r, optimize ptsI1 cfgTiny = some r ∧ r.config = fallbackConfig cfgTiny ∧
      r.config.max_error = ⊤ := by
  obtain ⟨r, hr⟩ := once_tiny_fb
  have hopt : optimize ptsI1 cfgTiny = some r := by
    rw [optimize, once_tiny_none]
    exact hr
  exact ⟨r, hopt, C10_fallback_config ptsI1 cfgTiny r once_tiny_none hopt⟩

open DPOptimizer in
/-- C1 witness: on `ptsI1` with the tiny ceiling the main pass fails but
the fallback pass succeeds, so by the equivalence `optimize` terminates
with a result. -/
theorem C1_terminates_witness : (optimize ptsI1 cfgTiny).isSome := by
  rw [C1_terminates]
  right
  obtain ⟨r, hr⟩ := once_tiny_fb
  rw [hr]
  rfl

end BezierDP

namespace BezierDP

/-! ## The ε-monotonicity counterexample instance (C4)

Ten collinear samples: four unit-spaced, then six spaced 12 apart.  With
window (3, 4) the only chains are 0→3→6→9 (3 segments, needing interval
(6,9)) and 0→3→5→7→9 (4 segments).  Interval (6,9) has residual
72/2401 > 1/40, the width-3 intervals have residual ≤ 48/2401 < 1/40, and
(0,3) has residual ≤ 1/4802.  A ceiling of 1/40 therefore yields the
4-segment cover, while the tiny ceiling 10⁻⁶ rejects everything, falls
back to ε = ∞, and yields the 3-segment cover. -/

/-- Straight-segment Bézier along the x-axis from `a` to `a + D`. -/
noncomputable def linBez (a D : ℝ) : QuadraticBezier := ⟨⟨a, 0⟩, ⟨a + D / 2, 0⟩, ⟨a + D, 0⟩⟩

theorem linBez_eval (a D t : ℝ) : (linBez a D).evaluate t = ⟨a + D * t, 0⟩ := by
  apply Point2D.ext' <;> · simp only [QuadraticBezier.evaluate, linBez]; ring

theorem linBez_numSamples (a D : ℝ) (hD : 0 ≤ D) (h : D ≤ 100) :
    QuadraticBezier.numSamples (linBez a D) = 50 := by
  apply QuadraticBezier.numSamples_eq_50
  show (⟨a, 0⟩ : Point2D).distance_to ⟨a + D / 2, 0⟩ +
    (⟨a + D / 2, 0⟩ : Point2D).distance_to ⟨a + D, 0⟩ ≤ 100
  rw [Point2D.distance_to_eval ⟨a, 0⟩ ⟨a + D / 2, 0⟩ (D / 2) (by positivity)
      (by show (a - (a + D / 2)) * (a - (a + D / 2)) + ((0:ℝ) - 0) * ((0:ℝ) - 0)
            = D / 2 * (D / 2)
          ring),
    Point2D.distance_to_eval ⟨a + D / 2, 0⟩ ⟨a + D, 0⟩ (D / 2) (by positivity)
      (by show (a + D / 2 - (a + D)) * (a + D / 2 - (a + D)) + ((0:ℝ) - 0) * ((0:ℝ) - 0)
            = D / 2 * (D / 2)
          ring)]
  linarith

theorem abs_mul_ge (c x : ℤ) (hc : 0 ≤ c) (hx : x ≠ 0) : c ≤ |c * x| := by
  rw [abs_mul, abs_of_nonneg hc]
  calc c = c * 1 := by ring
    _ ≤ c * |x| := mul_le_mul_of_nonneg_left (Int.one_le_abs hx) hc

/-- Integer-grid lower bound on the sampled distance to a straight
segment. -/
theorem linBez_dist_ge (a D q : ℝ) (az Dz qz : ℤ) (ha : a = (az : ℝ))
    (hDz : D = (Dz : ℝ)) (hq : q = (qz : ℝ)) (hD0 : 0 ≤ D) (hle : D ≤ 100) (m : ℕ)
    (hm : ∀ k : ℤ, (m : ℤ) ≤ |Dz * k + 49 * (az - qz)|) :
    (m : ℝ) / 49 ≤ (linBez a D).distance_to_point ⟨q, 0⟩ := by
  rw [QuadraticBezier.distance_to_point, linBez_numSamples a D hD0 hle]
  apply QuadraticBezier.le_listMin
  · apply List.ne_nil_of_length_pos
    rw [List.length_map, List.length_range]
    norm_num
  · intro x hx
    obtain ⟨i, hi, rfl⟩ := List.mem_map.1 hx
    rw [linBez_eval, show ((50 - 1 : ℕ) : ℝ) = 49 from by norm_num,
      Point2D.distance_to_xaxis]
    subst ha hDz hq
    have hform : ((az : ℝ) + (Dz : ℝ) * ((i : ℝ) / 49)) - (qz : ℝ)
        = ((Dz * (i : ℤ) + 49 * (az - qz) : ℤ) : ℝ) / 49 := by
      push_cast
      ring
    rw [hform, abs_div, abs_of_nonneg (by norm_num : (0:ℝ) ≤ 49)]
    apply div_le_div_of_nonneg_right ?_ (by norm_num : (0:ℝ) ≤ 49)
    rw [← Int.cast_abs]
    exact_mod_cast hm i

/-- The sampled distance is at most the distance to any single sample. -/
theorem linBez_dist_le (a D : ℝ) (hD : 0 ≤ D) (hle : D ≤ 100) (q : ℝ) (k : ℕ)
    (hk : k < 50) :
    (linBez a D).distance_to_point ⟨q, 0⟩ ≤ |a + D * ((k : ℝ) / 49) - q| := by
  have h := QuadraticBezier.distance_to_point_le (linBez a D) ⟨q, 0⟩
    (show k < QuadraticBezier.numSamples (linBez a D) by
      rw [linBez_numSamples a D hD hle]
      exact hk)
  rw [linBez_numSamples a D hD hle, show ((50 - 1 : ℕ) : ℝ) = 49 from by norm_num,
    linBez_eval, Point2D.distance_to_xaxis] at h
  exact h

noncomputable def pts10 : List Point2D :=
  [⟨0, 0⟩, ⟨1, 0⟩, ⟨2, 0⟩, ⟨3, 0⟩, ⟨15, 0⟩, ⟨27, 0⟩, ⟨39, 0⟩, ⟨51, 0⟩, ⟨63, 0⟩, ⟨75, 0⟩]

/-- The ceiling 1/40: accepts all width-3 intervals, rejects (6,9). -/
noncomputable def cfgE2 : FitConfig := ⟨3, 4, ((1 / 40 : ℝ) : WithTop ℝ)⟩

open BezierFitter

theorem dist35a : (⟨15, 0⟩ : Point2D).distance_to ⟨3, 0⟩ = 12 :=
  Point2D.distance_to_eval _ _ 12 (by norm_num) (by norm_num)

theorem dist35b : (⟨27, 0⟩ : Point2D).distance_to ⟨15, 0⟩ = 12 :=
  Point2D.distance_to_eval _ _ 12 (by norm_num) (by norm_num)

theorem dist57a : (⟨39, 0⟩ : Point2D).distance_to ⟨27, 0⟩ = 12 :=
  Point2D.distance_to_eval _ _ 12 (by norm_num) (by norm_num)

theorem dist57b : (⟨51, 0⟩ : Point2D).distance_to ⟨39, 0⟩ = 12 :=
  Point2D.distance_to_eval _ _ 12 (by norm_num) (by norm_num)

theorem dist79a : (⟨63, 0⟩ : Point2D).distance_to ⟨51, 0⟩ = 12 :=
  Point2D.distance_to_eval _ _ 12 (by norm_num) (by norm_num)

theorem dist79b : (⟨75, 0⟩ : Point2D).distance_to ⟨63, 0⟩ = 12 :=
  Point2D.distance_to_eval _ _ 12 (by norm_num) (by norm_num)

theorem tvals35 : compute_t_values [(⟨3, 0⟩ : Point2D), ⟨15, 0⟩, ⟨27, 0⟩] = [0, 1/2, 1] := by
  rw [compute_t_values, cumDists, cumGo, cumGo, cumGo, dist35a, dist35b]
  rw [show ((0:ℝ) :: (0 + 12) :: (0 + 12 + 12) :: []).getLastD 0 = 24 from by norm_num]
  rw [if_neg (by norm_num)]
  norm_num

theorem tvals57 : compute_t_values [(⟨27, 0⟩ : Point2D), ⟨39, 0⟩, ⟨51, 0⟩] = [0, 1/2, 1] := by
  rw [compute_t_values, cumDists, cumGo, cumGo, cumGo, dist57a, dist57b]
  rw [show ((0:ℝ) :: (0 + 12) :: (0 + 12 + 12) :: []).getLastD 0 = 24 from by norm_num]
  rw [if_neg (by norm_num)]
  norm_num

theorem tvals79 : compute_t_values [(⟨51, 0⟩ : Point2D), ⟨63, 0⟩, ⟨75, 0⟩] = [0, 1/2, 1] := by
  rw [compute_t_values, cumDists, cumGo, cumGo, cumGo, dist79a, dist79b]
  rw [show ((0:ℝ) :: (0 + 12) :: (0 + 12 + 12) :: []).getLastD 0 = 24 from by norm_num]
  rw [if_neg (by norm_num)]
  norm_num

theorem fitLS35 : fitLS [(⟨3, 0⟩ : Point2D), ⟨15, 0⟩, ⟨27, 0⟩] = linBez 3 24 := by
  have s1 : fitStep ⟨3, 0⟩ ⟨27, 0⟩ (0, 0, 0) ((⟨3, 0⟩ : Point2D), (0:ℝ)) = (0, 0, 0) := by
    rw [fitStep]
    norm_num
  have s2 : fitStep ⟨3, 0⟩ ⟨27, 0⟩ (0, 0, 0) ((⟨15, 0⟩ : Point2D), (1/2:ℝ)) =
      (15/4, 0, 1/4) := by
    rw [fitStep]
    norm_num [Prod.ext_iff]
    rw [abs_of_nonneg (by norm_num : (0:ℝ) ≤ 1/2)]
    norm_num
  have s3 : fitStep ⟨3, 0⟩ ⟨27, 0⟩ (15/4, 0, 1/4) ((⟨27, 0⟩ : Point2D), (1:ℝ)) =
      (15/4, 0, 1/4) := by
    rw [fitStep]
    norm_num
  simp only [fitLS, tvals35]
  rw [show ([(⟨3, 0⟩ : Point2D), ⟨15, 0⟩, ⟨27, 0⟩]).headI = (⟨3, 0⟩ : Point2D) from rfl,
    show ([(⟨3, 0⟩ : Point2D), ⟨15, 0⟩, ⟨27, 0⟩]).getLastD ⟨0, 0⟩ = (⟨27, 0⟩ : Point2D)
      from rfl,
    show ([(⟨3, 0⟩ : Point2D), ⟨15, 0⟩, ⟨27, 0⟩]).zip [0, 1/2, 1] =
      [((⟨3, 0⟩ : Point2D), (0:ℝ)), (⟨15, 0⟩, 1/2), (⟨27, 0⟩, 1)] from rfl]
  rw [List.foldl_cons, s1, List.foldl_cons, s2, List.foldl_cons, s3, List.foldl_nil]
  rw [if_pos (by norm_num : (1:ℝ) / 10 ^ 10 < (((15/4:ℝ), (0:ℝ), (1/4:ℝ)) : ℝ × ℝ × ℝ).2.2)]
  norm_num [QuadraticBezier.mk.injEq, Point2D.mk.injEq, linBez]

theorem fitLS57 : fitLS [(⟨27, 0⟩ : Point2D), ⟨39, 0⟩, ⟨51, 0⟩] = linBez 27 24 := by
  have s1 : fitStep ⟨27, 0⟩ ⟨51, 0⟩ (0, 0, 0) ((⟨27, 0⟩ : Point2D), (0:ℝ)) = (0, 0, 0) := by
    rw [fitStep]
    norm_num
  have s2 : fitStep ⟨27, 0⟩ ⟨51, 0⟩ (0, 0, 0) ((⟨39, 0⟩ : Point2D), (1/2:ℝ)) =
      (39/4, 0, 1/4) := by
    rw [fitStep]
    norm_num [Prod.ext_iff]
    rw [abs_of_nonneg (by norm_num : (0:ℝ) ≤ 1/2)]
    norm_num
  have s3 : fitStep ⟨27, 0⟩ ⟨51, 0⟩ (39/4, 0, 1/4) ((⟨51, 0⟩ : Point2D), (1:ℝ)) =
      (39/4, 0, 1/4) := by
    rw [fitStep]
    norm_num
  simp only [fitLS, tvals57]
  rw [show ([(⟨27, 0⟩ : Point2D), ⟨39, 0⟩, ⟨51, 0⟩]).headI = (⟨27, 0⟩ : Point2D) from rfl,
    show ([(⟨27, 0⟩ : Point2D), ⟨39, 0⟩, ⟨51, 0⟩]).getLastD ⟨0, 0⟩ = (⟨51, 0⟩ : Point2D)
      from rfl,
    show ([(⟨27, 0⟩ : Point2D), ⟨39, 0⟩, ⟨51, 0⟩]).zip [0, 1/2, 1] =
      [((⟨27, 0⟩ : Point2D), (0:ℝ)), (⟨39, 0⟩, 1/2), (⟨51, 0⟩, 1)] from rfl]
  rw [List.foldl_cons, s1, List.foldl_cons, s2, List.foldl_cons, s3, List.foldl_nil]
  rw [if_pos (by norm_num : (1:ℝ) / 10 ^ 10 < (((39/4:ℝ), (0:ℝ), (1/4:ℝ)) : ℝ × ℝ × ℝ).2.2)]
  norm_num [QuadraticBezier.mk.injEq, Point2D.mk.injEq, linBez]

theorem fitLS79 : fitLS [(⟨51, 0⟩ : Point2D), ⟨63, 0⟩, ⟨75, 0⟩] = linBez 51 24 := by
  have s1 : fitStep ⟨51, 0⟩ ⟨75, 0⟩ (0, 0, 0) ((⟨51, 0⟩ : Point2D), (0:ℝ)) = (0, 0, 0) := by
    rw [fitStep]
    norm_num
  have s2 : fitStep ⟨51, 0⟩ ⟨75, 0⟩ (0, 0, 0) ((⟨63, 0⟩ : Point2D), (1/2:ℝ)) =
      (63/4, 0, 1/4) := by
    rw [fitStep]
    norm_num [Prod.ext_iff]
    rw [abs_of_nonneg (by norm_num : (0:ℝ) ≤ 1/2)]
    norm_num
  have s3 : fitStep ⟨51, 0⟩ ⟨75, 0⟩ (63/4, 0, 1/4) ((⟨75, 0⟩ : Point2D), (1:ℝ)) =
      (63/4, 0, 1/4) := by
    rw [fitStep]
    norm_num
  simp only [fitLS, tvals79]
  rw [show ([(⟨51, 0⟩ : Point2D), ⟨63, 0⟩, ⟨75, 0⟩]).headI = (⟨51, 0⟩ : Point2D) from rfl,
    show ([(⟨51, 0⟩ : Point2D), ⟨63, 0⟩, ⟨75, 0⟩]).getLastD ⟨0, 0⟩ = (⟨75, 0⟩ : Point2D)
      from rfl,
    show ([(⟨51, 0⟩ : Point2D), ⟨63, 0⟩, ⟨75, 0⟩]).zip [0, 1/2, 1] =
      [((⟨51, 0⟩ : Point2D), (0:ℝ)), (⟨63, 0⟩, 1/2), (⟨75, 0⟩, 1)] from rfl]
  rw [List.foldl_cons, s1, List.foldl_cons, s2, List.foldl_cons, s3, List.foldl_nil]
  rw [if_pos (by norm_num : (1:ℝ) / 10 ^ 10 < (((63/4:ℝ), (0:ℝ), (1/4:ℝ)) : ℝ × ℝ × ℝ).2.2)]
  norm_num [QuadraticBezier.mk.injEq, Point2D.mk.injEq, linBez]

theorem dist69a : (⟨51, 0⟩ : Point2D).distance_to ⟨39, 0⟩ = 12 :=
  Point2D.distance_to_eval _ _ 12 (by norm_num) (by norm_num)

theorem tvals69 : compute_t_values [(⟨39, 0⟩ : Point2D), ⟨51, 0⟩, ⟨63, 0⟩, ⟨75, 0⟩] =
    [0, 1/3, 2/3, 1] := by
  rw [compute_t_values, cumDists, cumGo, cumGo, cumGo, cumGo, dist69a, dist79a, dist79b]
  rw [show ((0:ℝ) :: (0 + 12) :: (0 + 12 + 12) :: (0 + 12 + 12 + 12) :: []).getLastD 0 = 36
    from by norm_num]
  rw [if_neg (by norm_num)]
  norm_num

theorem fitLS69 : fitLS [(⟨39, 0⟩ : Point2D), ⟨51, 0⟩, ⟨63, 0⟩, ⟨75, 0⟩] = linBez 39 36 := by
  have s1 : fitStep ⟨39, 0⟩ ⟨75, 0⟩ (0, 0, 0) ((⟨39, 0⟩ : Point2D), (0:ℝ)) = (0, 0, 0) := by
    rw [fitStep]
    norm_num
  have s2 : fitStep ⟨39, 0⟩ ⟨75, 0⟩ (0, 0, 0) ((⟨51, 0⟩ : Point2D), (1/3:ℝ)) =
      (304/27, 0, 16/81) := by
    rw [fitStep]
    norm_num [Prod.ext_iff]
    rw [abs_of_nonneg (by norm_num : (0:ℝ) ≤ 4/9)]
    norm_num
  have s3 : fitStep ⟨39, 0⟩ ⟨75, 0⟩ (304/27, 0, 16/81) ((⟨63, 0⟩ : Point2D), (2/3:ℝ)) =
      (608/27, 0, 32/81) := by
    rw [fitStep]
    norm_num [Prod.ext_iff]
    rw [abs_of_nonneg (by norm_num : (0:ℝ) ≤ 4/9)]
    norm_num
  have s4 : fitStep ⟨39, 0⟩ ⟨75, 0⟩ (608/27, 0, 32/81) ((⟨75, 0⟩ : Point2D), (1:ℝ)) =
      (608/27, 0, 32/81) := by
    rw [fitStep]
    norm_num
  simp only [fitLS, tvals69]
  rw [show ([(⟨39, 0⟩ : Point2D), ⟨51, 0⟩, ⟨63, 0⟩, ⟨75, 0⟩]).headI = (⟨39, 0⟩ : Point2D)
      from rfl,
    show ([(⟨39, 0⟩ : Point2D), ⟨51, 0⟩, ⟨63, 0⟩, ⟨75, 0⟩]).getLastD ⟨0, 0⟩
      = (⟨75, 0⟩ : Point2D) from rfl,
    show ([(⟨39, 0⟩ : Point2D), ⟨51, 0⟩, ⟨63, 0⟩, ⟨75, 0⟩]).zip [0, 1/3, 2/3, 1] =
      [((⟨39, 0⟩ : Point2D), (0:ℝ)), (⟨51, 0⟩, 1/3), (⟨63, 0⟩, 2/3), (⟨75, 0⟩, 1)]
      from rfl]
  rw [List.foldl_cons, s1, List.foldl_cons, s2, List.foldl_cons, s3,
    List.foldl_cons, s4, List.foldl_nil]
  rw [if_pos (by norm_num :
    (1:ℝ) / 10 ^ 10 < (((608/27:ℝ), (0:ℝ), (32/81:ℝ)) : ℝ × ℝ × ℝ).2.2)]
  norm_num [QuadraticBezier.mk.injEq, Point2D.mk.injEq, linBez]

end BezierDP

namespace BezierDP

open BezierFitter

/-! ### Residual bounds for the C4 instance intervals -/

theorem err35_le : compute_error (linBez 3 24) [(⟨3, 0⟩ : Point2D), ⟨15, 0⟩, ⟨27, 0⟩]
    ≤ 48 / 2401 := by
  rw [compute_error_three]
  have hD0 : (0:ℝ) ≤ 24 := by norm_num
  have hD1 : (24:ℝ) ≤ 100 := by norm_num
  have ha : (linBez 3 24).distance_to_point ⟨3, 0⟩ ≤ 0 := by
    have h := linBez_dist_le 3 24 hD0 hD1 3 0 (by norm_num)
    rw [show |(3:ℝ) + 24 * (((0:ℕ):ℝ) / 49) - 3| = 0 from by norm_num] at h
    exact h
  have hb : (linBez 3 24).distance_to_point ⟨15, 0⟩ ≤ 12 / 49 := by
    have h := linBez_dist_le 3 24 hD0 hD1 15 24 (by norm_num)
    rw [show |(3:ℝ) + 24 * (((24:ℕ):ℝ) / 49) - 15| = 12 / 49 from by
      rw [show (3:ℝ) + 24 * (((24:ℕ):ℝ) / 49) - 15 = -(12 / 49) by push_cast; ring,
        abs_neg, abs_of_nonneg (by norm_num : (0:ℝ) ≤ 12 / 49)]] at h
    exact h
  have hc : (linBez 3 24).distance_to_point ⟨27, 0⟩ ≤ 0 := by
    have h := linBez_dist_le 3 24 hD0 hD1 27 49 (by norm_num)
    rw [show |(3:ℝ) + 24 * (((49:ℕ):ℝ) / 49) - 27| = 0 from by push_cast; norm_num] at h
    exact h
  have na := QuadraticBezier.distance_to_point_nonneg (linBez 3 24) ⟨3, 0⟩
  have nb := QuadraticBezier.distance_to_point_nonneg (linBez 3 24) ⟨15, 0⟩
  have nc := QuadraticBezier.distance_to_point_nonneg (linBez 3 24) ⟨27, 0⟩
  have qa : (linBez 3 24).distance_to_point ⟨3, 0⟩ ^ 2 ≤ 0 := by nlinarith
  have qb : (linBez 3 24).distance_to_point ⟨15, 0⟩ ^ 2 ≤ 144 / 2401 := by nlinarith
  have qc : (linBez 3 24).distance_to_point ⟨27, 0⟩ ^ 2 ≤ 0 := by nlinarith
  linarith

theorem err57_le : compute_error (linBez 27 24) [(⟨27, 0⟩ : Point2D), ⟨39, 0⟩, ⟨51, 0⟩]
    ≤ 48 / 2401 := by
  rw [compute_error_three]
  have hD0 : (0:ℝ) ≤ 24 := by norm_num
  have hD1 : (24:ℝ) ≤ 100 := by norm_num
  have ha : (linBez 27 24).distance_to_point ⟨27, 0⟩ ≤ 0 := by
    have h := linBez_dist_le 27 24 hD0 hD1 27 0 (by norm_num)
    rw [show |(27:ℝ) + 24 * (((0:ℕ):ℝ) / 49) - 27| = 0 from by norm_num] at h
    exact h
  have hb : (linBez 27 24).distance_to_point ⟨39, 0⟩ ≤ 12 / 49 := by
    have h := linBez_dist_le 27 24 hD0 hD1 39 24 (by norm_num)
    rw [show |(27:ℝ) + 24 * (((24:ℕ):ℝ) / 49) - 39| = 12 / 49 from by
      rw [show (27:ℝ) + 24 * (((24:ℕ):ℝ) / 49) - 39 = -(12 / 49) by push_cast; ring,
        abs_neg, abs_of_nonneg (by norm_num : (0:ℝ) ≤ 12 / 49)]] at h
    exact h
  have hc : (linBez 27 24).distance_to_point ⟨51, 0⟩ ≤ 0 := by
    have h := linBez_dist_le 27 24 hD0 hD1 51 49 (by norm_num)
    rw [show |(27:ℝ) + 24 * (((49:ℕ):ℝ) / 49) - 51| = 0 from by push_cast; norm_num] at h
    exact h
  have na := QuadraticBezier.distance_to_point_nonneg (linBez 27 24) ⟨27, 0⟩
  have nb := QuadraticBezier.distance_to_point_nonneg (linBez 27 24) ⟨39, 0⟩
  have nc := QuadraticBezier.distance_to_point_nonneg (linBez 27 24) ⟨51, 0⟩
  have qa : (linBez 27 24).distance_to_point ⟨27, 0⟩ ^ 2 ≤ 0 := by nlinarith
  have qb : (linBez 27 24).distance_to_point ⟨39, 0⟩ ^ 2 ≤ 144 / 2401 := by nlinarith
  have qc : (linBez 27 24).distance_to_point ⟨51, 0⟩ ^ 2 ≤ 0 := by nlinarith
  linarith

theorem err79_le : compute_error (linBez 51 24) [(⟨51, 0⟩ : Point2D), ⟨63, 0⟩, ⟨75, 0⟩]
    ≤ 48 / 2401 := by
  rw [compute_error_three]
  have hD0 : (0:ℝ) ≤ 24 := by norm_num
  have hD1 : (24:ℝ) ≤ 100 := by norm_num
  have ha : (linBez 51 24).distance_to_point ⟨51, 0⟩ ≤ 0 := by
    have h := linBez_dist_le 51 24 hD0 hD1 51 0 (by norm_num)
    rw [show |(51:ℝ) + 24 * (((0:ℕ):ℝ) / 49) - 51| = 0 from by norm_num] at h
    exact h
  have hb : (linBez 51 24).distance_to_point ⟨63, 0⟩ ≤ 12 / 49 := by
    have h := linBez_dist_le 51 24 hD0 hD1 63 24 (by norm_num)
    rw [show |(51:ℝ) + 24 * (((24:ℕ):ℝ) / 49) - 63| = 12 / 49 from by
      rw [show (51:ℝ) + 24 * (((24:ℕ):ℝ) / 49) - 63 = -(12 / 49) by push_cast; ring,
        abs_neg, abs_of_nonneg (by norm_num : (0:ℝ) ≤ 12 / 49)]] at h
    exact h
  have hc : (linBez 51 24).distance_to_point ⟨75, 0⟩ ≤ 0 := by
    have h := linBez_dist_le 51 24 hD0 hD1 75 49 (by norm_num)
    rw [show |(51:ℝ) + 24 * (((49:ℕ):ℝ) / 49) - 75| = 0 from by push_cast; norm_num] at h
    exact h
  have na := QuadraticBezier.distance_to_point_nonneg (linBez 51 24) ⟨51, 0⟩
  have nb := QuadraticBezier.distance_to_point_nonneg (linBez 51 24) ⟨63, 0⟩
  have nc := QuadraticBezier.distance_to_point_nonneg (linBez 51 24) ⟨75, 0⟩
  have qa : (linBez 51 24).distance_to_point ⟨51, 0⟩ ^ 2 ≤ 0 := by nlinarith
  have qb : (linBez 51 24).distance_to_point ⟨63, 0⟩ ^ 2 ≤ 144 / 2401 := by nlinarith
  have qc : (linBez 51 24).distance_to_point ⟨75, 0⟩ ^ 2 ≤ 0 := by nlinarith
  linarith

theorem err79_ge : (48:ℝ) / 2401 ≤
    compute_error (linBez 51 24) [(⟨51, 0⟩ : Point2D), ⟨63, 0⟩, ⟨75, 0⟩] := by
  rw [compute_error_three]
  have hb : (12:ℝ) / 49 ≤ (linBez 51 24).distance_to_point ⟨63, 0⟩ := by
    have h := linBez_dist_ge 51 24 63 51 24 63 (by norm_num) (by norm_num) (by norm_num)
      (by norm_num) (by norm_num) 12 (fun k => by
        rw [show (24:ℤ) * k + 49 * (51 - 63) = 12 * (2 * k - 49) by ring]
        exact abs_mul_ge 12 _ (by norm_num) (by omega))
    simpa using h
  have qb : (144:ℝ) / 2401 ≤ (linBez 51 24).distance_to_point ⟨63, 0⟩ ^ 2 := by
    calc (144:ℝ) / 2401 = (12 / 49) ^ 2 := by norm_num
      _ ≤ _ := pow_le_pow_left (by norm_num) hb 2
  have sa := sq_nonneg ((linBez 51 24).distance_to_point ⟨51, 0⟩)
  have sc := sq_nonneg ((linBez 51 24).distance_to_point ⟨75, 0⟩)
  linarith

theorem err69_ge : (72:ℝ) / 2401 ≤
    compute_error (linBez 39 36) [(⟨39, 0⟩ : Point2D), ⟨51, 0⟩, ⟨63, 0⟩, ⟨75, 0⟩] := by
  rw [compute_error_four]
  have hb : (12:ℝ) / 49 ≤ (linBez 39 36).distance_to_point ⟨51, 0⟩ := by
    have h := linBez_dist_ge 39 36 51 39 36 51 (by norm_num) (by norm_num) (by norm_num)
      (by norm_num) (by norm_num) 12 (fun k => by
        rw [show (36:ℤ) * k + 49 * (39 - 51) = 12 * (3 * k - 49) by ring]
        exact abs_mul_ge 12 _ (by norm_num) (by omega))
    simpa using h
  have hcd : (12:ℝ) / 49 ≤ (linBez 39 36).distance_to_point ⟨63, 0⟩ := by
    have h := linBez_dist_ge 39 36 63 39 36 63 (by norm_num) (by norm_num) (by norm_num)
      (by norm_num) (by norm_num) 12 (fun k => by
        rw [show (36:ℤ) * k + 49 * (39 - 63) = 12 * (3 * k - 98) by ring]
        exact abs_mul_ge 12 _ (by norm_num) (by omega))
    simpa using h
  have qb : (144:ℝ) / 2401 ≤ (linBez 39 36).distance_to_point ⟨51, 0⟩ ^ 2 := by
    calc (144:ℝ) / 2401 = (12 / 49) ^ 2 := by norm_num
      _ ≤ _ := pow_le_pow_left (by norm_num) hb 2
  have qc : (144:ℝ) / 2401 ≤ (linBez 39 36).distance_to_point ⟨63, 0⟩ ^ 2 := by
    calc (144:ℝ) / 2401 = (12 / 49) ^ 2 := by norm_num
      _ ≤ _ := pow_le_pow_left (by norm_num) hcd 2
  have sa := sq_nonneg ((linBez 39 36).distance_to_point ⟨39, 0⟩)
  have sd := sq_nonneg ((linBez 39 36).distance_to_point ⟨75, 0⟩)
  linarith

end BezierDP

namespace BezierDP

open BezierFitter

/-! ### Acceptance and rejection of the C4 instance intervals -/

theorem acc03_e2 :
    ¬ (((DPOptimizer.errOf pts10 cfgE2 0 3 : ℝ) : WithTop ℝ) > cfgE2.max_error) := by
  rw [DPOptimizer.errOf, show DPOptimizer.slice pts10 0 3 = ptsI1 from rfl,
    show cfgE2.max_error = ((1 / 40 : ℝ) : WithTop ℝ) from rfl,
    fit_segment_with_limit_gt_iff,
    show fit_segment ptsI1 = ⟨fitLS ptsI1, compute_error (fitLS ptsI1) ptsI1⟩ from rfl,
    fitLSB]
  rw [gt_iff_lt, WithTop.coe_lt_coe, not_lt]
  exact le_trans computeErrB_le (by norm_num)

theorem acc35_e2 :
    ¬ (((DPOptimizer.errOf pts10 cfgE2 3 5 : ℝ) : WithTop ℝ) > cfgE2.max_error) := by
  rw [DPOptimizer.errOf,
    show DPOptimizer.slice pts10 3 5 = [(⟨3, 0⟩ : Point2D), ⟨15, 0⟩, ⟨27, 0⟩] from rfl,
    show cfgE2.max_error = ((1 / 40 : ℝ) : WithTop ℝ) from rfl,
    fit_segment_with_limit_gt_iff,
    show fit_segment [(⟨3, 0⟩ : Point2D), ⟨15, 0⟩, ⟨27, 0⟩] =
      ⟨fitLS [(⟨3, 0⟩ : Point2D), ⟨15, 0⟩, ⟨27, 0⟩],
       compute_error (fitLS [(⟨3, 0⟩ : Point2D), ⟨15, 0⟩, ⟨27, 0⟩])
         [(⟨3, 0⟩ : Point2D), ⟨15, 0⟩, ⟨27, 0⟩]⟩ from rfl,
    fitLS35]
  rw [gt_iff_lt, WithTop.coe_lt_coe, not_lt]
  exact le_trans err35_le (by norm_num)

theorem acc57_e2 :
    ¬ (((DPOptimizer.errOf pts10 cfgE2 5 7 : ℝ) : WithTop ℝ) > cfgE2.max_error) := by
  rw [DPOptimizer.errOf,
    show DPOptimizer.slice pts10 5 7 = [(⟨27, 0⟩ : Point2D), ⟨39, 0⟩, ⟨51, 0⟩] from rfl,
    show cfgE2.max_error = ((1 / 40 : ℝ) : WithTop ℝ) from rfl,
    fit_segment_with_limit_gt_iff,
    show fit_segment [(⟨27, 0⟩ : Point2D), ⟨39, 0⟩, ⟨51, 0⟩] =
      ⟨fitLS [(⟨27, 0⟩ : Point2D), ⟨39, 0⟩, ⟨51, 0⟩],
       compute_error (fitLS [(⟨27, 0⟩ : Point2D), ⟨39, 0⟩, ⟨51, 0⟩])
         [(⟨27, 0⟩ : Point2D), ⟨39, 0⟩, ⟨51, 0⟩]⟩ from rfl,
    fitLS57]
  rw [gt_iff_lt, WithTop.coe_lt_coe, not_lt]
  exact le_trans err57_le (by norm_num)

theorem acc79_e2 :
    ¬ (((DPOptimizer.errOf pts10 cfgE2 7 9 : ℝ) : WithTop ℝ) > cfgE2.max_error) := by
  rw [DPOptimizer.errOf,
    show DPOptimizer.slice pts10 7 9 = [(⟨51, 0⟩ : Point2D), ⟨63, 0⟩, ⟨75, 0⟩] from rfl,
    show cfgE2.max_error = ((1 / 40 : ℝ) : WithTop ℝ) from rfl,
    fit_segment_with_limit_gt_iff,
    show fit_segment [(⟨51, 0⟩ : Point2D), ⟨63, 0⟩, ⟨75, 0⟩] =
      ⟨fitLS [(⟨51, 0⟩ : Point2D), ⟨63, 0⟩, ⟨75, 0⟩],
       compute_error (fitLS [(⟨51, 0⟩ : Point2D), ⟨63, 0⟩, ⟨75, 0⟩])
         [(⟨51, 0⟩ : Point2D), ⟨63, 0⟩, ⟨75, 0⟩]⟩ from rfl,
    fitLS79]
  rw [gt_iff_lt, WithTop.coe_lt_coe, not_lt]
  exact le_trans err79_le (by norm_num)

theorem rej69_gen (ε : ℝ) (hε : ε < 72 / 2401) :
    (((DPOptimizer.errOf pts10 (⟨3, 4, ((ε : ℝ) : WithTop ℝ)⟩ : FitConfig) 6 9 : ℝ) :
      WithTop ℝ) > (⟨3, 4, ((ε : ℝ) : WithTop ℝ)⟩ : FitConfig).max_error) := by
  rw [DPOptimizer.errOf,
    show DPOptimizer.slice pts10 6 9 = [(⟨39, 0⟩ : Point2D), ⟨51, 0⟩, ⟨63, 0⟩, ⟨75, 0⟩]
      from rfl,
    show (⟨3, 4, ((ε : ℝ) : WithTop ℝ)⟩ : FitConfig).max_error = ((ε : ℝ) : WithTop ℝ)
      from rfl,
    fit_segment_with_limit_gt_iff,
    show fit_segment [(⟨39, 0⟩ : Point2D), ⟨51, 0⟩, ⟨63, 0⟩, ⟨75, 0⟩] =
      ⟨fitLS [(⟨39, 0⟩ : Point2D), ⟨51, 0⟩, ⟨63, 0⟩, ⟨75, 0⟩],
       compute_error (fitLS [(⟨39, 0⟩ : Point2D), ⟨51, 0⟩, ⟨63, 0⟩, ⟨75, 0⟩])
         [(⟨39, 0⟩ : Point2D), ⟨51, 0⟩, ⟨63, 0⟩, ⟨75, 0⟩]⟩ from rfl,
    fitLS69]
  rw [gt_iff_lt, WithTop.coe_lt_coe]
  exact lt_of_lt_of_le hε err69_ge

theorem rej79_gen (ε : ℝ) (hε : ε < 48 / 2401) :
    (((DPOptimizer.errOf pts10 (⟨3, 4, ((ε : ℝ) : WithTop ℝ)⟩ : FitConfig) 7 9 : ℝ) :
      WithTop ℝ) > (⟨3, 4, ((ε : ℝ) : WithTop ℝ)⟩ : FitConfig).max_error) := by
  rw [DPOptimizer.errOf,
    show DPOptimizer.slice pts10 7 9 = [(⟨51, 0⟩ : Point2D), ⟨63, 0⟩, ⟨75, 0⟩] from rfl,
    show (⟨3, 4, ((ε : ℝ) : WithTop ℝ)⟩ : FitConfig).max_error = ((ε : ℝ) : WithTop ℝ)
      from rfl,
    fit_segment_with_limit_gt_iff,
    show fit_segment [(⟨51, 0⟩ : Point2D), ⟨63, 0⟩, ⟨75, 0⟩] =
      ⟨fitLS [(⟨51, 0⟩ : Point2D), ⟨63, 0⟩, ⟨75, 0⟩],
       compute_error (fitLS [(⟨51, 0⟩ : Point2D), ⟨63, 0⟩, ⟨75, 0⟩])
         [(⟨51, 0⟩ : Point2D), ⟨63, 0⟩, ⟨75, 0⟩]⟩ from rfl,
    fitLS79]
  rw [gt_iff_lt, WithTop.coe_lt_coe]
  exact lt_of_lt_of_le hε err79_ge

namespace DPOptimizer

/-- Exhaustive inversion of the chains on the C4 instance: breakpoints can
only go 0 → 3 → {5, 6} → {7, 8} → 9, giving 3 segments through (6,9) or 4
segments through (7,9). -/
theorem chain_pts10_inv (ε : WithTop ℝ) : ∀ i, ∀ {s : ℕ} {e : ℝ},
    CoverChain pts10 (⟨3, 4, ε⟩ : FitConfig) i s e →
    (i = 0 ∧ s = 0) ∨ (i = 3 ∧ s = 1) ∨ (i = 5 ∧ s = 2) ∨ (i = 6 ∧ s = 2) ∨
    (i = 7 ∧ s = 3) ∨ (i = 8 ∧ s = 3) ∨
    (i = 9 ∧ ((s = 3 ∧
        ¬ (((errOf pts10 (⟨3, 4, ε⟩ : FitConfig) 6 9 : ℝ) : WithTop ℝ) > ε)) ∨
      (s = 4 ∧ ¬ (((errOf pts10 (⟨3, 4, ε⟩ : FitConfig) 7 9 : ℝ) : WithTop ℝ) > ε)))) := by
  intro i
  induction i using Nat.strong_induction_on with
  | _ i ih =>
    intro s e h
    cases h with
    | nil => exact Or.inl ⟨rfl, rfl⟩
    | @cons j s' e' _ hc hcond herr =>
      have h1 : (⟨3, 4, ε⟩ : FitConfig).min_segment_len ≤ i := hcond.1
      have h2 : i < pts10.length := hcond.2.1
      have h3 : jStart (⟨3, 4, ε⟩ : FitConfig) i ≤ j := hcond.2.2.1
      have h4 : j ≤ jEnd (⟨3, 4, ε⟩ : FitConfig) i := hcond.2.2.2
      rw [show (⟨3, 4, ε⟩ : FitConfig).min_segment_len = 3 from rfl] at h1
      rw [show pts10.length = 10 from rfl] at h2
      rw [jStart, show maxLenEff (⟨3, 4, ε⟩ : FitConfig) = 4 from rfl] at h3
      rw [jEnd, if_pos (show (0:ℕ) < (⟨3, 4, ε⟩ : FitConfig).min_segment_len from
          Nat.succ_pos 2),
        show (⟨3, 4, ε⟩ : FitConfig).min_segment_len = 3 from rfl] at h4
      have hjlt : j < i := by omega
      rcases ih j hjlt hc with ⟨hj, hs⟩ | ⟨hj, hs⟩ | ⟨hj, hs⟩ | ⟨hj, hs⟩ | ⟨hj, hs⟩ |
        ⟨hj, hs⟩ | ⟨hj, hcase⟩
      · subst hj
        subst hs
        exact Or.inr (Or.inl ⟨by omega, rfl⟩)
      · subst hj
        subst hs
        have hi : i = 5 ∨ i = 6 := by omega
        rcases hi with rfl | rfl
        · exact Or.inr (Or.inr (Or.inl ⟨rfl, rfl⟩))
        · exact Or.inr (Or.inr (Or.inr (Or.inl ⟨rfl, rfl⟩)))
      · subst hj
        subst hs
        have hi : i = 7 ∨ i = 8 := by omega
        rcases hi with rfl | rfl
        · exact Or.inr (Or.inr (Or.inr (Or.inr (Or.inl ⟨rfl, rfl⟩))))
        · exact Or.inr (Or.inr (Or.inr (Or.inr (Or.inr (Or.inl ⟨rfl, rfl⟩)))))
      · subst hj
        subst hs
        have hi : i = 8 ∨ i = 9 := by omega
        rcases hi with rfl | rfl
        · exact Or.inr (Or.inr (Or.inr (Or.inr (Or.inr (Or.inl ⟨rfl, rfl⟩)))))
        · exact Or.inr (Or.inr (Or.inr (Or.inr (Or.inr (Or.inr
            ⟨rfl, Or.inl ⟨rfl, herr⟩⟩)))))
      · subst hj
        subst hs
        have hi : i = 9 := by omega
        subst hi
        exact Or.inr (Or.inr (Or.inr (Or.inr (Or.inr (Or.inr
          ⟨rfl, Or.inr ⟨rfl, herr⟩⟩)))))
      · subst hj
        exact absurd h2 (by omega)
      · subst hj
        exact absurd h2 (by omega)

/-- The ε1 = 10⁻⁶ pass on the C4 instance fails: every chain's final
interval is rejected. -/
theorem once10_e1_none : optimizeOnce pts10 cfgTiny = none := by
  rw [optimizeOnce_none_iff pts10 cfgTiny le_rfl
    (show cfgTiny.min_segment_len < pts10.length from by decide)]
  intro s e h
  have h9 : CoverChain pts10 (⟨3, 4, ((1 / 10 ^ 6 : ℝ) : WithTop ℝ)⟩ : FitConfig) 9 s e := h
  rcases chain_pts10_inv _ 9 h9 with ⟨h0, _⟩ | ⟨h0, _⟩ | ⟨h0, _⟩ | ⟨h0, _⟩ | ⟨h0, _⟩ |
    ⟨h0, _⟩ | ⟨_, hcase⟩
  · omega
  · omega
  · omega
  · omega
  · omega
  · omega
  · rcases hcase with ⟨_, hacc⟩ | ⟨_, hacc⟩
    · exact hacc (rej69_gen (1 / 10 ^ 6) (by norm_num))
    · exact hacc (rej79_gen (1 / 10 ^ 6) (by norm_num))

/-- The ε = ∞ fallback on the C4 instance returns the minimal, 3-segment
cover. -/
theorem once10_fb3 : ∃ r, optimizeOnce pts10 (fallbackConfig cfgTiny) = some r ∧
    r.num_segments = 3 := by
  rw [fb_tiny]
  have hn : (⟨3, 4, (⊤ : WithTop ℝ)⟩ : FitConfig).min_segment_len < pts10.length := by
    decide
  have hc03 : cacheCond pts10.length (⟨3, 4, (⊤ : WithTop ℝ)⟩ : FitConfig) 0 3 := by
    rw [show pts10.length = 10 from rfl]
    decide
  have hc36 : cacheCond pts10.length (⟨3, 4, (⊤ : WithTop ℝ)⟩ : FitConfig) 3 6 := by
    rw [show pts10.length = 10 from rfl]
    decide
  have hc69 : cacheCond pts10.length (⟨3, 4, (⊤ : WithTop ℝ)⟩ : FitConfig) 6 9 := by
    rw [show pts10.length = 10 from rfl]
    decide
  have hch3 : CoverChain pts10 (⟨3, 4, (⊤ : WithTop ℝ)⟩ : FitConfig) 9 3
      (((0 + errOf pts10 (⟨3, 4, (⊤ : WithTop ℝ)⟩ : FitConfig) 0 3) +
        errOf pts10 (⟨3, 4, (⊤ : WithTop ℝ)⟩ : FitConfig) 3 6) +
        errOf pts10 (⟨3, 4, (⊤ : WithTop ℝ)⟩ : FitConfig) 6 9) :=
    CoverChain.cons (CoverChain.cons (CoverChain.cons CoverChain.nil hc03 not_top_lt)
      hc36 not_top_lt) hc69 not_top_lt
  obtain ⟨r, hr⟩ := optimizeOnce_isSome_of_chain pts10 ⟨3, 4, ⊤⟩ le_rfl hn hch3
  obtain ⟨s, e, _, hchain, hminle, hnum, _⟩ :=
    optimizeOnce_some_spec pts10 ⟨3, 4, ⊤⟩ le_rfl hn hr
  have hchain9 : CoverChain pts10 (⟨3, 4, (⊤ : WithTop ℝ)⟩ : FitConfig) 9 s e := hchain
  have hle3 := hminle 3 _ hch3
  have hs3 : s = 3 := by
    rcases chain_pts10_inv ⊤ 9 hchain9 with ⟨h0, _⟩ | ⟨h0, _⟩ | ⟨h0, _⟩ | ⟨h0, _⟩ |
      ⟨h0, _⟩ | ⟨h0, _⟩ | ⟨_, hcase⟩
    · omega
    · omega
    · omega
    · omega
    · omega
    · omega
    · rcases hcase with ⟨hs, _⟩ | ⟨hs, _⟩
      · exact hs
      · simp only [LexLe] at hle3
        rcases hle3 with hlt | ⟨heq, _⟩ <;> omega
  exact ⟨r, hr, by rw [hnum]; exact hs3⟩

/-- The ε2 = 1/40 pass on the C4 instance succeeds with the 4-segment
cover: the width-3 intervals pass, the 3-segment cover's interval (6,9)
fails. -/
theorem once10_e2_4 : ∃ r, optimizeOnce pts10 cfgE2 = some r ∧ r.num_segments = 4 := by
  have hn : cfgE2.min_segment_len < pts10.length := by decide
  have hc03 : cacheCond pts10.length cfgE2 0 3 := by
    rw [show pts10.length = 10 from rfl]
    decide
  have hc35 : cacheCond pts10.length cfgE2 3 5 := by
    rw [show pts10.length = 10 from rfl]
    decide
  have hc57 : cacheCond pts10.length cfgE2 5 7 := by
    rw [show pts10.length = 10 from rfl]
    decide
  have hc79 : cacheCond pts10.length cfgE2 7 9 := by
    rw [show pts10.length = 10 from rfl]
    decide
  have hch4 : CoverChain pts10 cfgE2 9 4
      ((((0 + errOf pts10 cfgE2 0 3) + errOf pts10 cfgE2 3 5) + errOf pts10 cfgE2 5 7) +
        errOf pts10 cfgE2 7 9) :=
    CoverChain.cons (CoverChain.cons (CoverChain.cons (CoverChain.cons CoverChain.nil
      hc03 acc03_e2) hc35 acc35_e2) hc57 acc57_e2) hc79 acc79_e2
  obtain ⟨r, hr⟩ := optimizeOnce_isSome_of_chain pts10 cfgE2 le_rfl hn hch4
  obtain ⟨s, e, _, hchain, _, hnum, _⟩ :=
    optimizeOnce_some_spec pts10 cfgE2 le_rfl hn hr
  have hchain9 : CoverChain pts10 (⟨3, 4, ((1 / 40 : ℝ) : WithTop ℝ)⟩ : FitConfig) 9 s e :=
    hchain
  have hs4 : s = 4 := by
    rcases chain_pts10_inv _ 9 hchain9 with ⟨h0, _⟩ | ⟨h0, _⟩ | ⟨h0, _⟩ | ⟨h0, _⟩ |
      ⟨h0, _⟩ | ⟨h0, _⟩ | ⟨_, hcase⟩
    · omega
    · omega
    · omega
    · omega
    · omega
    · omega
    · rcases hcase with ⟨_, hacc⟩ | ⟨hs, _⟩
      · exact absurd (rej69_gen (1 / 40) (by norm_num)) hacc
      · exact hs
  exact ⟨r, hr, by rw [hnum]; exact hs4⟩

end DPOptimizer

open DPOptimizer in
/-- C4 counterexample: on the ten collinear samples with the same length
window (3, 4), the run with the *smaller* ceiling ε1 = 10⁻⁶ (which starves
and falls back to ε = ∞) returns 3 segments, while the run with the larger
ceiling ε2 = 1/40 returns 4: raising ε increased the segment count. -/
theorem C4_counterexample :
    ∃ r1 r2, optimize pts10 cfgTiny = some r1 ∧ optimize pts10 cfgE2 = some r2 ∧
      cfgTiny.max_error ≤ cfgE2.max_error ∧
      cfgTiny.min_segment_len = cfgE2.min_segment_len ∧
      cfgTiny.max_segment_len = cfgE2.max_segment_len ∧
      r1.num_segments = 3 ∧ r2.num_segments = 4 := by
  obtain ⟨r1, h1, hn1⟩ := once10_fb3
  obtain ⟨r2, h2, hn2⟩ := once10_e2_4
  refine ⟨r1, r2, ?_, ?_, ?_, rfl, rfl, hn1, hn2⟩
  · rw [optimize, once10_e1_none]
    exact h1
  · rw [optimize, h2]
  · show ((1 / 10 ^ 6 : ℝ) : WithTop ℝ) ≤ ((1 / 40 : ℝ) : WithTop ℝ)
    exact_mod_cast (by norm_num : (1 / 10 ^ 6 : ℝ) ≤ 1 / 40)

end BezierDP
